import Mathlib

/-!
# Mirror: tokenizer, recursive-descent parser and AST grouping

A shallow embedding of `src/mirror.js` (class `MirrorParser`, functions
`extractExpressions` and `groupSignaturesWithExamples`).

A JavaScript string is a sequence of UTF-16 code units, and the regular
expressions of the source carry no `u` flag, so every character class is
decided on single code units.  A string is therefore a `List Nat` of code
units here; `units` writes one from a Lean string literal.
-/

namespace Mirror

/-! ## Strings and character classes -/

/-- A JavaScript string: its UTF-16 code units. -/
abbrev Token := List Nat

/-- UTF-16 code units of one Unicode scalar value. -/
def unitsOfChar (c : Char) : List Nat :=
  if c.toNat < 65536 then [c.toNat]
  else [55296 + (c.toNat - 65536) / 1024, 56320 + (c.toNat - 65536) % 1024]

/-- UTF-16 code units of a string literal. -/
def units (s : String) : Token := s.toList.flatMap unitsOfChar

/-- Regex class `\d`. -/
def isDigit (c : Nat) : Bool := decide (48 ≤ c) && decide (c ≤ 57)

/-- Regex class `\w`, that is `[A-Za-z0-9_]`. -/
def isWordChar (c : Nat) : Bool :=
  isDigit c || (decide (65 ≤ c) && decide (c ≤ 90)) || c == 95 ||
    (decide (97 ≤ c) && decide (c ≤ 122))

/-- Regex class `[a-zA-Z_]`. -/
def isIdentStart (c : Nat) : Bool :=
  (decide (97 ≤ c) && decide (c ≤ 122)) || (decide (65 ≤ c) && decide (c ≤ 90)) || c == 95

/-- Regex class `[.,:()\[\]{}]`. -/
def isPunct (c : Nat) : Bool :=
  c == 46 || c == 44 || c == 58 || c == 40 || c == 41 || c == 91 || c == 93 ||
    c == 123 || c == 125

/-- Regex class `\s` of ECMAScript: white space and line terminators. -/
def isSpace (c : Nat) : Bool :=
  (decide (9 ≤ c) && decide (c ≤ 13)) || c == 32 || c == 160 || c == 5760 ||
    (decide (8192 ≤ c) && decide (c ≤ 8202)) || c == 8232 || c == 8233 || c == 8239 ||
    c == 8287 || c == 12288 || c == 65279

/-- Line terminators, the code units the regex `.` does not match. -/
def isLineTerminator (c : Nat) : Bool :=
  c == 10 || c == 13 || c == 8232 || c == 8233

/-! ## Tokenizer: `input.match(/\w+|->|[.,:()\[\]{}]|"(?:\\"|[^"])*"|\d+|\S/g) || []` -/

/-- The part `(?:\\"|[^"])*"` of the string alternative, tried on the text after
the opening quote; the result is the matched text, closing quote included.
The loop prefers `\\"` over `[^"]` and another round over leaving; when the
text runs out after a `\\"` round, the engine backtracks, lets `[^"]` take
the backslash and closes on the quote. -/
def stringBody : List Nat → Option (List Nat)
  | [] => none
  | 92 :: 34 :: r =>
    match stringBody r with
    | some b => some (92 :: 34 :: b)
    | none => some [92, 34]
  | c :: r => if c = 34 then some [34] else (stringBody r).map (c :: ·)

/-- Alternative `\w+` at a position whose first unit is `c`. -/
def altWord (c : Nat) (cs : List Nat) : Option Token :=
  if isWordChar c then some (c :: cs.takeWhile isWordChar) else none

/-- Alternative `->`. -/
def altArrow (c : Nat) (cs : List Nat) : Option Token :=
  if c = 45 ∧ cs.head? = some 62 then some [45, 62] else none

/-- Alternative `[.,:()\[\]{}]`. -/
def altPunct (c : Nat) : Option Token :=
  if isPunct c then some [c] else none

/-- Alternative `"(?:\\"|[^"])*"`. -/
def altString (c : Nat) (cs : List Nat) : Option Token :=
  if c = 34 then (stringBody cs).map (34 :: ·) else none

/-- Alternative `\d+`. -/
def altDigits (c : Nat) (cs : List Nat) : Option Token :=
  if isDigit c then some (c :: cs.takeWhile isDigit) else none

/-- Alternative `\S`. -/
def altNonSpace (c : Nat) : Option Token :=
  if isSpace c then none else some [c]

/-- One match attempt of the regex at a position: the alternatives in the
order of the source, the first that matches wins. -/
def matchAt (c : Nat) (cs : List Nat) : Option Token :=
  altWord c cs <|> altArrow c cs <|> altPunct c <|> altString c cs <|>
    altDigits c cs <|> altNonSpace c

/-- Global matching: at an index where nothing matches the engine moves on by
one unit; after a match it resumes right behind it (`skip` counts the units
of the last match that are still to be passed). -/
def scan : Nat → List Nat → List Token
  | _, [] => []
  | skip + 1, _ :: cs => scan skip cs
  | 0, c :: cs =>
    match matchAt c cs with
    | none => scan 0 cs
    | some tok => tok :: scan (tok.length - 1) cs

/-- Tokens of an input, `this.tokens` after the constructor. -/
def tokenize (input : List Nat) : List Token := scan 0 input

/-! ## Abstract syntax -/

/-- A type expression: `parseType` returns either the token it has just passed
(a JavaScript string, `undefined` when there is none) or an object
`{type: 'list', innerType}` or `{type: 'dict', innerType}`. -/
inductive TypeExpr where
  | name (token : Option Token)
  | list (innerType : TypeExpr)
  | dict (innerType : TypeExpr)
  deriving DecidableEq, Repr

/-- A JavaScript number as `parseFloat` returns it for a token of the shape
`\d+(\.\d+)?` or for `undefined`: a non-negative finite double, `Infinity` or
`NaN`.  The finite double `numerator / 2 ^ scale` is kept in lowest terms
(`scale = 0` or `numerator` odd), so every double has one representation and
a natural number `w` is `finite w 0`. -/
inductive JSNumber where
  | finite (numerator scale : Nat)
  | infinity
  | nan
  deriving DecidableEq, Repr

/-- A literal value: `parseLiteral` returns the token itself for `true`,
`false` and string literals, a number for number tokens, and an object
`{type: 'list', value}` or `{type: 'dict', key, value}`. -/
inductive Literal where
  | str (token : Option Token)
  | num (value : JSNumber)
  | list (value : Literal)
  | dict (key value : Literal)
  deriving DecidableEq, Repr

/-- An item of a `mix` array: a nested object `{type: 'expression', name, mix}`
or a literal value. -/
inductive MixItem where
  | expression (name : Option Token) (mix : List MixItem)
  | literal (value : Literal)

/-- A parameter `{name, type}`. -/
structure Parameter where
  name : Option Token
  type : TypeExpr
  deriving DecidableEq, Repr

/-- A statement of the program, tagged by its `type` field. -/
inductive Statement where
  | signature (name : Option Token) (parameters : List Parameter) (returnType : TypeExpr)
  | example (name : Option Token) (literals : List Literal) (result : Literal)
  | expression (name : Option Token) (mix : List MixItem)

/-- The message of each `throw new Error(...)` of the parser, with the token
`this.peek()` found (`none` is `undefined`). -/
inductive ParseError where
  | unexpectedToken (found : Option Token)
  | unexpectedType (found : Option Token)
  | unexpectedLiteral (found : Option Token)
  | expected (type : Token) (found : Option Token)
  | expectedIdentifier (found : Option Token)
  deriving DecidableEq, Repr

/-- String conversion of a value read from the token array. -/
def toStr : Option Token → Token
  | some t => t
  | none => units "undefined"

/-- The text of the error message. -/
def ParseError.message : ParseError → Token
  | .unexpectedToken t => units "Unexpected token: " ++ toStr t
  | .unexpectedType t => units "Unexpected type: " ++ toStr t
  | .unexpectedLiteral t => units "Unexpected literal: " ++ toStr t
  | .expected ty t => units "Expected \x27" ++ ty ++ units "\x27, but got \x27" ++ toStr t ++ units "\x27"
  | .expectedIdentifier t => units "Expected identifier, but got \x27" ++ toStr t ++ units "\x27"

/-! ## Parser -/

/-- Outcome of a parser method: it returns `value` and leaves the cursor
`this.current` at `cur`, or it throws.  `outOfFuel` is the recursion budget of
the embedding running out, not a behaviour of the program. -/
inductive Result (α : Type) where
  | ok (value : α) (cur : Nat)
  | throw (e : ParseError)
  | outOfFuel

/-- A parser method: it reads `this.tokens` and reads and writes `this.current`. -/
def P (α : Type) : Type := List Token → Nat → Result α

/-- Sequencing of two steps; an exception ends the run. -/
def P.bind {α β : Type} (p : P α) (k : α → P β) : P β := fun ts cur =>
  match p ts cur with
  | .ok a c => k a ts c
  | .throw e => .throw e
  | .outOfFuel => .outOfFuel

instance : Monad P where
  pure a := fun _ cur => .ok a cur
  bind := P.bind

/-- Statement `throw new Error(...)`. -/
def fail {α : Type} (e : ParseError) : P α := fun _ _ => .throw e

/-- Method `isAtEnd`. -/
def isAtEnd : P Bool := fun ts cur => .ok (decide (ts.length ≤ cur)) cur

/-- Method `peek`: `this.tokens[this.current]`. -/
def peek : P (Option Token) := fun ts cur => .ok ts[cur]? cur

/-- Method `previous`: `this.tokens[this.current - 1]`; index `-1` is `undefined`. -/
def previous : P (Option Token) := fun ts cur =>
  .ok (if cur = 0 then none else ts[cur - 1]?) cur

/-- Method `advance`. -/
def advance : P (Option Token) := do
  if !(← isAtEnd) then (fun _ cur => .ok () (cur + 1))
  previous

/-- Method `check`. -/
def check (type : Token) : P Bool := do
  if ← isAtEnd then return false
  return decide ((← peek) = some type)

/-- Method `match`: the first of `types` that the next token equals is passed. -/
def matchAny : List Token → P Bool
  | [] => return false
  | type :: types => do
    if ← check type then
      let _ ← advance
      return true
    matchAny types

/-- Regex test `/^[a-zA-Z_]\w*$/`. -/
def isIdentifier : Token → Bool
  | [] => false
  | c :: cs => isIdentStart c && cs.all isWordChar

/-- Regex test `/^\d+(\.\d+)?$/`. -/
def isNumber (t : Token) : Bool :=
  let intPart := t.takeWhile isDigit
  match t.dropWhile isDigit with
  | [] => !intPart.isEmpty
  | c :: frac => !intPart.isEmpty && c == 46 && !frac.isEmpty && frac.all isDigit

/-- Regex test `/^".*"$/`; the dot matches no line terminator. -/
def isString : Token → Bool
  | [] => false
  | c :: cs => c == 34 && !cs.isEmpty && cs.getLast? == some 34 &&
      cs.dropLast.all (fun u => !isLineTerminator u)

/-- Method `peekIdentifier`; `test` converts `undefined` to a string first. -/
def peekIdentifier : P Bool := do
  return isIdentifier (toStr (← peek))

/-- Method `matchNumber`. -/
def matchNumber : P Bool := do
  if isNumber (toStr (← peek)) then
    let _ ← advance
    return true
  return false

/-- Method `matchString`. -/
def matchString : P Bool := do
  if isString (toStr (← peek)) then
    let _ ← advance
    return true
  return false

/-- Method `consume`. -/
def consume (type : Token) : P (Option Token) := do
  if ← check type then advance
  else fail (.expected type (← peek))

/-- Method `consumeIdentifier`. -/
def consumeIdentifier : P (Option Token) := do
  if ← peekIdentifier then advance
  else fail (.expectedIdentifier (← peek))

/-- Decimal digits read left to right into a mantissa; other units are passed over. -/
def digitsValue (t : Token) : Nat :=
  (t.filter isDigit).foldl (fun acc c => 10 * acc + (c - 48)) 0

/-- Number of binary digits of `n`; `fuel ≥ n` is enough. -/
def bitLength : Nat → Nat → Nat
  | 0, _ => 0
  | fuel + 1, n => if n = 0 then 0 else bitLength fuel (n / 2) + 1

/-- The integer nearest to `a / b`, the even one of the two when `a / b` lies
in the middle between them. -/
def roundHalfEven (a b : Nat) : Nat :=
  if 2 * (a % b) < b then a / b
  else if b < 2 * (a % b) then a / b + 1
  else a / b + (a / b) % 2

/-- The fraction `m / 2 ^ s` in lowest terms. -/
def lowestTerms : Nat → Nat → Nat → Nat × Nat
  | 0, m, s => (m, s)
  | fuel + 1, m, s =>
    if s = 0 then (m, 0)
    else if m % 2 = 0 then lowestTerms fuel (m / 2) (s - 1)
    else (m, s)

/-- The double nearest to the fraction `n / d` (`d > 0`), as IEEE 754 rounds to
nearest with ties to even: with `2 ^ e ≤ n / d < 2 ^ (e + 1)` and
`E = max (e + 1022) 0`, the doubles around `n / d` are the multiples of
`2 ^ (E - 1074)` (53 significant bits, or fewer for a subnormal), `n / d` is
rounded to the nearest multiple, and a result of `2 ^ 1024` or more is
`Infinity`. -/
def toDouble (n d : Nat) : JSNumber :=
  if n = 0 then .finite 0 0
  else
    let a := bitLength n n
    let b := bitLength d d
    let ge : Bool := if b ≤ a then decide (d * 2 ^ (a - b) ≤ n) else decide (d ≤ n * 2 ^ (b - a))
    let E := if ge then a + 1022 - b else a + 1021 - b
    if 1074 ≤ E then
      let w := roundHalfEven n (d * 2 ^ (E - 1074)) * 2 ^ (E - 1074)
      if 2 ^ 1024 ≤ w then .infinity else .finite w 0
    else
      let r := lowestTerms (1074 - E) (roundHalfEven (n * 2 ^ (1074 - E)) d) (1074 - E)
      .finite r.1 r.2

/-- Function `parseFloat` on the values the parser passes to it: for a token of
the shape `\d+(\.\d+)?` the double nearest to the decimal it spells (the
digits over `10 ^ k`, `k` the number of digits after the point), `Infinity`
when that is out of range; `NaN` for `undefined`. -/
def parseFloat : Option Token → JSNumber
  | none => .nan
  | some t => toDouble (digitsValue t) (10 ^ ((t.dropWhile isDigit).length - 1))

/-- Method `parseType`. -/
def parseType : Nat → P TypeExpr
  | 0 => fun _ _ => .outOfFuel
  | fuel + 1 => do
    if ← matchAny [units "string", units "number", units "bool"] then
      return .name (← previous)
    else if ← matchAny [units "list["] then
      let innerType ← parseType fuel
      let _ ← consume (units "]")
      return .list innerType
    else if ← matchAny [units "dict\x7b"] then
      let innerType ← parseType fuel
      let _ ← consume (units "\x7d")
      return .dict innerType
    else fail (.unexpectedType (← peek))

/-- Method `parseParameters`; the `do ... while` loop is the recursion. -/
def parseParameters : Nat → P (List Parameter)
  | 0 => fun _ _ => .outOfFuel
  | fuel + 1 => do
    let name ← consumeIdentifier
    let _ ← consume (units ":")
    let paramType ← parseType fuel
    if ← matchAny [units ","] then
      return { name := name, type := paramType } :: (← parseParameters fuel)
    else return [{ name := name, type := paramType }]

/-- Method `parseSignature`. -/
def parseSignature (fuel : Nat) : P Statement := do
  let name ← consumeIdentifier
  let _ ← consume (units "(")
  let parameters ← parseParameters fuel
  let _ ← consume (units ")")
  let _ ← consume (units "->")
  let returnType ← parseType fuel
  return .signature name parameters returnType

/-- Method `parseLiteral`. -/
def parseLiteral : Nat → P Literal
  | 0 => fun _ _ => .outOfFuel
  | fuel + 1 => do
    if ← matchAny [units "true", units "false"] then
      return .str (← previous)
    else if ← matchNumber then
      return .num (parseFloat (← previous))
    else if ← matchString then
      return .str (← previous)
    else if ← matchAny [units "["] then
      let literal ← parseLiteral fuel
      let _ ← consume (units "]")
      return .list literal
    else if ← matchAny [units "\x7b"] then
      let key ← parseLiteral fuel
      let _ ← consume (units ":")
      let value ← parseLiteral fuel
      let _ ← consume (units "\x7d")
      return .dict key value
    else fail (.unexpectedLiteral (← peek))

/-- Method `parseLiterals`. -/
def parseLiterals : Nat → P (List Literal)
  | 0 => fun _ _ => .outOfFuel
  | fuel + 1 => do
    let literal ← parseLiteral fuel
    if ← matchAny [units ","] then
      return literal :: (← parseLiterals fuel)
    else return [literal]

/-- Method `parseExample`. -/
def parseExample (fuel : Nat) : P Statement := do
  let name ← consumeIdentifier
  let _ ← consume (units "(")
  let literals ← parseLiterals fuel
  let _ ← consume (units ")")
  let _ ← consume (units "=")
  let literal ← parseLiteral fuel
  return .example name literals literal

mutual
/-- Method `parseExpression`; the result is the pair of the fields `name` and
`mix` of the object `{type: 'expression', name, mix}`. -/
def parseExpression : Nat → P (Option Token × List MixItem)
  | 0 => fun _ _ => .outOfFuel
  | fuel + 1 => do
    let name ← consumeIdentifier
    let _ ← consume (units "(")
    let mix ← parseMix fuel
    let _ ← consume (units ")")
    return (name, mix)
/-- Method `parseMix`. -/
def parseMix : Nat → P (List MixItem)
  | 0 => fun _ _ => .outOfFuel
  | fuel + 1 => do
    let item ← (do
      if ← peekIdentifier then
        let e ← parseExpression fuel
        return MixItem.expression e.1 e.2
      else
        return MixItem.literal (← parseLiteral fuel))
    if ← matchAny [units ","] then
      return item :: (← parseMix fuel)
    else return [item]
end

/-- Method `parseStatement`. -/
def parseStatement (fuel : Nat) : P Statement := do
  if ← matchAny [units "signature"] then parseSignature fuel
  else if ← matchAny [units "example"] then parseExample fuel
  else if ← peekIdentifier then
    let e ← parseExpression fuel
    return .expression e.1 e.2
  else fail (.unexpectedToken (← peek))

/-- The loop of method `parse`: statements are collected until the cursor is at
the end; every statement is an object, so `if (stmt)` always holds. -/
def parseLoop : Nat → P (List Statement)
  | 0 => fun _ _ => .outOfFuel
  | fuel + 1 => do
    if ← isAtEnd then return []
    else
      let stmt ← parseStatement fuel
      return stmt :: (← parseLoop fuel)

/-- Outcome of a whole parse: the program returned or the error thrown. -/
inductive Outcome where
  | program (statements : List Statement)
  | error (e : ParseError)
  | outOfFuel

/-- Method `parse` of a parser whose `tokens` are `ts` and whose `current` is 0,
run with the recursion budget `ts.length + 2`: the loop and every `do ... while`
round pass at least one token, and so do two nested calls in a row. -/
def parse (ts : List Token) : Outcome :=
  match parseLoop (ts.length + 2) ts 0 with
  | .ok program _ => .program program
  | .throw e => .error e
  | .outOfFuel => .outOfFuel

/-- Expression `new MirrorParser(input).parse()`. -/
def parseSource (input : List Nat) : Outcome := parse (tokenize input)

/-! ## AST helper functions -/

/-- Field `type` of a statement object. -/
def Statement.type : Statement → Token
  | .signature _ _ _ => units "signature"
  | .example _ _ _ => units "example"
  | .expression _ _ => units "expression"

/-- Field `name` of a statement object. -/
def Statement.name : Statement → Option Token
  | .signature n _ _ => n
  | .example n _ _ => n
  | .expression n _ => n

/-- Function `extractExpressions`. -/
def extractExpressions (ast : List Statement) : List Statement :=
  ast.filter (fun node => node.type == units "expression")

/-- The object `{...signature, examples}`: the fields of the signature node,
copied by the spread, and one more field `examples`. -/
structure GroupedSignature where
  signature : Statement
  examples : List Statement

/-- Function `groupSignaturesWithExamples`. -/
def groupSignaturesWithExamples (ast : List Statement) : List GroupedSignature :=
  let signatures := ast.filter (fun node => node.type == units "signature")
  let examples := ast.filter (fun node => node.type == units "example")
  signatures.map (fun signature =>
    let matchingExamples := examples.filter (fun ex => ex.name == signature.name)
    { signature := signature, examples := matchingExamples })

/-! ## The grammar the parser accepts

Token slices paired with the value a normal return of each parser method is
proved to build from them (`parse_program_iff`). -/

/-- Token slices that spell a type expression, with the tree `parseType` builds. -/
inductive TypeG : List Token → TypeExpr → Prop
  | prim (t : Token) : t ∈ [units "string", units "number", units "bool"] →
      TypeG [t] (.name (some t))
  | list (s : List Token) (v : TypeExpr) : TypeG s v →
      TypeG (units "list[" :: s ++ [units "]"]) (.list v)
  | dict (s : List Token) (v : TypeExpr) : TypeG s v →
      TypeG (units "dict\x7b" :: s ++ [units "\x7d"]) (.dict v)

/-- Token slices that spell a parameter list `p_1: t_1, ..., p_k: t_k`, k ≥ 1. -/
inductive ParamsG : List Token → List Parameter → Prop
  | one (n : Token) (s : List Token) (ty : TypeExpr) : isIdentifier n = true → TypeG s ty →
      ParamsG (n :: units ":" :: s) [⟨some n, ty⟩]
  | cons (n : Token) (s : List Token) (ty : TypeExpr) (s2 : List Token) (ps : List Parameter) :
      isIdentifier n = true → TypeG s ty → ParamsG s2 ps →
      ParamsG (n :: units ":" :: s ++ units "," :: s2) (⟨some n, ty⟩ :: ps)

/-- Token slices that spell a literal, with the value `parseLiteral` builds. -/
inductive LitG : List Token → Literal → Prop
  | bool (t : Token) : t ∈ [units "true", units "false"] → LitG [t] (.str (some t))
  | number (t : Token) : isNumber t = true → LitG [t] (.num (parseFloat (some t)))
  | string (t : Token) : isString t = true → LitG [t] (.str (some t))
  | list (s : List Token) (v : Literal) : LitG s v →
      LitG (units "[" :: s ++ [units "]"]) (.list v)
  | dict (s1 : List Token) (k : Literal) (s2 : List Token) (v : Literal) :
      LitG s1 k → LitG s2 v →
      LitG (units "\x7b" :: s1 ++ units ":" :: s2 ++ [units "\x7d"]) (.dict k v)

/-- Token slices that spell a literal list `l_1, ..., l_k`, k ≥ 1. -/
inductive LitsG : List Token → List Literal → Prop
  | one (s : List Token) (l : Literal) : LitG s l → LitsG s [l]
  | cons (s : List Token) (l : Literal) (s2 : List Token) (ls : List Literal) :
      LitG s l → LitsG s2 ls → LitsG (s ++ units "," :: s2) (l :: ls)

/-- The slice does not start with an identifier-shaped token. -/
def NoIdentHead (s : List Token) : Prop :=
  ∀ t r, s = t :: r → isIdentifier t = false

/-- Token slices that spell a mix list `m_1, ..., m_k`, k ≥ 1: each item is a
call `n ( mix )` or a literal whose first token is not identifier-shaped. -/
inductive MixG : List Token → List MixItem → Prop
  | litLast (s : List Token) (l : Literal) : LitG s l → NoIdentHead s →
      MixG s [.literal l]
  | litCons (s : List Token) (l : Literal) (s2 : List Token) (m : List MixItem) :
      LitG s l → NoIdentHead s → MixG s2 m →
      MixG (s ++ units "," :: s2) (.literal l :: m)
  | callLast (n : Token) (s : List Token) (m : List MixItem) :
      isIdentifier n = true → MixG s m →
      MixG (n :: units "(" :: s ++ [units ")"]) [.expression (some n) m]
  | callCons (n : Token) (s : List Token) (m : List MixItem) (s2 : List Token)
      (m2 : List MixItem) :
      isIdentifier n = true → MixG s m → MixG s2 m2 →
      MixG (n :: units "(" :: s ++ units ")" :: units "," :: s2) (.expression (some n) m :: m2)

/-- Token slices that spell one statement. -/
inductive StmtG : List Token → Statement → Prop
  | sig (n : Token) (sp : List Token) (ps : List Parameter) (sr : List Token)
      (r : TypeExpr) : isIdentifier n = true → ParamsG sp ps → TypeG sr r →
      StmtG (units "signature" :: n :: units "(" :: sp ++ units ")" :: units "->" :: sr)
        (.signature (some n) ps r)
  | ex (n : Token) (sl : List Token) (ls : List Literal) (sr : List Token)
      (r : Literal) : isIdentifier n = true → LitsG sl ls → LitG sr r →
      StmtG (units "example" :: n :: units "(" :: sl ++ units ")" :: units "=" :: sr)
        (.example (some n) ls r)
  | expr (n : Token) (s : List Token) (m : List MixItem) :
      isIdentifier n = true → n ≠ units "signature" → n ≠ units "example" → MixG s m →
      StmtG (n :: units "(" :: s ++ [units ")"]) (.expression (some n) m)

/-- Token sequences that spell a program: statements one after the other. -/
inductive ProgG : List Token → List Statement → Prop
  | nil : ProgG [] []
  | cons (s : List Token) (st : Statement) (s2 : List Token) (p : List Statement) :
      StmtG s st → ProgG s2 p → ProgG (s ++ s2) (st :: p)

/-- What a normal return of `parseExpression` and of `parseMix` says about the
tokens passed. -/
def ExprSound (fuel : Nat) : Prop :=
  ∀ (ts : List Token) (cur : Nat) (v : Option Token × List MixItem) (c2 : Nat),
    parseExpression fuel ts cur = .ok v c2 →
    ∃ n s, v.1 = some n ∧ isIdentifier n = true ∧ MixG s v.2 ∧
      ts.drop cur = n :: units "(" :: (s ++ units ")" :: ts.drop c2) ∧
      c2 = cur + s.length + 3

/-- See `ExprSound`. -/
def MixSound (fuel : Nat) : Prop :=
  ∀ (ts : List Token) (cur : Nat) (v : List MixItem) (c2 : Nat),
    parseMix fuel ts cur = .ok v c2 →
    ∃ s, MixG s v ∧ ts.drop cur = s ++ ts.drop c2 ∧ c2 = cur + s.length

/-- The program continued: `p` put in front of what a later run returns. -/
def Result.prepend (p : List Statement) : Result (List Statement) → Result (List Statement)
  | .ok q c => .ok (p ++ q) c
  | .throw e => .throw e
  | .outOfFuel => .outOfFuel

/-! ## Words in a source text -/

/-- A word: one or more units of class `\w`. -/
def IsWord (w : List Nat) : Prop := w ≠ [] ∧ ∀ c ∈ w, isWordChar c = true

/-- The text does not go on with a unit of class `\w`. -/
def WordEnd (rest : List Nat) : Prop := ∀ c r, rest = c :: r → isWordChar c = false

/-! ## Source texts of the statement forms -/

/-- The primitive type names. -/
def primitiveTypes : List Token := [units "string", units "number", units "bool"]

/-- Source text `p_1: t_1, ..., p_k: t_k` of a parameter list. -/
def paramsText : List (Token × Token) → List Nat
  | [] => []
  | [q] => q.1 ++ units ": " ++ q.2
  | q :: q2 :: qs => q.1 ++ units ": " ++ q.2 ++ units ", " ++ paramsText (q2 :: qs)

/-- Source text `signature n(p_1: t_1, ..., p_k: t_k) -> r`. -/
def signatureText (n : Token) (ps : List (Token × Token)) (r : Token) : List Nat :=
  units "signature " ++ n ++ units "(" ++ paramsText ps ++ units ") -> " ++ r

/-- The parameter objects `{name: p_i, type: t_i}` in source order. -/
def parametersOf (ps : List (Token × Token)) : List Parameter :=
  ps.map (fun q => { name := some q.1, type := .name (some q.2) })

/-- The signature statement `{type: 'signature', name: n, parameters, returnType: r}`. -/
def signatureOf (n : Token) (ps : List (Token × Token)) (r : Token) : Statement :=
  .signature (some n) (parametersOf ps) (.name (some r))

/-- Every parameter name is an identifier and every parameter type is primitive. -/
def ValidParams (ps : List (Token × Token)) : Prop :=
  ∀ q ∈ ps, isIdentifier q.1 = true ∧ q.2 ∈ primitiveTypes

instance (ps : List (Token × Token)) : Decidable (ValidParams ps) := by
  unfold ValidParams; infer_instance

/-- Tokens of a parameter list. -/
def paramsTokens : List (Token × Token) → List Token
  | [] => []
  | [q] => [q.1, units ":", q.2]
  | q :: q2 :: qs => q.1 :: units ":" :: q.2 :: units "," :: paramsTokens (q2 :: qs)

/-- Tokens of a signature statement. -/
def signatureTokens (n : Token) (ps : List (Token × Token)) (r : Token) : List Token :=
  units "signature" :: n :: units "(" :: paramsTokens ps ++ [units ")", units "->", r]

/-! ## Statement kinds -/

/-- Whether a statement is an expression statement. -/
def Statement.isExpression : Statement → Bool
  | .expression _ _ => true
  | _ => false

/-! ## Number literals and example statements -/

/-- A non-negative integer literal: one or more decimal digits. -/
def IsDigits (d : Token) : Prop := d ≠ [] ∧ ∀ c ∈ d, isDigit c = true

instance (d : Token) : Decidable (IsDigits d) := by
  unfold IsDigits; infer_instance

/-- The literal value `parseLiteral` returns for a number token. -/
def numberOf (d : Token) : Literal := .num (parseFloat (some d))

/-! ## The Number value of a decimal numeral

The reference for `parseFloat` on a string of digits: ECMAScript's "the Number
value for x", stated as a property of the result and not as a computation. -/

/-- The natural number a string of decimal digits spells. -/
def decimalValue (d : Token) : Nat := Nat.ofDigits 10 (d.reverse.map (fun c => c - 48))

/-- The natural numbers among the finite doubles: `m * 2 ^ e` with a significand
`m` of at most 53 bits and an exponent `e` of at most 971. -/
def IsDoubleNat (w : Nat) : Prop := ∃ m e, m < 2 ^ 53 ∧ e ≤ 971 ∧ w = m * 2 ^ e

/-- The finite doubles: `m * 2 ^ e` with a significand `m` of at most 53 bits
and an exponent `e` from -1074 to 971. -/
def IsDouble (y : ℚ) : Prop :=
  ∃ m e : ℤ, |m| < 2 ^ 53 ∧ -1074 ≤ e ∧ e ≤ 971 ∧ y = m * (2 : ℚ) ^ e

/-- The values a number is rounded to: the finite doubles, and `2 ^ 1024`, which
stands for `Infinity`. -/
def IsCandidate (y : ℚ) : Prop := IsDouble y ∨ y = 2 ^ 1024

/-- Whether the 53-bit significand of `w` is even: `w` is zero, or
`w = s * 2 ^ (e - k)` with `2 ^ 52 ≤ s < 2 ^ 53` and `s` even. -/
def EvenSignificand (w : Nat) : Prop :=
  w = 0 ∨ ∃ m k e, 2 ^ 52 ≤ 2 * m ∧ 2 * m < 2 ^ 53 ∧ w * 2 ^ k = 2 * m * 2 ^ e

/-- The Number value of a natural number `v`, as ECMAScript defines it: of the
finite doubles and `2 ^ 1024`, the one closest to `v`; of two equally close
ones, the one with the even significand; and `Infinity` where that is
`2 ^ 1024`.  The value chosen is the natural number `w`. -/
def IsNumberOf (v : Nat) (x : JSNumber) : Prop :=
  ∃ w : Nat, IsCandidate w ∧
    (∀ y, IsCandidate y → |(v : ℚ) - w| ≤ |(v : ℚ) - y|) ∧
    (∀ y, IsCandidate y → y ≠ w → |(v : ℚ) - y| = |(v : ℚ) - w| → EvenSignificand w) ∧
    x = if w = 2 ^ 1024 then .infinity else .finite w 0

/-- The natural numbers among the candidates. -/
def IsCandidateNat (w : Nat) : Prop := IsDoubleNat w ∨ w = 2 ^ 1024

/-- Distance of two natural numbers. -/
def gap (a b : Nat) : Nat := (a - b) + (b - a)

/-- The choice of `IsNumberOf` among the natural numbers only; it is the same
choice, as every other double is farther from `v` than a natural one. -/
def IsNumberOfNat (v : Nat) (x : JSNumber) : Prop :=
  ∃ w, IsCandidateNat w ∧ (∀ y, IsCandidateNat y → gap v w ≤ gap v y) ∧
    (∀ y, IsCandidateNat y → y ≠ w → gap v y = gap v w → EvenSignificand w) ∧
    x = if w = 2 ^ 1024 then .infinity else .finite w 0

/-! ## Texts of example statements -/

/-- Source text `l_1, ..., l_k` of a list of literals. -/
def litsText : List Token → List Nat
  | [] => []
  | [d] => d
  | d :: d2 :: ds => d ++ units ", " ++ litsText (d2 :: ds)

/-- Tokens of a list of literals that are one token each. -/
def litsTokens : List Token → List Token
  | [] => []
  | [d] => [d]
  | d :: d2 :: ds => d :: units "," :: litsTokens (d2 :: ds)

/-- Source text `example n(l_1, ..., l_k) = r`. -/
def exampleText (n : Token) (ls : List Token) (r : Token) : List Nat :=
  units "example " ++ n ++ units "(" ++ litsText ls ++ units ") = " ++ r

/-- Tokens of an example statement. -/
def exampleTokens (n : Token) (ls : List Token) (r : Token) : List Token :=
  units "example" :: n :: units "(" :: litsTokens ls ++ [units ")", units "=", r]

/-- The example statement `{type: 'example', name: n, literals, result}` of
number literals. -/
def exampleOf (n : Token) (ls : List Token) (r : Token) : Statement :=
  .example (some n) (ls.map numberOf) (numberOf r)

/-! ## Expression statements -/

/-- Source texts `m_1, ..., m_k` (k ≥ 1) of argument lists in which every item
is a call `f(...)` with an argument list of the same form or a non-negative
integer literal, each with the `mix` array it denotes. -/
inductive MixText : List Nat → List MixItem → Prop
  | number (d : Token) : IsDigits d → MixText d [.literal (numberOf d)]
  | call (f : Token) (t : List Nat) (m : List MixItem) : isIdentifier f = true →
      MixText t m → MixText (f ++ units "(" ++ t ++ units ")") [.expression (some f) m]
  | cons (t1 : List Nat) (i : MixItem) (t2 : List Nat) (m : List MixItem) :
      MixText t1 [i] → MixText t2 m → MixText (t1 ++ units ", " ++ t2) (i :: m)

/-! ## Empty lists -/

/-- Whether the list of a statement (`parameters`, `literals` or `mix`) is empty. -/
def Statement.hasEmptyList : Statement → Bool
  | .signature _ ps _ => ps.isEmpty
  | .example _ ls _ => ls.isEmpty
  | .expression _ m => m.isEmpty

/-! ## Token shapes, accepted literals and recursion budgets -/

/-- How the global match cuts a text: white space is passed over, and every
token is what one match attempt returns at its first unit. -/
inductive Lexes : List Nat → List Token → Prop
  | nil : Lexes [] []
  | space (c : Nat) (rest : List Nat) (toks : List Token) : matchAt c rest = none →
      Lexes rest toks → Lexes (c :: rest) toks
  | token (c : Nat) (tok rest : List Nat) (toks : List Token) :
      matchAt c (tok ++ rest) = some (c :: tok) → Lexes rest toks →
      Lexes (c :: (tok ++ rest)) ((c :: tok) :: toks)

/-- The shapes a token of the tokenizer can have: a word, the arrow, one unit
that is not white space, or a quote, a body and a closing quote. -/
def TokenShape (tok : Token) : Prop :=
  (tok ≠ [] ∧ ∀ c ∈ tok, isWordChar c = true) ∨ tok = [45, 62] ∨
    (∃ c, tok = [c] ∧ isSpace c = false) ∨ (∃ b, tok = 34 :: b ∧ b.getLast? = some 34)

/-- A token of the string alternative: a quote, a body and a closing quote. -/
def IsStringToken (tok : Token) : Prop := ∃ b, tok = 34 :: b ∧ b.getLast? = some 34

/-- Units that are not white space. -/
def notSpace (c : Nat) : Bool := !isSpace c

/-- Every parameter type and the return type of a signature statement is one
of the strings `'string'`, `'number'`, `'bool'`. -/
def Statement.primitiveOnly : Statement → Prop
  | .signature _ ps r =>
    (∀ q ∈ ps, ∃ t ∈ primitiveTypes, q.type = .name (some t)) ∧
      ∃ t ∈ primitiveTypes, r = .name (some t)
  | _ => True

/-- The slice holds neither the token `list[` nor the token `dict{`. -/
def NoCompound (s : List Token) : Prop :=
  units "list[" ∉ s ∧ units "dict\x7b" ∉ s

/-- `parseLiteral` accepts the whole token slice `s` as the literal `l`. -/
def AcceptsLiteral (s : List Token) (l : Literal) : Prop :=
  parseLiteral s.length s 0 = .ok l s.length

/-- An item of the body of a string literal: one unit other than the quote, or
a backslash followed by a quote. -/
def IsStrItem (ch : List Nat) : Prop := (∃ c, ch = [c] ∧ c ≠ 34) ∨ ch = [92, 34]

/-- The text of a string literal with the body `items`: a quote, the items, a
closing quote. -/
def stringText (items : List (List Nat)) : List Nat := 34 :: (items.flatten ++ [34])

/-- The budget that `parseExpression` needs. -/
def ExprDone (fuel : Nat) : Prop :=
  ∀ (ts : List Token) (cur : Nat), ts.length - cur < fuel →
    parseExpression fuel ts cur ≠ .outOfFuel

/-- The budget that `parseMix` needs. -/
def MixDone (fuel : Nat) : Prop :=
  ∀ (ts : List Token) (cur : Nat), ts.length - cur + 1 < fuel →
    parseMix fuel ts cur ≠ .outOfFuel

/-- A run with a larger budget refines a run with a smaller one: where the
smaller budget does not run out, both give the same outcome. -/
def Refines {α : Type} (p q : P α) : Prop :=
  ∀ (ts : List Token) (cur : Nat), p ts cur = .outOfFuel ∨ p ts cur = q ts cur

/-! # Lemmas and theorems -/

/-! ## Parser primitives -/

@[simp] theorem pure_run {α : Type} (a : α) (ts : List Token) (cur : Nat) :
    (pure a : P α) ts cur = .ok a cur := rfl

@[simp] theorem bind_run {α β : Type} (p : P α) (k : α → P β) (ts : List Token) (cur : Nat) :
    (p >>= k) ts cur = match p ts cur with
      | .ok a c => k a ts c
      | .throw e => .throw e
      | .outOfFuel => .outOfFuel := rfl

@[simp] theorem fail_run {α : Type} (e : ParseError) (ts : List Token) (cur : Nat) :
    (fail e : P α) ts cur = .throw e := rfl

@[simp] theorem peek_run (ts : List Token) (cur : Nat) : peek ts cur = .ok ts[cur]? cur := rfl

@[simp] theorem isAtEnd_run (ts : List Token) (cur : Nat) :
    isAtEnd ts cur = .ok (decide (ts.length ≤ cur)) cur := rfl

@[simp] theorem previous_run (ts : List Token) (cur : Nat) :
    previous ts cur = .ok (if cur = 0 then none else ts[cur - 1]?) cur := rfl

theorem getElem?_lt {ts : List Token} {cur : Nat} {t : Token} (h : ts[cur]? = some t) :
    cur < ts.length := by
  by_contra hc
  rw [List.getElem?_eq_none (Nat.not_lt.mp hc)] at h
  cases h

theorem check_run (type : Token) (ts : List Token) (cur : Nat) :
    check type ts cur = .ok (decide (ts[cur]? = some type)) cur := by
  by_cases h : ts.length ≤ cur
  · simp [check, h, List.getElem?_eq_none h]
  · simp [check, h]

theorem advance_run (ts : List Token) (cur : Nat) :
    advance ts cur = if cur < ts.length then .ok ts[cur]? (cur + 1)
      else .ok (if cur = 0 then none else ts[cur - 1]?) cur := by
  by_cases h : cur < ts.length
  · simp [advance, h, Nat.not_le.mpr h]
  · simp [advance, h, Nat.not_lt.mp h]

theorem advance_some {ts : List Token} {cur : Nat} {t : Token} (h : ts[cur]? = some t) :
    advance ts cur = .ok (some t) (cur + 1) := by
  simp [advance_run, getElem?_lt h, h]

theorem advance_none {ts : List Token} {cur : Nat} (h : ts[cur]? = none) :
    advance ts cur = .ok (if cur = 0 then none else ts[cur - 1]?) cur := by
  have hlt : ¬ cur < ts.length := by
    intro hc; rw [List.getElem?_eq_getElem hc] at h; cases h
  simp [advance_run, hlt]

theorem matchAny_run (types : List Token) (ts : List Token) (cur : Nat) :
    matchAny types ts cur =
      match ts[cur]? with
      | some t => if t ∈ types then .ok true (cur + 1) else .ok false cur
      | none => .ok false cur := by
  induction types with
  | nil => cases h : ts[cur]? <;> simp [matchAny]
  | cons ty types ih =>
    cases h : ts[cur]? with
    | none => simp [matchAny, check_run, h, ih]
    | some t =>
      by_cases ht : t = ty
      · simp [matchAny, check_run, h, ht, advance_some (ht ▸ h)]
      · simp [matchAny, check_run, h, ht, ih]

theorem consume_run (type : Token) (ts : List Token) (cur : Nat) :
    consume type ts cur = if ts[cur]? = some type then .ok (some type) (cur + 1)
      else .throw (.expected type ts[cur]?) := by
  by_cases h : ts[cur]? = some type
  · simp [consume, check_run, h, advance_some h]
  · simp [consume, check_run, h]

theorem peekIdentifier_run (ts : List Token) (cur : Nat) :
    peekIdentifier ts cur = .ok (isIdentifier (toStr ts[cur]?)) cur := rfl

theorem consumeIdentifier_run (ts : List Token) (cur : Nat) :
    consumeIdentifier ts cur =
      match ts[cur]? with
      | some t => if isIdentifier t then .ok (some t) (cur + 1)
          else .throw (.expectedIdentifier (some t))
      | none => .ok (if cur = 0 then none else ts[cur - 1]?) cur := by
  cases h : ts[cur]? with
  | none =>
    have : isIdentifier (toStr none) = true := by decide
    simp [consumeIdentifier, peekIdentifier_run, h, this, advance_none h]
  | some t =>
    by_cases ht : isIdentifier t
    · simp [consumeIdentifier, peekIdentifier_run, h, ht, toStr, advance_some h]
    · simp [consumeIdentifier, peekIdentifier_run, h, ht, toStr]

theorem matchNumber_run (ts : List Token) (cur : Nat) :
    matchNumber ts cur =
      match ts[cur]? with
      | some t => if isNumber t then .ok true (cur + 1) else .ok false cur
      | none => .ok false cur := by
  cases h : ts[cur]? with
  | none =>
    have : isNumber (toStr none) = false := by decide
    simp [matchNumber, h, this]
  | some t =>
    by_cases ht : isNumber t
    · simp [matchNumber, h, ht, toStr, advance_some h]
    · simp [matchNumber, h, ht, toStr]

theorem matchString_run (ts : List Token) (cur : Nat) :
    matchString ts cur =
      match ts[cur]? with
      | some t => if isString t then .ok true (cur + 1) else .ok false cur
      | none => .ok false cur := by
  cases h : ts[cur]? with
  | none =>
    have : isString (toStr none) = false := by decide
    simp [matchString, h, this]
  | some t =>
    by_cases ht : isString t
    · simp [matchString, h, ht, toStr, advance_some h]
    · simp [matchString, h, ht, toStr]

/-! ## The parser accepts the grammar, and nothing else -/

theorem getElem?_of_drop {ts : List Token} {cur : Nat} {x : Token} {r : List Token}
    (h : ts.drop cur = x :: r) : ts[cur]? = some x := by
  have := congrArg List.head? h
  simpa [List.head?_drop] using this

theorem getElem?_of_drop_nil {ts : List Token} {cur : Nat}
    (h : ts.drop cur = []) : ts[cur]? = none := by
  have := congrArg List.head? h
  simpa [List.head?_drop] using this

theorem drop_succ_of_drop {ts : List Token} {cur : Nat} {x : Token} {r : List Token}
    (h : ts.drop cur = x :: r) : ts.drop (cur + 1) = r := by
  have := congrArg List.tail h
  simpa [List.tail_drop] using this

theorem drop_add_of_drop {ts : List Token} {cur : Nat} (s : List Token) {r : List Token}
    (h : ts.drop cur = s ++ r) : ts.drop (cur + s.length) = r := by
  have := congrArg (List.drop s.length) h
  simpa [List.drop_drop, Nat.add_comm] using this

theorem parseType_complete {s : List Token} {v : TypeExpr} (h : TypeG s v) :
    ∀ (fuel : Nat) (ts : List Token) (cur : Nat) (rest : List Token),
      ts.drop cur = s ++ rest → s.length ≤ fuel →
      parseType fuel ts cur = .ok v (cur + s.length) := by
  induction h with
  | prim t ht =>
    intro fuel ts cur rest hd hf
    obtain ⟨f, rfl⟩ : ∃ f, fuel = f + 1 := ⟨fuel - 1, by simp at hf; omega⟩
    have h0 := getElem?_of_drop hd
    simp [parseType, matchAny_run, h0, ht]
  | list s v _ ih =>
    intro fuel ts cur rest hd hf
    obtain ⟨f, rfl⟩ : ∃ f, fuel = f + 1 := ⟨fuel - 1, by simp at hf; omega⟩
    simp only [List.cons_append, List.append_assoc, List.singleton_append] at hd
    have h0 := getElem?_of_drop hd
    have h1 := drop_succ_of_drop hd
    have h2 := ih f ts (cur + 1) _ h1 (by simp at hf; omega)
    have h3 := getElem?_of_drop (drop_add_of_drop s h1)
    have hn : ¬ (units "list[" ∈ [units "string", units "number", units "bool"]) := by decide
    simp [parseType, matchAny_run, h0, hn, h2, consume_run, h3]
    omega
  | dict s v _ ih =>
    intro fuel ts cur rest hd hf
    obtain ⟨f, rfl⟩ : ∃ f, fuel = f + 1 := ⟨fuel - 1, by simp at hf; omega⟩
    simp only [List.cons_append, List.append_assoc, List.singleton_append] at hd
    have h0 := getElem?_of_drop hd
    have h1 := drop_succ_of_drop hd
    have h2 := ih f ts (cur + 1) _ h1 (by simp at hf; omega)
    have h3 := getElem?_of_drop (drop_add_of_drop s h1)
    have hn : ¬ (units "dict\x7b" ∈ [units "string", units "number", units "bool"]) := by decide
    have hn2 : ¬ (units "dict\x7b" = units "list[") := by decide
    simp [parseType, matchAny_run, h0, hn, hn2, h2, consume_run, h3]
    omega

theorem head?_ne_of_drop {ts : List Token} {cur : Nat} {rest : List Token} {x : Token}
    (h : ts.drop cur = rest) (hr : rest.head? ≠ some x) : ts[cur]? ≠ some x := by
  have := congrArg List.head? h
  rw [List.head?_drop] at this
  rw [this]; exact hr

theorem parseParameters_complete {s : List Token} {v : List Parameter} (h : ParamsG s v) :
    ∀ (fuel : Nat) (ts : List Token) (cur : Nat) (rest : List Token),
      ts.drop cur = s ++ rest → rest.head? ≠ some (units ",") → s.length ≤ fuel →
      parseParameters fuel ts cur = .ok v (cur + s.length) := by
  induction h with
  | one n s ty hn hty =>
    intro fuel ts cur rest hd hr hf
    obtain ⟨f, rfl⟩ : ∃ f, fuel = f + 1 := ⟨fuel - 1, by simp at hf; omega⟩
    simp only [List.cons_append, List.append_assoc, List.singleton_append] at hd
    have h0 := getElem?_of_drop hd
    have h1 := getElem?_of_drop (drop_succ_of_drop hd)
    have d2 := drop_succ_of_drop (drop_succ_of_drop hd)
    have h2 := parseType_complete hty f ts (cur + 1 + 1) _ d2 (by simp at hf; omega)
    have h3 := head?_ne_of_drop (drop_add_of_drop s d2) hr
    cases h4 : ts[cur + 1 + 1 + s.length]? with
    | none =>
      simp [parseParameters, consumeIdentifier_run, h0, hn, consume_run, h1, h2, matchAny_run, h4]
      omega
    | some t =>
      have : t ≠ units "," := by rintro rfl; exact h3 h4
      simp [parseParameters, consumeIdentifier_run, h0, hn, consume_run, h1, h2, matchAny_run,
        h4, this]
      omega
  | cons n s ty s2 ps hn hty _ ih =>
    intro fuel ts cur rest hd hr hf
    obtain ⟨f, rfl⟩ : ∃ f, fuel = f + 1 := ⟨fuel - 1, by simp at hf; omega⟩
    simp only [List.cons_append, List.append_assoc, List.singleton_append] at hd
    have h0 := getElem?_of_drop hd
    have h1 := getElem?_of_drop (drop_succ_of_drop hd)
    have d2 := drop_succ_of_drop (drop_succ_of_drop hd)
    have h2 := parseType_complete hty f ts (cur + 1 + 1) _ d2 (by simp at hf; omega)
    have d3 := drop_add_of_drop s d2
    have h3 := getElem?_of_drop d3
    have h4 := ih f ts (cur + 1 + 1 + s.length + 1) rest (drop_succ_of_drop d3) hr
      (by simp at hf; omega)
    simp [parseParameters, consumeIdentifier_run, h0, hn, consume_run, h1, h2, matchAny_run,
      h3, h4]
    omega

theorem matchAny_false (types : List Token) (ts : List Token) (cur : Nat)
    (h : ∀ t ∈ types, ts[cur]? ≠ some t) : matchAny types ts cur = .ok false cur := by
  rw [matchAny_run]
  cases h4 : ts[cur]? with
  | none => rfl
  | some t =>
    have : t ∉ types := fun hm => h t hm h4
    simp [this]

theorem matchAny_true (types : List Token) {ts : List Token} {cur : Nat} {t : Token}
    (h : ts[cur]? = some t) (hm : t ∈ types) : matchAny types ts cur = .ok true (cur + 1) := by
  rw [matchAny_run, h]
  simp [hm]

theorem matchAny_comma_false {ts : List Token} {cur : Nat} {rest : List Token}
    (h : ts.drop cur = rest) (hr : rest.head? ≠ some (units ",")) :
    matchAny [units ","] ts cur = .ok false cur := by
  apply matchAny_false
  intro t ht
  simp only [List.mem_singleton] at ht
  subst ht
  exact head?_ne_of_drop h hr

theorem isNumber_not_bool {t : Token} (h : isNumber t = true) :
    t ∉ [units "true", units "false"] := by
  intro hm
  simp only [List.mem_cons, List.mem_singleton, List.not_mem_nil, or_false] at hm
  rcases hm with rfl | rfl <;> revert h <;> decide

theorem isString_not_bool {t : Token} (h : isString t = true) :
    t ∉ [units "true", units "false"] := by
  intro hm
  simp only [List.mem_cons, List.mem_singleton, List.not_mem_nil, or_false] at hm
  rcases hm with rfl | rfl <;> revert h <;> decide

theorem isString_not_number {t : Token} (h : isString t = true) : isNumber t = false := by
  cases t with
  | nil => simp [isString] at h
  | cons c cs =>
    simp only [isString, Bool.and_eq_true, beq_iff_eq] at h
    have hc : c = 34 := h.1.1.1
    subst hc
    simp [isNumber, isDigit]

theorem parseLiteral_complete {s : List Token} {v : Literal} (h : LitG s v) :
    ∀ (fuel : Nat) (ts : List Token) (cur : Nat) (rest : List Token),
      ts.drop cur = s ++ rest → s.length ≤ fuel →
      parseLiteral fuel ts cur = .ok v (cur + s.length) := by
  induction h with
  | bool t ht =>
    intro fuel ts cur rest hd hf
    obtain ⟨f, rfl⟩ : ∃ f, fuel = f + 1 := ⟨fuel - 1, by simp at hf; omega⟩
    have h0 := getElem?_of_drop hd
    simp [parseLiteral, matchAny_true _ h0 ht, h0]
  | number t ht =>
    intro fuel ts cur rest hd hf
    obtain ⟨f, rfl⟩ : ∃ f, fuel = f + 1 := ⟨fuel - 1, by simp at hf; omega⟩
    have h0 := getElem?_of_drop hd
    have hb := isNumber_not_bool ht
    simp [parseLiteral, matchAny_run, h0, hb, matchNumber_run, ht]
  | string t ht =>
    intro fuel ts cur rest hd hf
    obtain ⟨f, rfl⟩ : ∃ f, fuel = f + 1 := ⟨fuel - 1, by simp at hf; omega⟩
    have h0 := getElem?_of_drop hd
    have hb := isString_not_bool ht
    have hn := isString_not_number ht
    simp [parseLiteral, matchAny_run, h0, hb, matchNumber_run, hn, matchString_run, ht]
  | list s v _ ih =>
    intro fuel ts cur rest hd hf
    obtain ⟨f, rfl⟩ : ∃ f, fuel = f + 1 := ⟨fuel - 1, by simp at hf; omega⟩
    simp only [List.cons_append, List.append_assoc, List.singleton_append] at hd
    have h0 := getElem?_of_drop hd
    have h1 := drop_succ_of_drop hd
    have h2 := ih f ts (cur + 1) _ h1 (by simp at hf; omega)
    have h3 := getElem?_of_drop (drop_add_of_drop s h1)
    have hb : units "[" ∉ [units "true", units "false"] := by decide
    have hn : isNumber (units "[") = false := by decide
    have hs : isString (units "[") = false := by decide
    simp [parseLiteral, matchAny_run, h0, hb, matchNumber_run, hn, matchString_run, hs, h2,
      consume_run, h3]
    omega
  | dict s1 k s2 v _ _ ih1 ih2 =>
    intro fuel ts cur rest hd hf
    obtain ⟨f, rfl⟩ : ∃ f, fuel = f + 1 := ⟨fuel - 1, by simp at hf; omega⟩
    simp only [List.cons_append, List.append_assoc, List.singleton_append] at hd
    have h0 := getElem?_of_drop hd
    have d1 := drop_succ_of_drop hd
    have h2 := ih1 f ts (cur + 1) _ d1 (by simp at hf; omega)
    have d2 := drop_add_of_drop s1 d1
    have h3 := getElem?_of_drop d2
    have d3 := drop_succ_of_drop d2
    have h4 := ih2 f ts (cur + 1 + s1.length + 1) _ d3 (by simp at hf; omega)
    have h5 := getElem?_of_drop (drop_add_of_drop s2 d3)
    have hb : units "\x7b" ∉ [units "true", units "false"] := by decide
    have hn : isNumber (units "\x7b") = false := by decide
    have hs : isString (units "\x7b") = false := by decide
    have hl : ¬ (units "\x7b" = units "[") := by decide
    simp [parseLiteral, matchAny_run, h0, hb, matchNumber_run, hn, matchString_run, hs, hl, h2,
      consume_run, h3, h4, h5]
    omega

theorem parseLiterals_complete {s : List Token} {v : List Literal} (h : LitsG s v) :
    ∀ (fuel : Nat) (ts : List Token) (cur : Nat) (rest : List Token),
      ts.drop cur = s ++ rest → rest.head? ≠ some (units ",") → s.length + 1 ≤ fuel →
      parseLiterals fuel ts cur = .ok v (cur + s.length) := by
  induction h with
  | one s l hl =>
    intro fuel ts cur rest hd hr hf
    obtain ⟨f, rfl⟩ : ∃ f, fuel = f + 1 := ⟨fuel - 1, by omega⟩
    have h1 := parseLiteral_complete hl f ts cur rest hd (by omega)
    have h2 := matchAny_comma_false (drop_add_of_drop s hd) hr
    simp [parseLiterals, h1, h2]
  | cons s l s2 ls hl _ ih =>
    intro fuel ts cur rest hd hr hf
    obtain ⟨f, rfl⟩ : ∃ f, fuel = f + 1 := ⟨fuel - 1, by omega⟩
    simp only [List.cons_append, List.append_assoc, List.singleton_append] at hd
    have h1 := parseLiteral_complete hl f ts cur _ hd (by simp at hf; omega)
    have d2 := drop_add_of_drop s hd
    have h2 := matchAny_true [units ","] (getElem?_of_drop d2) (by simp)
    have h3 := ih f ts (cur + s.length + 1) rest (drop_succ_of_drop d2) hr (by simp at hf; omega)
    simp [parseLiterals, h1, h2, h3]
    omega

theorem litG_exists_cons {s : List Token} {v : Literal} (h : LitG s v) :
    ∃ t r, s = t :: r := by
  cases h <;> simp

theorem typeG_exists_cons {s : List Token} {v : TypeExpr} (h : TypeG s v) :
    ∃ t r, s = t :: r := by
  cases h <;> simp

theorem parseExpression_step {n : Token} {s : List Token} {m : List MixItem} {f : Nat}
    {ts : List Token} {cur : Nat} {rest : List Token} (hn : isIdentifier n = true)
    (hd : ts.drop cur = n :: units "(" :: (s ++ units ")" :: rest))
    (hm : parseMix f ts (cur + 1 + 1) = .ok m (cur + 1 + 1 + s.length)) :
    parseExpression (f + 1) ts cur = .ok (some n, m) (cur + 1 + 1 + s.length + 1) := by
  have h0 := getElem?_of_drop hd
  have h1 := getElem?_of_drop (drop_succ_of_drop hd)
  have d2 := drop_succ_of_drop (drop_succ_of_drop hd)
  have h3 := getElem?_of_drop (drop_add_of_drop s d2)
  simp [parseExpression, consumeIdentifier_run, h0, hn, consume_run, h1, hm, h3]

theorem parseMix_complete {s : List Token} {v : List MixItem} (h : MixG s v) :
    ∀ (fuel : Nat) (ts : List Token) (cur : Nat) (rest : List Token),
      ts.drop cur = s ++ rest → rest.head? ≠ some (units ",") → s.length + 1 ≤ fuel →
      parseMix fuel ts cur = .ok v (cur + s.length) := by
  induction h with
  | litLast s l hl hni =>
    intro fuel ts cur rest hd hr hf
    obtain ⟨f, rfl⟩ : ∃ f, fuel = f + 1 := ⟨fuel - 1, by omega⟩
    obtain ⟨t, r, hs⟩ := litG_exists_cons hl
    have h0 : ts[cur]? = some t := getElem?_of_drop (r := r ++ rest) (by simpa [hs] using hd)
    have hi := hni t r hs
    have h1 := parseLiteral_complete hl f ts cur rest hd (by omega)
    have h2 := matchAny_comma_false (drop_add_of_drop s hd) hr
    simp [parseMix, peekIdentifier_run, h0, toStr, hi, h1, h2]
  | litCons s l s2 m hl hni _ ih =>
    intro fuel ts cur rest hd hr hf
    obtain ⟨f, rfl⟩ : ∃ f, fuel = f + 1 := ⟨fuel - 1, by omega⟩
    simp only [List.cons_append, List.append_assoc, List.singleton_append] at hd
    obtain ⟨t, r, hs⟩ := litG_exists_cons hl
    have h0 : ts[cur]? = some t :=
      getElem?_of_drop (r := r ++ units "," :: (s2 ++ rest)) (by simpa [hs] using hd)
    have hi := hni t r hs
    have h1 := parseLiteral_complete hl f ts cur _ hd (by simp at hf; omega)
    have d2 := drop_add_of_drop s hd
    have h2 := matchAny_true [units ","] (getElem?_of_drop d2) (by simp)
    have h3 := ih f ts (cur + s.length + 1) rest (drop_succ_of_drop d2) hr (by simp at hf; omega)
    simp [parseMix, peekIdentifier_run, h0, toStr, hi, h1, h2, h3]
    omega
  | callLast n s m hn _ ih =>
    intro fuel ts cur rest hd hr hf
    simp only [List.length_cons, List.length_append] at hf
    obtain ⟨f, rfl⟩ : ∃ f, fuel = f + 2 := ⟨fuel - 2, by omega⟩
    simp only [List.cons_append, List.append_assoc, List.singleton_append] at hd
    have h0 := getElem?_of_drop hd
    have d2 := drop_succ_of_drop (drop_succ_of_drop hd)
    have hc : (units ")" :: rest).head? ≠ some (units ",") := by simp; decide
    have h1 := ih f ts (cur + 1 + 1) _ d2 hc (by omega)
    have h2 := parseExpression_step hn hd h1
    have d3 := drop_succ_of_drop (drop_add_of_drop s d2)
    have h3 := matchAny_comma_false d3 hr
    simp [parseMix, peekIdentifier_run, h0, toStr, hn, h2, h3]
    omega
  | callCons n s m s2 m2 hn _ _ ih ih2 =>
    intro fuel ts cur rest hd hr hf
    simp only [List.length_cons, List.length_append] at hf
    obtain ⟨f, rfl⟩ : ∃ f, fuel = f + 2 := ⟨fuel - 2, by omega⟩
    simp only [List.cons_append, List.append_assoc, List.singleton_append] at hd
    have h0 := getElem?_of_drop hd
    have d2 := drop_succ_of_drop (drop_succ_of_drop hd)
    have hc : (units ")" :: units "," :: (s2 ++ rest)).head? ≠ some (units ",") := by
      simp; decide
    have h1 := ih f ts (cur + 1 + 1) _ d2 hc (by omega)
    have h2 := parseExpression_step hn hd h1
    have d3 := drop_succ_of_drop (drop_add_of_drop s d2)
    have h3 := matchAny_true [units ","] (getElem?_of_drop d3) (by simp)
    have h4 := ih2 (f + 1) ts (cur + 1 + 1 + s.length + 1 + 1) rest (drop_succ_of_drop d3) hr
      (by omega)
    rw [parseMix]
    simp [peekIdentifier_run, h0, toStr, hn, h2, h3, h4]
    omega

theorem parseStatement_complete {s : List Token} {v : Statement} (h : StmtG s v) :
    ∀ (fuel : Nat) (ts : List Token) (cur : Nat) (rest : List Token),
      ts.drop cur = s ++ rest → s.length ≤ fuel →
      parseStatement fuel ts cur = .ok v (cur + s.length) := by
  cases h with
  | sig n sp ps sr r hn hps hr =>
    intro fuel ts cur rest hd hf
    simp only [List.cons_append, List.append_assoc, List.singleton_append] at hd
    have h0 := matchAny_true [units "signature"] (getElem?_of_drop hd) (by simp)
    have d1 := drop_succ_of_drop hd
    have h1 := getElem?_of_drop d1
    have d2 := drop_succ_of_drop d1
    have h2 := getElem?_of_drop d2
    have d3 := drop_succ_of_drop d2
    have hc : (units ")" :: units "->" :: (sr ++ rest)).head? ≠ some (units ",") := by
      simp; decide
    have h3 := parseParameters_complete hps fuel ts (cur + 1 + 1 + 1) _ d3 hc
      (by simp at hf; omega)
    have d4 := drop_add_of_drop sp d3
    have h4 := getElem?_of_drop d4
    have d5 := drop_succ_of_drop d4
    have h5 := getElem?_of_drop d5
    have h6 := parseType_complete hr fuel ts (cur + 1 + 1 + 1 + sp.length + 1 + 1) _
      (drop_succ_of_drop d5) (by simp at hf; omega)
    simp [parseStatement, parseSignature, h0, consumeIdentifier_run, h1, hn, consume_run, h2,
      h3, h4, h5, h6]
    omega
  | ex n sl ls sr r hn hls hr =>
    intro fuel ts cur rest hd hf
    simp only [List.cons_append, List.append_assoc, List.singleton_append] at hd
    have h00 := matchAny_false [units "signature"] ts cur
      (by simp [getElem?_of_drop hd]; decide)
    have h0 := matchAny_true [units "example"] (getElem?_of_drop hd) (by simp)
    have d1 := drop_succ_of_drop hd
    have h1 := getElem?_of_drop d1
    have d2 := drop_succ_of_drop d1
    have h2 := getElem?_of_drop d2
    have d3 := drop_succ_of_drop d2
    have hc : (units ")" :: units "=" :: (sr ++ rest)).head? ≠ some (units ",") := by
      simp; decide
    have h3 := parseLiterals_complete hls fuel ts (cur + 1 + 1 + 1) _ d3 hc
      (by simp at hf; omega)
    have d4 := drop_add_of_drop sl d3
    have h4 := getElem?_of_drop d4
    have d5 := drop_succ_of_drop d4
    have h5 := getElem?_of_drop d5
    have h6 := parseLiteral_complete hr fuel ts (cur + 1 + 1 + 1 + sl.length + 1 + 1) _
      (drop_succ_of_drop d5) (by simp at hf; omega)
    simp [parseStatement, parseExample, h00, h0, consumeIdentifier_run, h1, hn, consume_run, h2,
      h3, h4, h5, h6]
    omega
  | expr n s m hn hns hne hm =>
    intro fuel ts cur rest hd hf
    obtain ⟨f, rfl⟩ : ∃ f, fuel = f + 1 := ⟨fuel - 1, by simp at hf; omega⟩
    simp only [List.cons_append, List.append_assoc, List.singleton_append] at hd
    have h0 := getElem?_of_drop hd
    have h00 := matchAny_false [units "signature"] ts cur
      (by simp [h0]; exact hns)
    have h01 := matchAny_false [units "example"] ts cur
      (by simp [h0]; exact hne)
    have d2 := drop_succ_of_drop (drop_succ_of_drop hd)
    have hc : (units ")" :: rest).head? ≠ some (units ",") := by simp; decide
    have h1 := parseMix_complete hm f ts (cur + 1 + 1) _ d2 hc (by simp at hf; omega)
    have h2 := parseExpression_step hn hd h1
    simp [parseStatement, h00, h01, peekIdentifier_run, h0, toStr, hn, h2]
    omega

theorem drop_eq_cons_of_getElem? {ts : List Token} {cur : Nat} {t : Token}
    (h : ts[cur]? = some t) : ts.drop cur = t :: ts.drop (cur + 1) := by
  have hlt := getElem?_lt h
  rw [List.getElem?_eq_getElem hlt] at h
  rw [List.drop_eq_getElem_cons hlt]
  congr 1
  exact Option.some.inj h

theorem parseType_sound : ∀ (fuel : Nat) (ts : List Token) (cur : Nat) (v : TypeExpr) (c2 : Nat),
    parseType fuel ts cur = .ok v c2 →
    ∃ s, TypeG s v ∧ ts.drop cur = s ++ ts.drop c2 ∧ c2 = cur + s.length := by
  intro fuel
  induction fuel with
  | zero => intro ts cur v c2 h; simp [parseType] at h
  | succ f ih =>
    intro ts cur v c2 h
    rw [parseType] at h
    cases h0 : ts[cur]? with
    | none => simp [matchAny_run, h0] at h
    | some t =>
      have hd0 := drop_eq_cons_of_getElem? h0
      by_cases hp : t ∈ [units "string", units "number", units "bool"]
      · simp [matchAny_run, h0, hp] at h
        obtain ⟨rfl, rfl⟩ := h
        exact ⟨[t], TypeG.prim t hp, by simpa using hd0, rfl⟩
      · by_cases hl : t = units "list["
        · subst hl
          simp [matchAny_run, h0, hp] at h
          cases hr : parseType f ts (cur + 1) with
          | throw e => simp [hr] at h
          | outOfFuel => simp [hr] at h
          | ok inner c =>
            obtain ⟨s, hs, hd, hc⟩ := ih ts (cur + 1) inner c hr
            by_cases h3 : ts[c]? = some (units "]")
            · simp [hr, consume_run, h3] at h
              obtain ⟨rfl, rfl⟩ := h
              refine ⟨units "list[" :: s ++ [units "]"], TypeG.list s inner hs, ?_, ?_⟩
              · rw [hd0, hd, drop_eq_cons_of_getElem? h3]; simp
              · simp; omega
            · simp [hr, consume_run, h3] at h
        · by_cases hdict : t = units "dict\x7b"
          · subst hdict
            simp [matchAny_run, h0, hp, hl] at h
            cases hr : parseType f ts (cur + 1) with
            | throw e => simp [hr] at h
            | outOfFuel => simp [hr] at h
            | ok inner c =>
              obtain ⟨s, hs, hd, hc⟩ := ih ts (cur + 1) inner c hr
              by_cases h3 : ts[c]? = some (units "\x7d")
              · simp [hr, consume_run, h3] at h
                obtain ⟨rfl, rfl⟩ := h
                refine ⟨units "dict\x7b" :: s ++ [units "\x7d"], TypeG.dict s inner hs, ?_, ?_⟩
                · rw [hd0, hd, drop_eq_cons_of_getElem? h3]; simp
                · simp; omega
              · simp [hr, consume_run, h3] at h
          · simp [matchAny_run, h0, hp, hl, hdict] at h

theorem parseParameters_sound : ∀ (fuel : Nat) (ts : List Token) (cur : Nat)
    (v : List Parameter) (c2 : Nat), parseParameters fuel ts cur = .ok v c2 →
    ∃ s, ParamsG s v ∧ ts.drop cur = s ++ ts.drop c2 ∧ c2 = cur + s.length := by
  intro fuel
  induction fuel with
  | zero => intro ts cur v c2 h; simp [parseParameters] at h
  | succ f ih =>
    intro ts cur v c2 h
    rw [parseParameters] at h
    cases h0 : ts[cur]? with
    | none => simp [consumeIdentifier_run, h0, consume_run] at h
    | some n =>
      have hd0 := drop_eq_cons_of_getElem? h0
      by_cases hn : isIdentifier n = true
      · by_cases h1 : ts[cur + 1]? = some (units ":")
        · have hd1 := drop_eq_cons_of_getElem? h1
          cases hr : parseType f ts (cur + 1 + 1) with
          | throw e => simp [consumeIdentifier_run, h0, hn, consume_run, h1, hr] at h
          | outOfFuel => simp [consumeIdentifier_run, h0, hn, consume_run, h1, hr] at h
          | ok ty c =>
            obtain ⟨s, hs, hd, hc⟩ := parseType_sound f ts (cur + 1 + 1) ty c hr
            cases h3 : ts[c]? with
            | none =>
              simp [consumeIdentifier_run, h0, hn, consume_run, h1, hr, matchAny_run, h3] at h
              obtain ⟨rfl, rfl⟩ := h
              exact ⟨n :: units ":" :: s, ParamsG.one n s ty hn hs, by rw [hd0, hd1, hd]; simp,
                by simp; omega⟩
            | some t =>
              by_cases ht : t = units ","
              · subst ht
                have hd3 := drop_eq_cons_of_getElem? h3
                simp [consumeIdentifier_run, h0, hn, consume_run, h1, hr, matchAny_run, h3] at h
                cases hr2 : parseParameters f ts (c + 1) with
                | throw e => simp [hr2] at h
                | outOfFuel => simp [hr2] at h
                | ok ps c3 =>
                  obtain ⟨s2, hs2, hd2, hc2⟩ := ih ts (c + 1) ps c3 hr2
                  simp [hr2] at h
                  obtain ⟨rfl, rfl⟩ := h
                  refine ⟨n :: units ":" :: s ++ units "," :: s2,
                    ParamsG.cons n s ty s2 ps hn hs hs2, ?_, ?_⟩
                  · rw [hd0, hd1, hd, hd3, hd2]; simp
                  · simp; omega
              · simp [consumeIdentifier_run, h0, hn, consume_run, h1, hr, matchAny_run, h3,
                  ht] at h
                obtain ⟨rfl, rfl⟩ := h
                exact ⟨n :: units ":" :: s, ParamsG.one n s ty hn hs,
                  by rw [hd0, hd1, hd]; simp, by simp; omega⟩
        · simp [consumeIdentifier_run, h0, hn, consume_run, h1] at h
      · simp [consumeIdentifier_run, h0, hn] at h

theorem parseLiteral_sound : ∀ (fuel : Nat) (ts : List Token) (cur : Nat) (v : Literal)
    (c2 : Nat), parseLiteral fuel ts cur = .ok v c2 →
    ∃ s, LitG s v ∧ ts.drop cur = s ++ ts.drop c2 ∧ c2 = cur + s.length := by
  intro fuel
  induction fuel with
  | zero => intro ts cur v c2 h; simp [parseLiteral] at h
  | succ f ih =>
    intro ts cur v c2 h
    rw [parseLiteral] at h
    cases h0 : ts[cur]? with
    | none => simp [matchAny_run, matchNumber_run, matchString_run, h0] at h
    | some t =>
      have hd0 := drop_eq_cons_of_getElem? h0
      by_cases hb : t ∈ [units "true", units "false"]
      · simp [matchAny_run, h0, hb] at h
        obtain ⟨rfl, rfl⟩ := h
        exact ⟨[t], LitG.bool t hb, by simpa using hd0, rfl⟩
      · by_cases hn : isNumber t = true
        · simp [matchAny_run, h0, hb, matchNumber_run, hn] at h
          obtain ⟨rfl, rfl⟩ := h
          exact ⟨[t], LitG.number t hn, by simpa using hd0, rfl⟩
        · by_cases hs : isString t = true
          · simp [matchAny_run, h0, hb, matchNumber_run, hn, matchString_run, hs] at h
            obtain ⟨rfl, rfl⟩ := h
            exact ⟨[t], LitG.string t hs, by simpa using hd0, rfl⟩
          · by_cases hl : t = units "["
            · subst hl
              simp [matchAny_run, h0, hb, matchNumber_run, hn, matchString_run, hs] at h
              cases hr : parseLiteral f ts (cur + 1) with
              | throw e => simp [hr] at h
              | outOfFuel => simp [hr] at h
              | ok inner c =>
                obtain ⟨s, hs, hd, hc⟩ := ih ts (cur + 1) inner c hr
                by_cases h3 : ts[c]? = some (units "]")
                · simp [hr, consume_run, h3] at h
                  obtain ⟨rfl, rfl⟩ := h
                  refine ⟨units "[" :: s ++ [units "]"], LitG.list s inner hs, ?_, ?_⟩
                  · rw [hd0, hd, drop_eq_cons_of_getElem? h3]; simp
                  · simp; omega
                · simp [hr, consume_run, h3] at h
            · by_cases hdict : t = units "\x7b"
              · subst hdict
                simp [matchAny_run, h0, hb, matchNumber_run, hn, matchString_run, hs, hl] at h
                cases hr : parseLiteral f ts (cur + 1) with
                | throw e => simp [hr] at h
                | outOfFuel => simp [hr] at h
                | ok key c =>
                  obtain ⟨s1, hs1, hd1, hc1⟩ := ih ts (cur + 1) key c hr
                  by_cases h3 : ts[c]? = some (units ":")
                  · have hd3 := drop_eq_cons_of_getElem? h3
                    cases hr2 : parseLiteral f ts (c + 1) with
                    | throw e => simp [hr, consume_run, h3, hr2] at h
                    | outOfFuel => simp [hr, consume_run, h3, hr2] at h
                    | ok value c3 =>
                      obtain ⟨s2, hs2, hd2, hc2⟩ := ih ts (c + 1) value c3 hr2
                      by_cases h4 : ts[c3]? = some (units "\x7d")
                      · simp [hr, consume_run, h3, hr2, h4] at h
                        obtain ⟨rfl, rfl⟩ := h
                        refine ⟨units "\x7b" :: s1 ++ units ":" :: s2 ++ [units "\x7d"],
                          LitG.dict s1 key s2 value hs1 hs2, ?_, ?_⟩
                        · rw [hd0, hd1, hd3, hd2, drop_eq_cons_of_getElem? h4]; simp
                        · simp; omega
                      · simp [hr, consume_run, h3, hr2, h4] at h
                  · simp [hr, consume_run, h3] at h
              · simp [matchAny_run, h0, hb, matchNumber_run, hn, matchString_run, hs, hl,
                  hdict] at h

theorem parseLiterals_sound : ∀ (fuel : Nat) (ts : List Token) (cur : Nat)
    (v : List Literal) (c2 : Nat), parseLiterals fuel ts cur = .ok v c2 →
    ∃ s, LitsG s v ∧ ts.drop cur = s ++ ts.drop c2 ∧ c2 = cur + s.length := by
  intro fuel
  induction fuel with
  | zero => intro ts cur v c2 h; simp [parseLiterals] at h
  | succ f ih =>
    intro ts cur v c2 h
    rw [parseLiterals] at h
    cases hr : parseLiteral f ts cur with
    | throw e => simp [hr] at h
    | outOfFuel => simp [hr] at h
    | ok l c =>
      obtain ⟨s, hs, hd, hc⟩ := parseLiteral_sound f ts cur l c hr
      cases h3 : ts[c]? with
      | none =>
        simp [hr, matchAny_run, h3] at h
        obtain ⟨rfl, rfl⟩ := h
        exact ⟨s, LitsG.one s l hs, hd, hc⟩
      | some t =>
        by_cases ht : t = units ","
        · subst ht
          have hd3 := drop_eq_cons_of_getElem? h3
          simp [hr, matchAny_run, h3] at h
          cases hr2 : parseLiterals f ts (c + 1) with
          | throw e => simp [hr2] at h
          | outOfFuel => simp [hr2] at h
          | ok ls c3 =>
            obtain ⟨s2, hs2, hd2, hc2⟩ := ih ts (c + 1) ls c3 hr2
            simp [hr2] at h
            obtain ⟨rfl, rfl⟩ := h
            refine ⟨s ++ units "," :: s2, LitsG.cons s l s2 ls hs hs2, ?_, ?_⟩
            · rw [hd, hd3, hd2]; simp
            · simp; omega
        · simp [hr, matchAny_run, h3, ht] at h
          obtain ⟨rfl, rfl⟩ := h
          exact ⟨s, LitsG.one s l hs, hd, hc⟩

theorem parseExpression_sound_step {f : Nat} (ihm : MixSound f) : ExprSound (f + 1) := by
  intro ts cur v c2 h
  rw [parseExpression] at h
  cases h0 : ts[cur]? with
  | none => simp [consumeIdentifier_run, h0, consume_run] at h
  | some n =>
    have hd0 := drop_eq_cons_of_getElem? h0
    by_cases hn : isIdentifier n = true
    · by_cases h1 : ts[cur + 1]? = some (units "(")
      · have hd1 := drop_eq_cons_of_getElem? h1
        cases hr : parseMix f ts (cur + 1 + 1) with
        | throw e => simp [consumeIdentifier_run, h0, hn, consume_run, h1, hr] at h
        | outOfFuel => simp [consumeIdentifier_run, h0, hn, consume_run, h1, hr] at h
        | ok m c =>
          obtain ⟨s, hs, hd, hc⟩ := ihm ts (cur + 1 + 1) m c hr
          by_cases h3 : ts[c]? = some (units ")")
          · simp [consumeIdentifier_run, h0, hn, consume_run, h1, hr, h3] at h
            obtain ⟨rfl, rfl⟩ := h
            refine ⟨n, s, rfl, hn, hs, ?_, by omega⟩
            rw [hd0, hd1, hd, drop_eq_cons_of_getElem? h3]
          · simp [consumeIdentifier_run, h0, hn, consume_run, h1, hr, h3] at h
      · simp [consumeIdentifier_run, h0, hn, consume_run, h1] at h
    · simp [consumeIdentifier_run, h0, hn] at h

theorem parseMix_sound_step {f : Nat} (ihe : ExprSound f) (ihm : MixSound f) :
    MixSound (f + 1) := by
  intro ts cur v c2 h
  rw [parseMix] at h
  -- the item parsed first
  have hitem : ∀ (item : MixItem) (c : Nat),
      ((do
        if ← peekIdentifier then
          let e ← parseExpression f
          return MixItem.expression e.1 e.2
        else
          return MixItem.literal (← parseLiteral f)) : P MixItem) ts cur = .ok item c →
      (∃ n s m, item = .expression (some n) m ∧ isIdentifier n = true ∧ MixG s m ∧
        ts.drop cur = n :: units "(" :: (s ++ units ")" :: ts.drop c) ∧ c = cur + s.length + 3) ∨
      (∃ s l, item = .literal l ∧ LitG s l ∧ NoIdentHead s ∧
        ts.drop cur = s ++ ts.drop c ∧ c = cur + s.length) := by
    intro item c hi
    by_cases hp : isIdentifier (toStr ts[cur]?) = true
    · left
      cases hr : parseExpression f ts cur with
      | throw e => simp [peekIdentifier_run, hp, hr] at hi
      | outOfFuel => simp [peekIdentifier_run, hp, hr] at hi
      | ok e c3 =>
        obtain ⟨n, s, hn1, hn, hs, hd, hc⟩ := ihe ts cur e c3 hr
        simp [peekIdentifier_run, hp, hr] at hi
        obtain ⟨rfl, rfl⟩ := hi
        exact ⟨n, s, e.2, by rw [hn1], hn, hs, hd, hc⟩
    · right
      cases hr : parseLiteral f ts cur with
      | throw e => simp [peekIdentifier_run, hp, hr] at hi
      | outOfFuel => simp [peekIdentifier_run, hp, hr] at hi
      | ok l c3 =>
        obtain ⟨s, hs, hd, hc⟩ := parseLiteral_sound f ts cur l c3 hr
        simp [peekIdentifier_run, hp, hr] at hi
        obtain ⟨rfl, rfl⟩ := hi
        refine ⟨s, l, rfl, hs, ?_, hd, hc⟩
        intro t r hs2
        subst hs2
        have h0 : ts[cur]? = some t := getElem?_of_drop (r := r ++ ts.drop c3) (by simpa using hd)
        rw [h0] at hp
        simpa [toStr] using hp
  rw [bind_run] at h
  generalize hgen : ((do
        if ← peekIdentifier then
          let e ← parseExpression f
          return MixItem.expression e.1 e.2
        else
          return MixItem.literal (← parseLiteral f)) : P MixItem) = itemP at h hitem
  cases hr : itemP ts cur with
  | throw e => simp [hr] at h
  | outOfFuel => simp [hr] at h
  | ok item c =>
    have hi := hitem item c hr
    cases h3 : ts[c]? with
    | none =>
      simp [hr, matchAny_run, h3] at h
      obtain ⟨rfl, rfl⟩ := h
      rcases hi with ⟨n, s, m, rfl, hn, hs, hd, hc⟩ | ⟨s, l, rfl, hs, hni, hd, hc⟩
      · exact ⟨n :: units "(" :: s ++ [units ")"], MixG.callLast n s m hn hs,
          by rw [hd]; simp, by simp; omega⟩
      · exact ⟨s, MixG.litLast s l hs hni, hd, hc⟩
    | some t =>
      by_cases ht : t = units ","
      · subst ht
        have hd3 := drop_eq_cons_of_getElem? h3
        simp [hr, matchAny_run, h3] at h
        cases hr2 : parseMix f ts (c + 1) with
        | throw e => simp [hr2] at h
        | outOfFuel => simp [hr2] at h
        | ok m2 c3 =>
          obtain ⟨s2, hs2, hd2, hc2⟩ := ihm ts (c + 1) m2 c3 hr2
          simp [hr2] at h
          obtain ⟨rfl, rfl⟩ := h
          rcases hi with ⟨n, s, m, rfl, hn, hs, hd, hc⟩ | ⟨s, l, rfl, hs, hni, hd, hc⟩
          · refine ⟨n :: units "(" :: s ++ units ")" :: units "," :: s2,
              MixG.callCons n s m s2 m2 hn hs hs2, ?_, ?_⟩
            · rw [hd, hd3, hd2]; simp
            · simp; omega
          · refine ⟨s ++ units "," :: s2, MixG.litCons s l s2 m2 hs hni hs2, ?_, ?_⟩
            · rw [hd, hd3, hd2]; simp
            · simp; omega
      · simp [hr, matchAny_run, h3, ht] at h
        obtain ⟨rfl, rfl⟩ := h
        rcases hi with ⟨n, s, m, rfl, hn, hs, hd, hc⟩ | ⟨s, l, rfl, hs, hni, hd, hc⟩
        · exact ⟨n :: units "(" :: s ++ [units ")"], MixG.callLast n s m hn hs,
            by rw [hd]; simp, by simp; omega⟩
        · exact ⟨s, MixG.litLast s l hs hni, hd, hc⟩

theorem parseExprMix_sound : ∀ fuel : Nat, ExprSound fuel ∧ MixSound fuel := by
  intro fuel
  induction fuel with
  | zero =>
    constructor
    · intro ts cur v c2 h; simp [parseExpression] at h
    · intro ts cur v c2 h; simp [parseMix] at h
  | succ f ih => exact ⟨parseExpression_sound_step ih.2, parseMix_sound_step ih.1 ih.2⟩

theorem parseSignature_sound (fuel : Nat) (ts : List Token) (cur : Nat) (v : Statement)
    (c2 : Nat) (h : parseSignature fuel ts cur = .ok v c2) :
    ∃ n sp ps sr r, v = .signature (some n) ps r ∧ isIdentifier n = true ∧ ParamsG sp ps ∧
      TypeG sr r ∧
      ts.drop cur = n :: units "(" :: (sp ++ units ")" :: units "->" :: (sr ++ ts.drop c2)) ∧
      c2 = cur + sp.length + sr.length + 4 := by
  rw [parseSignature] at h
  cases h0 : ts[cur]? with
  | none => simp [consumeIdentifier_run, h0, consume_run] at h
  | some n =>
    have hd0 := drop_eq_cons_of_getElem? h0
    by_cases hn : isIdentifier n = true
    · by_cases h1 : ts[cur + 1]? = some (units "(")
      · have hd1 := drop_eq_cons_of_getElem? h1
        cases hr : parseParameters fuel ts (cur + 1 + 1) with
        | throw e => simp [consumeIdentifier_run, h0, hn, consume_run, h1, hr] at h
        | outOfFuel => simp [consumeIdentifier_run, h0, hn, consume_run, h1, hr] at h
        | ok ps c =>
          obtain ⟨sp, hsp, hdp, hcp⟩ := parseParameters_sound fuel ts (cur + 1 + 1) ps c hr
          by_cases h3 : ts[c]? = some (units ")")
          · have hd3 := drop_eq_cons_of_getElem? h3
            by_cases h4 : ts[c + 1]? = some (units "->")
            · have hd4 := drop_eq_cons_of_getElem? h4
              cases hr2 : parseType fuel ts (c + 1 + 1) with
              | throw e =>
                simp [consumeIdentifier_run, h0, hn, consume_run, h1, hr, h3, h4, hr2] at h
              | outOfFuel =>
                simp [consumeIdentifier_run, h0, hn, consume_run, h1, hr, h3, h4, hr2] at h
              | ok r c3 =>
                obtain ⟨sr, hsr, hdr, hcr⟩ := parseType_sound fuel ts (c + 1 + 1) r c3 hr2
                simp [consumeIdentifier_run, h0, hn, consume_run, h1, hr, h3, h4, hr2] at h
                obtain ⟨rfl, rfl⟩ := h
                refine ⟨n, sp, ps, sr, r, rfl, hn, hsp, hsr, ?_, by omega⟩
                rw [hd0, hd1, hdp, hd3, hd4, hdr]
            · simp [consumeIdentifier_run, h0, hn, consume_run, h1, hr, h3, h4] at h
          · simp [consumeIdentifier_run, h0, hn, consume_run, h1, hr, h3] at h
      · simp [consumeIdentifier_run, h0, hn, consume_run, h1] at h
    · simp [consumeIdentifier_run, h0, hn] at h

theorem parseExample_sound (fuel : Nat) (ts : List Token) (cur : Nat) (v : Statement)
    (c2 : Nat) (h : parseExample fuel ts cur = .ok v c2) :
    ∃ n sl ls sr r, v = .example (some n) ls r ∧ isIdentifier n = true ∧ LitsG sl ls ∧
      LitG sr r ∧
      ts.drop cur = n :: units "(" :: (sl ++ units ")" :: units "=" :: (sr ++ ts.drop c2)) ∧
      c2 = cur + sl.length + sr.length + 4 := by
  rw [parseExample] at h
  cases h0 : ts[cur]? with
  | none => simp [consumeIdentifier_run, h0, consume_run] at h
  | some n =>
    have hd0 := drop_eq_cons_of_getElem? h0
    by_cases hn : isIdentifier n = true
    · by_cases h1 : ts[cur + 1]? = some (units "(")
      · have hd1 := drop_eq_cons_of_getElem? h1
        cases hr : parseLiterals fuel ts (cur + 1 + 1) with
        | throw e => simp [consumeIdentifier_run, h0, hn, consume_run, h1, hr] at h
        | outOfFuel => simp [consumeIdentifier_run, h0, hn, consume_run, h1, hr] at h
        | ok ls c =>
          obtain ⟨sl, hsl, hdl, hcl⟩ := parseLiterals_sound fuel ts (cur + 1 + 1) ls c hr
          by_cases h3 : ts[c]? = some (units ")")
          · have hd3 := drop_eq_cons_of_getElem? h3
            by_cases h4 : ts[c + 1]? = some (units "=")
            · have hd4 := drop_eq_cons_of_getElem? h4
              cases hr2 : parseLiteral fuel ts (c + 1 + 1) with
              | throw e =>
                simp [consumeIdentifier_run, h0, hn, consume_run, h1, hr, h3, h4, hr2] at h
              | outOfFuel =>
                simp [consumeIdentifier_run, h0, hn, consume_run, h1, hr, h3, h4, hr2] at h
              | ok r c3 =>
                obtain ⟨sr, hsr, hdr, hcr⟩ := parseLiteral_sound fuel ts (c + 1 + 1) r c3 hr2
                simp [consumeIdentifier_run, h0, hn, consume_run, h1, hr, h3, h4, hr2] at h
                obtain ⟨rfl, rfl⟩ := h
                refine ⟨n, sl, ls, sr, r, rfl, hn, hsl, hsr, ?_, by omega⟩
                rw [hd0, hd1, hdl, hd3, hd4, hdr]
            · simp [consumeIdentifier_run, h0, hn, consume_run, h1, hr, h3, h4] at h
          · simp [consumeIdentifier_run, h0, hn, consume_run, h1, hr, h3] at h
      · simp [consumeIdentifier_run, h0, hn, consume_run, h1] at h
    · simp [consumeIdentifier_run, h0, hn] at h

theorem parseStatement_sound (fuel : Nat) (ts : List Token) (cur : Nat) (v : Statement)
    (c2 : Nat) (h : parseStatement fuel ts cur = .ok v c2) :
    ∃ s, StmtG s v ∧ ts.drop cur = s ++ ts.drop c2 ∧ c2 = cur + s.length := by
  rw [parseStatement] at h
  by_cases hsig : ts[cur]? = some (units "signature")
  · have hd0 := drop_eq_cons_of_getElem? hsig
    simp [matchAny_run, hsig] at h
    obtain ⟨n, sp, ps, sr, r, rfl, hn, hsp, hsr, hd, hc⟩ :=
      parseSignature_sound fuel ts (cur + 1) v c2 h
    refine ⟨_, StmtG.sig n sp ps sr r hn hsp hsr, ?_, ?_⟩
    · rw [hd0, hd]; simp
    · simp; omega
  · have h00 := matchAny_false [units "signature"] ts cur
      (by simpa using hsig)
    by_cases hex : ts[cur]? = some (units "example")
    · have hd0 := drop_eq_cons_of_getElem? hex
      have h01 := matchAny_true [units "example"] hex (by simp)
      simp [h00, h01] at h
      obtain ⟨n, sl, ls, sr, r, rfl, hn, hsl, hsr, hd, hc⟩ :=
        parseExample_sound fuel ts (cur + 1) v c2 h
      refine ⟨_, StmtG.ex n sl ls sr r hn hsl hsr, ?_, ?_⟩
      · rw [hd0, hd]; simp
      · simp; omega
    · have h01 := matchAny_false [units "example"] ts cur
        (by simpa using hex)
      by_cases hp : isIdentifier (toStr ts[cur]?) = true
      · cases hr : parseExpression fuel ts cur with
        | throw e => simp [h00, h01, peekIdentifier_run, hp, hr] at h
        | outOfFuel => simp [h00, h01, peekIdentifier_run, hp, hr] at h
        | ok e c3 =>
          obtain ⟨n, s, hn1, hn, hs, hd, hc⟩ := (parseExprMix_sound fuel).1 ts cur e c3 hr
          simp [h00, h01, peekIdentifier_run, hp, hr] at h
          obtain ⟨rfl, rfl⟩ := h
          have h0 := getElem?_of_drop hd
          have hns : n ≠ units "signature" := by rintro rfl; exact hsig h0
          have hne : n ≠ units "example" := by rintro rfl; exact hex h0
          rw [hn1]
          refine ⟨_, StmtG.expr n s e.2 hn hns hne hs, ?_, ?_⟩
          · rw [hd]; simp
          · simp; omega
      · simp [h00, h01, peekIdentifier_run, hp] at h

theorem stmtG_length_pos {s : List Token} {v : Statement} (h : StmtG s v) : 0 < s.length := by
  cases h <;> simp

theorem progG_length_le {s : List Token} {p : List Statement} (h : ProgG s p) :
    p.length ≤ s.length := by
  induction h with
  | nil => simp
  | cons s st s2 p hs _ ih =>
    have := stmtG_length_pos hs
    simp; omega

theorem parseLoop_prefix {s : List Token} {p : List Statement} (h : ProgG s p) :
    ∀ (fuel : Nat) (ts : List Token) (cur : Nat) (rest : List Token),
      ts.drop cur = s ++ rest → s.length + 1 ≤ fuel →
      parseLoop fuel ts cur =
        Result.prepend p (parseLoop (fuel - p.length) ts (cur + s.length)) := by
  induction h with
  | nil =>
    intro fuel ts cur rest _ _
    cases hr : parseLoop fuel ts cur <;> simp [hr, Result.prepend]
  | cons s st s2 p hs hp ih =>
    intro fuel ts cur rest hd hf
    obtain ⟨f, rfl⟩ : ∃ f, fuel = f + 1 := ⟨fuel - 1, by omega⟩
    have hpos := stmtG_length_pos hs
    simp only [List.length_append] at hf
    rw [List.append_assoc] at hd
    have h1 := parseStatement_complete hs f ts cur _ hd (by omega)
    have h2 := ih f ts (cur + s.length) rest (drop_add_of_drop s hd) (by omega)
    have hlt : ¬ ts.length ≤ cur := by
      intro hle
      rw [List.drop_eq_nil_of_le hle] at hd
      obtain ⟨t, r, rfl⟩ := List.exists_cons_of_length_pos hpos
      simp at hd
    rw [parseLoop]
    simp only [bind_run, isAtEnd_run, hlt, decide_False, Bool.false_eq_true, ↓reduceIte, h1, h2,
      pure_run]
    have e1 : f + 1 - (st :: p).length = f - p.length := by simp
    have e2 : cur + (s ++ s2).length = cur + s.length + s2.length := by simp; omega
    rw [e1, e2]
    cases parseLoop (f - p.length) ts (cur + s.length + s2.length) <;> simp [Result.prepend]

theorem parseLoop_sound : ∀ (fuel : Nat) (ts : List Token) (cur : Nat) (p : List Statement)
    (c2 : Nat), parseLoop fuel ts cur = .ok p c2 → ProgG (ts.drop cur) p := by
  intro fuel
  induction fuel with
  | zero => intro ts cur p c2 h; simp [parseLoop] at h
  | succ f ih =>
    intro ts cur p c2 h
    rw [parseLoop] at h
    by_cases hend : ts.length ≤ cur
    · simp [hend] at h
      rw [List.drop_eq_nil_of_le hend, h.1]
      exact ProgG.nil
    · cases hr : parseStatement f ts cur with
      | throw e => simp [hend, hr] at h
      | outOfFuel => simp [hend, hr] at h
      | ok st c =>
        obtain ⟨s, hs, hd, hc⟩ := parseStatement_sound f ts cur st c hr
        cases hr2 : parseLoop f ts c with
        | throw e => simp [hend, hr, hr2] at h
        | outOfFuel => simp [hend, hr, hr2] at h
        | ok q c3 =>
          simp [hend, hr, hr2] at h
          rw [hd, ← h.1]
          exact ProgG.cons s st _ q hs (ih ts c q c3 hr2)

/-- A parse returns the program `p` exactly when the tokens spell `p`. -/
theorem parse_program_iff (ts : List Token) (p : List Statement) :
    parse ts = .program p ↔ ProgG ts p := by
  constructor
  · intro h
    unfold parse at h
    cases hr : parseLoop (ts.length + 2) ts 0 with
    | throw e => simp [hr] at h
    | outOfFuel => simp [hr] at h
    | ok q c =>
      simp [hr] at h
      subst h
      simpa using parseLoop_sound _ ts 0 q c hr
  · intro h
    have hlen := progG_length_le h
    have h1 := parseLoop_prefix h (ts.length + 2) ts 0 [] (by simp) (by omega)
    obtain ⟨k, hk⟩ : ∃ k, ts.length + 2 - p.length = k + 1 := ⟨ts.length + 1 - p.length, by omega⟩
    unfold parse
    rw [h1, hk, parseLoop]
    simp [Result.prepend]

/-! ## Tokenizer lemmas -/

theorem isDigit_iff (c : Nat) : isDigit c = true ↔ 48 ≤ c ∧ c ≤ 57 := by
  simp [isDigit]

theorem isWordChar_iff (c : Nat) : isWordChar c = true ↔
    (48 ≤ c ∧ c ≤ 57) ∨ (65 ≤ c ∧ c ≤ 90) ∨ c = 95 ∨ (97 ≤ c ∧ c ≤ 122) := by
  simp [isWordChar, isDigit, or_assoc]

theorem isIdentStart_iff (c : Nat) : isIdentStart c = true ↔
    (97 ≤ c ∧ c ≤ 122) ∨ (65 ≤ c ∧ c ≤ 90) ∨ c = 95 := by
  simp [isIdentStart, or_assoc]

theorem isPunct_iff (c : Nat) : isPunct c = true ↔
    c = 46 ∨ c = 44 ∨ c = 58 ∨ c = 40 ∨ c = 41 ∨ c = 91 ∨ c = 93 ∨ c = 123 ∨ c = 125 := by
  simp [isPunct, or_assoc]

theorem isSpace_iff (c : Nat) : isSpace c = true ↔
    (9 ≤ c ∧ c ≤ 13) ∨ c = 32 ∨ c = 160 ∨ c = 5760 ∨ (8192 ≤ c ∧ c ≤ 8202) ∨ c = 8232 ∨
      c = 8233 ∨ c = 8239 ∨ c = 8287 ∨ c = 12288 ∨ c = 65279 := by
  simp [isSpace, or_assoc]

theorem matchAt_space {c : Nat} (h : isSpace c = true) (cs : List Nat) :
    matchAt c cs = none := by
  rw [isSpace_iff] at h
  have hw : ¬ isWordChar c = true := by rw [isWordChar_iff]; omega
  have hp : ¬ isPunct c = true := by rw [isPunct_iff]; omega
  have hd : ¬ isDigit c = true := by rw [isDigit_iff]; omega
  have hs : isSpace c = true := by rw [isSpace_iff]; exact h
  have h45 : c ≠ 45 := by omega
  have h34 : c ≠ 34 := by omega
  simp [matchAt, altWord, altArrow, altPunct, altString, altDigits, altNonSpace, hw, hp, hd, hs,
    h45, h34]

theorem matchAt_word {c : Nat} (h : isWordChar c = true) (cs : List Nat) :
    matchAt c cs = some (c :: cs.takeWhile isWordChar) := by
  simp [matchAt, altWord, h]

theorem matchAt_punct {c : Nat} (h : isPunct c = true) (cs : List Nat) :
    matchAt c cs = some [c] := by
  have h' := (isPunct_iff c).mp h
  have hw : ¬ isWordChar c = true := by rw [isWordChar_iff]; omega
  have h45 : c ≠ 45 := by omega
  simp [matchAt, altWord, altArrow, altPunct, hw, h, h45]

theorem matchAt_arrow (cs : List Nat) : matchAt 45 (62 :: cs) = some [45, 62] := by
  have hw : ¬ isWordChar 45 = true := by decide
  simp [matchAt, altWord, altArrow, hw]

theorem matchAt_equals (cs : List Nat) : matchAt 61 cs = some [61] := by
  have hw : ¬ isWordChar 61 = true := by decide
  have hp : ¬ isPunct 61 = true := by decide
  have hd : ¬ isDigit 61 = true := by decide
  have hs : ¬ isSpace 61 = true := by decide
  simp [matchAt, altWord, altArrow, altPunct, altString, altDigits, altNonSpace, hw, hp, hd, hs]

theorem scan_skip (xs rest : List Nat) : scan xs.length (xs ++ rest) = scan 0 rest := by
  induction xs with
  | nil => rfl
  | cons x xs ih =>
    cases hr : xs ++ rest with
    | nil =>
      have hx : xs = [] := (List.append_eq_nil.mp hr).1
      have hrest : rest = [] := (List.append_eq_nil.mp hr).2
      subst hx; subst hrest
      simp [scan]
    | cons y ys =>
      simp only [List.length_cons, List.cons_append, scan]
      rw [hr] at ih
      simpa [hr] using ih

theorem scan_token (c : Nat) (tok : List Nat) (rest : List Nat)
    (hm : matchAt c (tok ++ rest) = some (c :: tok)) :
    scan 0 (c :: (tok ++ rest)) = (c :: tok) :: scan 0 rest := by
  simp only [scan, hm, List.length_cons, Nat.add_sub_cancel]
  rw [scan_skip]

theorem scan_space {c : Nat} (h : isSpace c = true) (rest : List Nat) :
    scan 0 (c :: rest) = scan 0 rest := by
  simp [scan, matchAt_space h]

theorem scan_punct {c : Nat} (h : isPunct c = true) (rest : List Nat) :
    scan 0 (c :: rest) = [c] :: scan 0 rest := by
  simpa using scan_token c [] rest (by simpa using matchAt_punct h rest)

theorem scan_arrow (rest : List Nat) : scan 0 (45 :: 62 :: rest) = [45, 62] :: scan 0 rest := by
  simpa using scan_token 45 [62] rest (by simpa using matchAt_arrow rest)

theorem scan_equals (rest : List Nat) : scan 0 (61 :: rest) = [61] :: scan 0 rest := by
  simpa using scan_token 61 [] rest (by simpa using matchAt_equals rest)

theorem takeWhile_word {w : List Nat} (hw : ∀ c ∈ w, isWordChar c = true) {rest : List Nat}
    (hr : WordEnd rest) : (w ++ rest).takeWhile isWordChar = w := by
  induction w with
  | nil =>
    cases rest with
    | nil => rfl
    | cons c r => simp [List.takeWhile, hr c r rfl]
  | cons x xs ih =>
    have hx : isWordChar x = true := hw x (List.mem_cons_self x xs)
    simp only [List.cons_append, List.takeWhile_cons, hx, ↓reduceIte]
    rw [ih (fun c hc => hw c (List.mem_cons_of_mem x hc))]

theorem scan_word {w : List Nat} (hw : IsWord w) {rest : List Nat} (hr : WordEnd rest) :
    scan 0 (w ++ rest) = w :: scan 0 rest := by
  obtain ⟨hne, hall⟩ := hw
  cases w with
  | nil => exact absurd rfl hne
  | cons c cs =>
    have hc : isWordChar c = true := hall c (List.mem_cons_self c cs)
    have hcs : ∀ x ∈ cs, isWordChar x = true := fun x hx => hall x (List.mem_cons_of_mem c hx)
    apply scan_token
    rw [matchAt_word hc, takeWhile_word hcs hr]

theorem wordEnd_nil : WordEnd [] := by
  intro c r h; cases h

theorem wordEnd_cons {c : Nat} (h : isWordChar c = false) (r : List Nat) : WordEnd (c :: r) := by
  intro c2 r2 h2
  cases h2
  exact h

theorem isIdentifier_isWord {n : Token} (h : isIdentifier n = true) : IsWord n := by
  cases n with
  | nil => simp [isIdentifier] at h
  | cons c cs =>
    simp only [isIdentifier, Bool.and_eq_true, List.all_eq_true] at h
    refine ⟨by simp, ?_⟩
    intro x hx
    rcases List.mem_cons.mp hx with rfl | hx
    · have := (isIdentStart_iff x).mp h.1
      rw [isWordChar_iff]; omega
    · exact h.2 x hx

/-! ## Signature statements -/

theorem primitive_isWord {t : Token} (h : t ∈ primitiveTypes) : IsWord t := by
  simp only [primitiveTypes, List.mem_cons, List.mem_singleton, List.not_mem_nil, or_false] at h
  rcases h with rfl | rfl | rfl <;> exact ⟨by decide, by decide⟩

theorem wordEnd_of_not_word {c : Nat} (h : isWordChar c = false) (r : List Nat) :
    WordEnd (c :: r) := wordEnd_cons h r

theorem scan_paramsText (ps : List (Token × Token)) (hv : ValidParams ps) (rest : List Nat)
    (hr : WordEnd rest) :
    scan 0 (paramsText ps ++ rest) = paramsTokens ps ++ scan 0 rest := by
  induction ps with
  | nil => simp [paramsText, paramsTokens]
  | cons q qs ih =>
    obtain ⟨hq1, hq2⟩ := hv q (List.mem_cons_self q qs)
    have hw1 := isIdentifier_isWord hq1
    have hw2 := primitive_isWord hq2
    have hcolon : units ": " = [58, 32] := by decide
    have hcomma : units ", " = [44, 32] := by decide
    cases qs with
    | nil =>
      simp only [paramsText, paramsTokens, List.append_assoc, hcolon, List.cons_append,
        List.nil_append]
      rw [scan_word hw1 (wordEnd_cons (by decide) _), scan_punct (by decide),
        scan_space (by decide), scan_word hw2 hr]
      rfl
    | cons q2 qs2 =>
      have ih2 := ih (fun x hx => hv x (List.mem_cons_of_mem q hx))
      simp only [paramsText, paramsTokens, List.append_assoc, hcolon, hcomma, List.cons_append,
        List.nil_append]
      rw [scan_word hw1 (wordEnd_cons (by decide) _), scan_punct (by decide),
        scan_space (by decide), scan_word hw2 (wordEnd_cons (by decide) _),
        scan_punct (by decide), scan_space (by decide), ih2]
      rfl

theorem paramsG_paramsTokens (ps : List (Token × Token)) (hne : ps ≠ []) (hv : ValidParams ps) :
    ParamsG (paramsTokens ps) (parametersOf ps) := by
  induction ps with
  | nil => exact absurd rfl hne
  | cons q qs ih =>
    obtain ⟨hq1, hq2⟩ := hv q (List.mem_cons_self q qs)
    cases qs with
    | nil => exact ParamsG.one q.1 [q.2] _ hq1 (TypeG.prim q.2 hq2)
    | cons q2 qs2 =>
      have ih2 := ih (by simp) (fun x hx => hv x (List.mem_cons_of_mem q hx))
      exact ParamsG.cons q.1 [q.2] _ _ _ hq1 (TypeG.prim q.2 hq2) ih2

theorem scan_signatureText (n : Token) (ps : List (Token × Token)) (r : Token)
    (hn : isIdentifier n = true) (hv : ValidParams ps) (hr : r ∈ primitiveTypes)
    (rest : List Nat) (hrest : WordEnd rest) :
    scan 0 (signatureText n ps r ++ rest) = signatureTokens n ps r ++ scan 0 rest := by
  have hsig : units "signature " = units "signature" ++ [32] := by decide
  have hw : IsWord (units "signature") := ⟨by decide, by decide⟩
  have hopen : units "(" = [40] := by decide
  have hclose : units ") -> " = [41, 32, 45, 62, 32] := by decide
  simp only [signatureText, signatureTokens, hsig, hopen, hclose, List.append_assoc,
    List.cons_append, List.nil_append]
  rw [scan_word hw (wordEnd_cons (by decide) _), scan_space (by decide),
    scan_word (isIdentifier_isWord hn) (wordEnd_cons (by decide) _), scan_punct (by decide),
    scan_paramsText ps hv _ (wordEnd_cons (by decide) _), scan_punct (by decide),
    scan_space (by decide), scan_arrow, scan_space (by decide),
    scan_word (primitive_isWord hr) hrest]
  rfl

theorem stmtG_signatureTokens (n : Token) (ps : List (Token × Token)) (r : Token)
    (hn : isIdentifier n = true) (hne : ps ≠ []) (hv : ValidParams ps)
    (hr : r ∈ primitiveTypes) : StmtG (signatureTokens n ps r) (signatureOf n ps r) := by
  have := StmtG.sig n (paramsTokens ps) (parametersOf ps) [r] (.name (some r)) hn
    (paramsG_paramsTokens ps hne hv) (TypeG.prim r hr)
  simpa [signatureTokens, signatureOf] using this

theorem progG_single {s : List Token} {st : Statement} (h : StmtG s st) : ProgG s [st] := by
  simpa using ProgG.cons s st [] [] h ProgG.nil

theorem progG_append {s1 s2 : List Token} {p1 p2 : List Statement} (h1 : ProgG s1 p1)
    (h2 : ProgG s2 p2) : ProgG (s1 ++ s2) (p1 ++ p2) := by
  induction h1 with
  | nil => simpa using h2
  | cons s st s' p hs _ ih =>
    simpa [List.append_assoc] using ProgG.cons s st (s' ++ s2) (p ++ p2) hs ih

/-- C1: for every identifier n, every non-empty parameter list of identifiers with
primitive types and every primitive return type r, parsing the source text
`signature n(p_1: t_1, ..., p_k: t_k) -> r` returns the program of the one
statement `{type: 'signature', name: n, parameters, returnType: r}`, whose
parameters are the k objects `{name: p_i, type: t_i}` in source order. -/
theorem parse_signature_text (n : Token) (ps : List (Token × Token)) (r : Token)
    (hn : isIdentifier n = true) (hne : ps ≠ []) (hv : ValidParams ps)
    (hr : r ∈ primitiveTypes) :
    parseSource (signatureText n ps r) =
        .program [.signature (some n) (parametersOf ps) (.name (some r))] ∧
      (parametersOf ps).length = ps.length ∧
      ∀ (i : Nat) (h : i < ps.length), (parametersOf ps)[i]? =
        some { name := some (ps.get ⟨i, h⟩).1, type := .name (some (ps.get ⟨i, h⟩).2) } := by
  refine ⟨?_, by simp [parametersOf], ?_⟩
  · have hs := scan_signatureText n ps r hn hv hr [] wordEnd_nil
    simp only [List.append_nil] at hs
    have hscan : scan 0 [] = [] := rfl
    rw [hscan, List.append_nil] at hs
    unfold parseSource tokenize
    rw [hs]
    exact (parse_program_iff _ _).mpr (progG_single (stmtG_signatureTokens n ps r hn hne hv hr))
  · intro i h
    simp [parametersOf, List.getElem?_map, List.getElem?_eq_getElem h]

/-- C1, the instance `signature add(a: number, b: number) -> number`. -/
theorem parse_signature_text_witness :
    parseSource (units "signature add(a: number, b: number) -> number") =
      .program [.signature (some (units "add"))
        [{ name := some (units "a"), type := .name (some (units "number")) },
         { name := some (units "b"), type := .name (some (units "number")) }]
        (.name (some (units "number")))] :=
  (parse_signature_text (units "add")
    [(units "a", units "number"), (units "b", units "number")] (units "number")
    (by decide) (by decide) (by decide) (by decide)).1

/-! ## Grouping and extraction -/

theorem group_signatures (ast : List Statement) :
    (groupSignaturesWithExamples ast).map (fun g => g.signature) =
      ast.filter (fun node => node.type == units "signature") := by
  simp [groupSignaturesWithExamples, List.map_map, Function.comp_def]

theorem group_mem {ast : List Statement} {g : GroupedSignature}
    (h : g ∈ groupSignaturesWithExamples ast) :
    g.signature ∈ ast ∧ g.signature.type = units "signature" ∧
      g.examples = ast.filter
        (fun node => node.type == units "example" && node.name == g.signature.name) := by
  simp only [groupSignaturesWithExamples, List.mem_map, List.mem_filter, beq_iff_eq] at h
  obtain ⟨sig, ⟨hmem, hty⟩, rfl⟩ := h
  refine ⟨hmem, hty, ?_⟩
  simp [List.filter_filter, Bool.and_comm]

/-- C2: `groupSignaturesWithExamples(ast)` has exactly one entry per signature
statement of `ast`, in source order, duplicate names kept, each entry keeping
the signature's own fields; the `examples` of an entry are exactly the example
statements of `ast` with the signature's name, in source order, so no example
is attached to a signature of another name. -/
theorem group_by_name (ast : List Statement) :
    (groupSignaturesWithExamples ast).map (fun g => g.signature) =
        ast.filter (fun node => node.type == units "signature") ∧
      (groupSignaturesWithExamples ast).length =
        (ast.filter (fun node => node.type == units "signature")).length ∧
      (∀ g ∈ groupSignaturesWithExamples ast,
        g.examples = ast.filter
          (fun node => node.type == units "example" && node.name == g.signature.name)) ∧
      (∀ g ∈ groupSignaturesWithExamples ast, List.Sublist g.examples ast) ∧
      (∀ g ∈ groupSignaturesWithExamples ast, ∀ e ∈ g.examples,
        e ∈ ast ∧ e.type = units "example" ∧ e.name = g.signature.name) ∧
      (∀ g ∈ groupSignaturesWithExamples ast, ∀ e ∈ ast,
        e.type = units "example" → e.name = g.signature.name → e ∈ g.examples) := by
  refine ⟨group_signatures ast, ?_, ?_, ?_, ?_, ?_⟩
  · rw [← group_signatures ast, List.length_map]
  · intro g hg
    exact (group_mem hg).2.2
  · intro g hg
    rw [(group_mem hg).2.2]
    exact List.filter_sublist ast
  · intro g hg e he
    rw [(group_mem hg).2.2] at he
    simpa using he
  · intro g hg e he hty hname
    rw [(group_mem hg).2.2]
    simp [he, hty, hname]

/-- C3: the source text `signature f(xs: list[number]) -> dict{list[string]}`
does not parse: the tokenizer splits `list[` into the tokens `list` and `[`,
so `parseType` meets the token `list` and throws `Unexpected type: list`,
although on a token sequence in which `list[` and `dict{` are single tokens the
same `parseType` returns the exact tree of every type expression. -/
theorem parse_nested_type_text_fails :
    tokenize (units "list[number]") = [units "list", units "[", units "number", units "]"] ∧
      parseSource (units "signature f(xs: list[number]) -> dict\x7blist[string]\x7d") =
        .error (.unexpectedType (some (units "list"))) ∧
      (∀ (s : List Token) (v : TypeExpr), TypeG s v →
        parseType s.length s 0 = .ok v s.length) := by
  refine ⟨by decide, by rfl, ?_⟩
  intro s v h
  simpa using parseType_complete h s.length s 0 [] (by simp) (le_refl _)

theorem type_eq_expression (node : Statement) :
    (node.type == units "expression") = node.isExpression := by
  cases node <;> simp [Statement.type, Statement.isExpression] <;> decide

/-- C6: `extractExpressions(ast)` is exactly the sublist of the expression
statements of `ast`, in source order and unchanged; no expression statement is
an entry of `groupSignaturesWithExamples(ast)` or one of its examples; for the
parse of `foo(bar(1), 2)` the one expression statement is extracted and the
grouping is empty. -/
theorem extract_expressions (ast : List Statement) :
    extractExpressions ast = ast.filter Statement.isExpression ∧
      List.Sublist (extractExpressions ast) ast ∧
      (∀ node, node ∈ extractExpressions ast ↔ node ∈ ast ∧ node.isExpression = true) ∧
      (∀ g ∈ groupSignaturesWithExamples ast, g.signature.isExpression = false ∧
        ∀ e ∈ g.examples, e.isExpression = false) ∧
      parseSource (units "foo(bar(1), 2)") =
        .program [.expression (some (units "foo"))
          [.expression (some (units "bar")) [.literal (.num (.finite 1 0))],
           .literal (.num (.finite 2 0))]] ∧
      extractExpressions [.expression (some (units "foo"))
          [.expression (some (units "bar")) [.literal (.num (.finite 1 0))],
           .literal (.num (.finite 2 0))]] =
        [.expression (some (units "foo"))
          [.expression (some (units "bar")) [.literal (.num (.finite 1 0))],
           .literal (.num (.finite 2 0))]] ∧
      groupSignaturesWithExamples [.expression (some (units "foo"))
          [.expression (some (units "bar")) [.literal (.num (.finite 1 0))],
           .literal (.num (.finite 2 0))]] = [] := by
  have hfilter : extractExpressions ast = ast.filter Statement.isExpression := by
    unfold extractExpressions
    congr 1
    funext node
    exact type_eq_expression node
  refine ⟨hfilter, ?_, ?_, ?_, by rfl, by rfl, by rfl⟩
  · rw [hfilter]; exact List.filter_sublist ast
  · intro node
    rw [hfilter]; simp [List.mem_filter]
  · intro g hg
    obtain ⟨_, hty, hex⟩ := group_mem hg
    constructor
    · cases hs : g.signature <;> simp [hs, Statement.type, Statement.isExpression] at hty ⊢
      revert hty; decide
    · intro e he
      rw [hex] at he
      simp only [List.mem_filter, Bool.and_eq_true, beq_iff_eq] at he
      have hty2 := he.2.1
      cases e <;> simp [Statement.type, Statement.isExpression] at hty2 ⊢
      revert hty2; decide

/-! ## Number literals and example statements -/

theorem isDigits_isWord {d : Token} (h : IsDigits d) : IsWord d := by
  refine ⟨h.1, ?_⟩
  intro c hc
  have := (isDigit_iff c).mp (h.2 c hc)
  rw [isWordChar_iff]; omega

theorem isDigits_takeWhile {d : Token} (h : ∀ c ∈ d, isDigit c = true) :
    d.takeWhile isDigit = d := by
  induction d with
  | nil => rfl
  | cons x xs ih =>
    simp only [List.takeWhile_cons, h x (List.mem_cons_self x xs), ↓reduceIte]
    rw [ih (fun c hc => h c (List.mem_cons_of_mem x hc))]

theorem isDigits_dropWhile {d : Token} (h : ∀ c ∈ d, isDigit c = true) :
    d.dropWhile isDigit = [] := by
  induction d with
  | nil => rfl
  | cons x xs ih =>
    simp only [List.dropWhile_cons, h x (List.mem_cons_self x xs), ↓reduceIte]
    exact ih (fun c hc => h c (List.mem_cons_of_mem x hc))

theorem isDigits_isNumber {d : Token} (h : IsDigits d) : isNumber d = true := by
  obtain ⟨hne, hall⟩ := h
  cases d with
  | nil => exact absurd rfl hne
  | cons x xs =>
    simp [isNumber, isDigits_takeWhile hall, isDigits_dropWhile hall]

theorem isDigits_not_identifier {d : Token} (h : IsDigits d) : isIdentifier d = false := by
  obtain ⟨hne, hall⟩ := h
  cases d with
  | nil => rfl
  | cons x xs =>
    have := (isDigit_iff x).mp (hall x (List.mem_cons_self x xs))
    have hx : isIdentStart x = false := by
      rw [Bool.eq_false_iff, Ne, isIdentStart_iff]; omega
    simp [isIdentifier, hx]

/-! ## The value of a number literal -/

theorem bitLength_zero (fuel : Nat) : bitLength fuel 0 = 0 := by
  cases fuel <;> simp [bitLength]

theorem bitLength_spec (fuel : Nat) : ∀ n, n ≠ 0 → n ≤ fuel →
    1 ≤ bitLength fuel n ∧ 2 ^ (bitLength fuel n - 1) ≤ n ∧ n < 2 ^ bitLength fuel n := by
  induction fuel with
  | zero => intro n h0 h; omega
  | succ f ih =>
    intro n h0 h
    rw [bitLength, if_neg h0]
    by_cases h2 : n / 2 = 0
    · rw [h2, bitLength_zero]
      have : n = 1 := by omega
      subst this
      simp
    · obtain ⟨h1, hlo, hhi⟩ := ih (n / 2) h2 (by omega)
      refine ⟨by omega, ?_, ?_⟩
      · have : bitLength f (n / 2) + 1 - 1 = (bitLength f (n / 2) - 1) + 1 := by omega
        rw [this, pow_succ]
        omega
      · rw [pow_succ]
        omega

theorem lowestTerms_pow (s n : Nat) : lowestTerms s (n * 2 ^ s) s = (n, 0) := by
  induction s with
  | zero => simp [lowestTerms]
  | succ s ih =>
    have h0 : n * 2 ^ (s + 1) = 2 * (n * 2 ^ s) := by rw [pow_succ]; ring
    have h1 : n * 2 ^ (s + 1) % 2 = 0 := by rw [h0]; omega
    have h2 : n * 2 ^ (s + 1) / 2 = n * 2 ^ s := by rw [h0]; omega
    rw [lowestTerms, if_neg (by omega), if_pos h1, h2]
    simpa using ih

theorem roundHalfEven_one (a : Nat) : roundHalfEven a 1 = a := by
  simp [roundHalfEven, Nat.mod_one]

theorem roundHalfEven_grid (m r G : Nat) (hr : r < G) :
    roundHalfEven (m * G + r) G =
      if 2 * r < G then m else if G < 2 * r then m + 1 else m + m % 2 := by
  have hG : 0 < G := by omega
  have h1 : (m * G + r) % G = r := by
    rw [Nat.add_comm, Nat.add_mul_mod_self_right, Nat.mod_eq_of_lt hr]
  have h2 : (m * G + r) / G = m := by
    rw [Nat.add_comm, Nat.add_mul_div_right _ _ hG, Nat.div_eq_of_lt hr, Nat.zero_add]
  simp only [roundHalfEven, h1, h2]

/-- Unfolding of `toDouble` on a natural number. -/
theorem toDouble_nat (n : Nat) (h0 : n ≠ 0) :
    toDouble n 1 =
      if 53 ≤ bitLength n n then
        if 2 ^ 1024 ≤ roundHalfEven n (2 ^ (bitLength n n - 53)) * 2 ^ (bitLength n n - 53)
        then .infinity
        else .finite (roundHalfEven n (2 ^ (bitLength n n - 53)) * 2 ^ (bitLength n n - 53)) 0
      else .finite n 0 := by
  obtain ⟨h1, hlo, hhi⟩ := bitLength_spec n n h0 (le_refl n)
  have hb : bitLength 1 1 = 1 := by decide
  have hge : (1 : Nat) * 2 ^ (bitLength n n - 1) ≤ n := by simpa using hlo
  simp only [toDouble, if_neg h0, hb, if_pos h1, hge, decide_True, if_true]
  by_cases h53 : 53 ≤ bitLength n n
  · have hE : 1074 ≤ bitLength n n + 1022 - 1 := by omega
    have hx : bitLength n n + 1022 - 1 - 1074 = bitLength n n - 53 := by omega
    simp only [if_pos hE, if_pos h53, hx, Nat.one_mul]
  · have hE : ¬ 1074 ≤ bitLength n n + 1022 - 1 := by omega
    simp only [if_neg hE, if_neg h53, roundHalfEven_one, lowestTerms_pow]

theorem pow_split {g e : Nat} (h : g ≤ e) : 2 ^ e = 2 ^ (e - g) * 2 ^ g := by
  rw [← pow_add]; congr 1; omega

/-- Every candidate lies on or outside the two multiples of `2 ^ g` around a
value whose significand `m` has 53 bits. -/
theorem candidate_grid {g m y : Nat} (hg : g ≤ 971) (hm : 2 ^ 52 ≤ m) (hm2 : m < 2 ^ 53)
    (hy : IsCandidateNat y) : y ≤ m * 2 ^ g ∨ m * 2 ^ g + 2 ^ g ≤ y := by
  have key : ∀ c, c * 2 ^ g ≤ m * 2 ^ g ∨ m * 2 ^ g + 2 ^ g ≤ c * 2 ^ g := by
    intro c
    rcases Nat.lt_or_ge m c with h | h
    · right
      have := Nat.mul_le_mul_right (2 ^ g) (Nat.succ_le_of_lt h)
      rw [Nat.succ_mul] at this
      exact this
    · left
      exact Nat.mul_le_mul_right _ h
  rcases hy with ⟨m1, e1, hm1, he1, rfl⟩ | hy
  · rcases Nat.lt_or_ge e1 g with h | h
    · left
      have h1 : m1 * 2 ^ e1 ≤ 2 ^ 53 * 2 ^ e1 := Nat.mul_le_mul_right _ (le_of_lt hm1)
      have h2 : 2 ^ 53 * 2 ^ e1 = 2 ^ 52 * 2 ^ (e1 + 1) := by
        rw [← pow_add, ← pow_add]; congr 1; omega
      have h3 : 2 ^ (e1 + 1) ≤ 2 ^ g := Nat.pow_le_pow_right (by norm_num) h
      have h4 : 2 ^ 52 * 2 ^ (e1 + 1) ≤ m * 2 ^ g := Nat.mul_le_mul hm h3
      omega
    · rw [pow_split h, ← Nat.mul_assoc]
      exact key _
  · have h : g ≤ 1024 := by omega
    rw [hy, pow_split h]
    have h1 : 2 ^ 53 ≤ 2 ^ (1024 - g) := Nat.pow_le_pow_right (by norm_num) (by omega)
    right
    have := Nat.mul_le_mul_right (2 ^ g) (show m + 1 ≤ 2 ^ (1024 - g) by omega)
    rw [Nat.succ_mul] at this
    exact this

theorem candidate_mul {g q : Nat} (hg : g ≤ 971) (hq : q ≤ 2 ^ 53) :
    IsCandidateNat (q * 2 ^ g) := by
  rcases Nat.lt_or_ge q (2 ^ 53) with h | h
  · exact .inl ⟨q, g, h, hg, rfl⟩
  · have hq2 : q = 2 ^ 53 := by omega
    subst hq2
    rcases Nat.lt_or_ge g 971 with h1 | h1
    · refine .inl ⟨2 ^ 52, g + 1, by norm_num, by omega, ?_⟩
      rw [pow_succ]; ring
    · have : g = 971 := by omega
      subst this
      right
      rw [← pow_add]

theorem evenSignificand_mul {g q : Nat} (hq1 : 2 ^ 52 ≤ q) (hq : q ≤ 2 ^ 53)
    (he : q % 2 = 0) : EvenSignificand (q * 2 ^ g) := by
  right
  rcases Nat.lt_or_ge q (2 ^ 53) with h | h
  · refine ⟨q / 2, 0, g, by omega, by omega, ?_⟩
    have : 2 * (q / 2) = q := by omega
    rw [this]; simp
  · have hq2 : q = 2 ^ 53 := by omega
    subst hq2
    refine ⟨2 ^ 51, 0, g + 1, by norm_num, by norm_num, ?_⟩
    rw [pow_succ]; ring

theorem normalized_exponent {a b x y : Nat} (ha : a < 2 ^ 53) (hb : 2 ^ 52 ≤ b)
    (h : a * 2 ^ x = b * 2 ^ y) : y ≤ x := by
  by_contra hlt
  have hxy : x < y := by omega
  have h1 : 2 ^ y = 2 ^ (y - x) * 2 ^ x := pow_split (le_of_lt hxy)
  rw [h1, ← Nat.mul_assoc] at h
  have h2 : a = b * 2 ^ (y - x) := Nat.eq_of_mul_eq_mul_right (by positivity) h
  have h3 : 2 ^ 1 ≤ 2 ^ (y - x) := Nat.pow_le_pow_right (by norm_num) (by omega)
  have h4 : b * 2 ^ 1 ≤ b * 2 ^ (y - x) := Nat.mul_le_mul_left _ h3
  omega

theorem not_evenSignificand_mul {g o : Nat} (ho1 : 2 ^ 52 ≤ o) (ho : o < 2 ^ 53)
    (hodd : o % 2 = 1) : ¬ EvenSignificand (o * 2 ^ g) := by
  rintro (h | ⟨m, k, e, h1, h2, h⟩)
  · have : 0 < o * 2 ^ g := by positivity
    omega
  · rw [Nat.mul_assoc, ← pow_add] at h
    have e1 := normalized_exponent ho h1 h
    have e2 := normalized_exponent h2 ho1 h.symm
    have e3 : e = g + k := by omega
    rw [e3] at h
    have := Nat.eq_of_mul_eq_mul_right (by positivity) h
    omega

set_option exponentiation.threshold 1100 in
theorem isDoubleNat_lt {v : Nat} (h : IsDoubleNat v) : v < 2 ^ 1024 := by
  obtain ⟨m, e, hm, he, rfl⟩ := h
  have h1 : m * 2 ^ e < 2 ^ 53 * 2 ^ e := Nat.mul_lt_mul_of_pos_right hm (by positivity)
  have h0 : 2 ^ e ≤ 2 ^ 971 := Nat.pow_le_pow_right (by norm_num) he
  have h2 : 2 ^ 53 * 2 ^ e ≤ 2 ^ 53 * 2 ^ 971 := Nat.mul_le_mul_left (2 ^ 53) h0
  have h3 : 2 ^ 53 * 2 ^ 971 = 2 ^ 1024 := by norm_num
  rw [h3] at h2
  exact lt_of_lt_of_le h1 h2

theorem candidate_le {y : Nat} (h : IsCandidateNat y) : y ≤ 2 ^ 1024 := by
  rcases h with h | h
  · exact le_of_lt (isDoubleNat_lt h)
  · exact le_of_eq h

theorem evenSignificand_top : EvenSignificand (2 ^ 1024) := by
  have h : EvenSignificand (2 ^ 53 * 2 ^ 971) :=
    evenSignificand_mul (by norm_num) (le_refl _) (by norm_num)
  have h3 : 2 ^ 53 * 2 ^ 971 = 2 ^ 1024 := by norm_num
  rw [h3] at h
  exact h

/-- A natural number that is a double is its own Number value. -/
theorem isNumberOfNat_exact {v : Nat} (hv : IsDoubleNat v) (x : JSNumber) :
    IsNumberOfNat v x ↔ x = .finite v 0 := by
  have hlt := isDoubleNat_lt hv
  constructor
  · rintro ⟨w, hc, hnear, -, rfl⟩
    have h1 := hnear v (.inl hv)
    have hw : w = v := by unfold gap at h1; omega
    subst hw
    rw [if_neg (ne_of_lt hlt)]
  · rintro rfl
    refine ⟨v, .inl hv, ?_, ?_, ?_⟩
    · intro y _; unfold gap; omega
    · intro y _ hne hgap
      unfold gap at hgap; omega
    · rw [if_neg (ne_of_lt hlt)]

/-- From `2 ^ 1024` on, the Number value is `Infinity`. -/
theorem isNumberOfNat_overflow {v : Nat} (hv : 2 ^ 1024 ≤ v) (x : JSNumber) :
    IsNumberOfNat v x ↔ x = .infinity := by
  have htop : IsCandidateNat (2 ^ 1024) := .inr rfl
  constructor
  · rintro ⟨w, hc, hnear, -, rfl⟩
    have h1 := hnear _ htop
    have h2 := candidate_le hc
    have hw : w = 2 ^ 1024 := by
      generalize 2 ^ 1024 = B at *
      unfold gap at h1; omega
    rw [if_pos hw]
  · rintro rfl
    refine ⟨2 ^ 1024, htop, ?_, ?_, ?_⟩
    · intro y hy
      have h2 := candidate_le hy
      generalize 2 ^ 1024 = B at *
      unfold gap; omega
    · intro _ _ _ _
      exact evenSignificand_top
    · rw [if_pos rfl]

/-- Between two neighbouring multiples of `2 ^ g` whose factors have 53 bits, the
Number value is the nearer multiple, and in the middle the one with the even
factor. -/
theorem isNumberOfNat_grid {g m r q : Nat} (hg : g ≤ 971) (hm1 : 2 ^ 52 ≤ m) (hm2 : m < 2 ^ 53)
    (hr : r < 2 ^ g)
    (hq : q = if 2 * r < 2 ^ g then m else if 2 ^ g < 2 * r then m + 1 else m + m % 2)
    (x : JSNumber) :
    IsNumberOfNat (m * 2 ^ g + r) x ↔
      x = if q * 2 ^ g = 2 ^ 1024 then .infinity else .finite (q * 2 ^ g) 0 := by
  have hgrid : ∀ y, IsCandidateNat y → y ≤ m * 2 ^ g ∨ m * 2 ^ g + 2 ^ g ≤ y :=
    fun y hy => candidate_grid hg hm1 hm2 hy
  have hsucc : (m + 1) * 2 ^ g = m * 2 ^ g + 2 ^ g := Nat.succ_mul _ _
  have hcases : (q = m ∧ 2 * r < 2 ^ g) ∨ (q = m + 1 ∧ 2 ^ g < 2 * r) ∨
      (2 * r = 2 ^ g ∧ ((q = m ∧ m % 2 = 0) ∨ (q = m + 1 ∧ m % 2 = 1))) := by
    rw [hq]
    rcases Nat.lt_trichotomy (2 * r) (2 ^ g) with h | h | h
    · left; rw [if_pos h]; exact ⟨rfl, h⟩
    · right; right
      rw [if_neg (by omega), if_neg (by omega)]
      refine ⟨h, ?_⟩
      rcases Nat.mod_two_eq_zero_or_one m with h2 | h2
      · left; refine ⟨?_, h2⟩; rw [h2]; rfl
      · right; refine ⟨?_, h2⟩; rw [h2]
    · right; left; rw [if_neg (by omega), if_pos h]; exact ⟨rfl, h⟩
  have hqle : q ≤ 2 ^ 53 := by
    rcases hcases with ⟨h, -⟩ | ⟨h, -⟩ | ⟨-, ⟨h, -⟩ | ⟨h, -⟩⟩ <;> omega
  have candq : IsCandidateNat (q * 2 ^ g) := candidate_mul hg hqle
  generalize hG : 2 ^ g = G at *
  generalize hP : m * G = P at *
  constructor
  · rintro ⟨w, hc, hnear, htie, rfl⟩
    suffices h : w = q * G by rw [h]
    have h1 := hnear _ candq
    have hw := hgrid w hc
    unfold gap at h1
    rcases hcases with ⟨h, h2⟩ | ⟨h, h2⟩ | ⟨h2, h3⟩
    · subst h; rw [hP] at h1 ⊢; omega
    · subst h; rw [hsucc] at h1 ⊢; omega
    · by_contra hne
      have hev := htie _ candq (Ne.symm hne)
      rcases h3 with ⟨h, h4⟩ | ⟨h, h4⟩
      · subst h
        rw [hP] at h1 hne hev
        have hw2 : w = P + G := by omega
        have hev2 := hev (by unfold gap; omega)
        rw [hw2, ← hsucc, ← hG] at hev2
        exact not_evenSignificand_mul (by omega) (by omega) (by omega) hev2
      · subst h
        rw [hsucc] at h1 hne hev
        have hw2 : w = P := by omega
        have hev2 := hev (by unfold gap; omega)
        rw [hw2, ← hP, ← hG] at hev2
        exact not_evenSignificand_mul hm1 hm2 h4 hev2
  · rintro rfl
    refine ⟨q * G, candq, ?_, ?_, rfl⟩
    · intro y hy
      have hy2 := hgrid y hy
      unfold gap
      rcases hcases with ⟨h, h2⟩ | ⟨h, h2⟩ | ⟨h2, ⟨h, -⟩ | ⟨h, -⟩⟩
      · subst h; rw [hP]; omega
      · subst h; rw [hsucc]; omega
      · subst h; rw [hP]; omega
      · subst h; rw [hsucc]; omega
    · intro y hy hne hgap
      have hy2 := hgrid y hy
      unfold gap at hgap
      rcases hcases with ⟨h, h2⟩ | ⟨h, h2⟩ | ⟨h2, ⟨h, h4⟩ | ⟨h, h4⟩⟩
      · subst h; rw [hP] at hgap hne; omega
      · subst h; rw [hsucc] at hgap hne; omega
      · subst h; rw [← hG]
        exact evenSignificand_mul hm1 (le_of_lt hm2) h4
      · subst h; rw [← hG]
        exact evenSignificand_mul (by omega) (by omega) (by omega)

theorem roundHalfEven_ge (a b : Nat) : a / b ≤ roundHalfEven a b := by
  unfold roundHalfEven
  split
  · exact le_refl _
  · split <;> omega

set_option exponentiation.threshold 1100 in
theorem toDouble_isNumberOfNat (v : Nat) (x : JSNumber) :
    IsNumberOfNat v x ↔ x = toDouble v 1 := by
  by_cases h0 : v = 0
  · subst h0
    have h : toDouble 0 1 = .finite 0 0 := by simp [toDouble]
    rw [h]
    exact isNumberOfNat_exact ⟨0, 0, by norm_num, by norm_num, by simp⟩ x
  · obtain ⟨h1, hlo, hhi⟩ := bitLength_spec v v h0 (le_refl v)
    rw [toDouble_nat v h0]
    generalize bitLength v v = a at *
    by_cases h53 : 53 ≤ a
    · rw [if_pos h53]
      obtain ⟨g, rfl⟩ : ∃ g, a = g + 53 := ⟨a - 53, by omega⟩
      have hlo2 : 2 ^ 52 * 2 ^ g ≤ v := by
        have : 2 ^ (g + 53 - 1) = 2 ^ 52 * 2 ^ g := by
          rw [← pow_add]; congr 1; omega
        rwa [this] at hlo
      have hhi2 : v < 2 ^ 53 * 2 ^ g := by
        have : 2 ^ (g + 53) = 2 ^ 53 * 2 ^ g := by
          rw [← pow_add]; congr 1; omega
        rwa [this] at hhi
      have hG : 0 < 2 ^ g := by positivity
      have hm1 : 2 ^ 52 ≤ v / 2 ^ g := (Nat.le_div_iff_mul_le hG).mpr hlo2
      have hm2 : v / 2 ^ g < 2 ^ 53 := (Nat.div_lt_iff_lt_mul hG).mpr hhi2
      have hr : v % 2 ^ g < 2 ^ g := Nat.mod_lt _ hG
      have hv : v / 2 ^ g * 2 ^ g + v % 2 ^ g = v := Nat.div_add_mod' v (2 ^ g)
      simp only [Nat.add_sub_cancel]
      by_cases hg : g ≤ 971
      · have key := isNumberOfNat_grid hg hm1 hm2 hr (roundHalfEven_grid _ _ _ hr) x
        rw [hv] at key
        rw [key]
        have hle : roundHalfEven v (2 ^ g) * 2 ^ g ≤ 2 ^ 1024 :=
          candidate_le (candidate_mul hg (by
            have := roundHalfEven_grid (v / 2 ^ g) (v % 2 ^ g) (2 ^ g) hr
            rw [hv] at this
            rw [this]
            split
            · omega
            · split <;> omega))
        by_cases hw : roundHalfEven v (2 ^ g) * 2 ^ g = 2 ^ 1024
        · rw [if_pos hw, if_pos (le_of_eq hw.symm)]
        · rw [if_neg hw, if_neg (not_le.mpr (lt_of_le_of_ne hle hw))]
      · have h2 : 2 ^ 1024 ≤ 2 ^ 52 * 2 ^ g := by
          have : 2 ^ 1024 = 2 ^ 52 * 2 ^ 972 := by norm_num
          rw [this]
          exact Nat.mul_le_mul_left _ (Nat.pow_le_pow_right (by norm_num) (by omega))
        have h3 : 2 ^ 52 * 2 ^ g ≤ roundHalfEven v (2 ^ g) * 2 ^ g :=
          Nat.mul_le_mul_right _ (le_trans hm1 (roundHalfEven_ge _ _))
        rw [if_pos (le_trans h2 h3)]
        exact isNumberOfNat_overflow (le_trans h2 hlo2) x
    · rw [if_neg h53]
      have h2 : 2 ^ a ≤ 2 ^ 52 := Nat.pow_le_pow_right (by norm_num) (by omega)
      exact isNumberOfNat_exact ⟨v, 0, by omega, by norm_num, by simp⟩ x

theorem isDoubleNat_of_le {n : Nat} (h : n ≤ 2 ^ 53) : IsDoubleNat n := by
  rcases Nat.lt_or_ge n (2 ^ 53) with h1 | h1
  · exact ⟨n, 0, h1, by norm_num, by simp⟩
  · exact ⟨2 ^ 52, 1, by norm_num, by norm_num, by omega⟩

theorem isDouble_large {y : ℚ} (hy : IsDouble y) (h : (2 : ℚ) ^ 53 ≤ y) :
    ∃ n : Nat, y = n ∧ IsDoubleNat n := by
  obtain ⟨m, e, hm, -, he, rfl⟩ := hy
  have hm0 : 0 < m := by
    by_contra hneg
    have h1 : (m : ℚ) ≤ 0 := by exact_mod_cast not_lt.mp hneg
    have h2 : (0 : ℚ) < (2 : ℚ) ^ e := by positivity
    have h3 : (m : ℚ) * (2 : ℚ) ^ e ≤ 0 := mul_nonpos_of_nonpos_of_nonneg h1 (le_of_lt h2)
    have h4 : (0 : ℚ) < 2 ^ 53 := by positivity
    linarith
  have hm2 : m < 2 ^ 53 := lt_of_le_of_lt (le_abs_self m) hm
  have he1 : 1 ≤ e := by
    by_contra hneg
    have he0 : e ≤ 0 := by omega
    have h1 : (2 : ℚ) ^ e ≤ 1 := zpow_le_one_of_nonpos₀ (by norm_num) he0
    have h2 : (m : ℚ) * (2 : ℚ) ^ e ≤ m := by
      have : (0 : ℚ) ≤ m := by exact_mod_cast le_of_lt hm0
      nlinarith
    have h3 : (m : ℚ) < 2 ^ 53 := by exact_mod_cast hm2
    linarith
  obtain ⟨k, rfl⟩ : ∃ k : Nat, m = k := ⟨m.toNat, (Int.toNat_of_nonneg (le_of_lt hm0)).symm⟩
  obtain ⟨j, rfl⟩ : ∃ j : Nat, e = j := ⟨e.toNat, (Int.toNat_of_nonneg (by omega)).symm⟩
  refine ⟨k * 2 ^ j, by push_cast; rw [zpow_natCast], k, j, by exact_mod_cast hm2, by omega, rfl⟩

/-- No finite double is a better value for a natural number than the natural
numbers among the doubles: a finite double is one of them, or one of them is
strictly nearer. -/
theorem double_not_nearer (v : Nat) {y : ℚ} (hy : IsDouble y) :
    (∃ n : Nat, y = n ∧ IsDoubleNat n) ∨
      ∃ w : Nat, IsDoubleNat w ∧ |(v : ℚ) - w| < |(v : ℚ) - y| := by
  rcases le_or_lt ((2 : ℚ) ^ 53) y with h | h
  · exact .inl (isDouble_large hy h)
  rcases lt_or_le y 0 with h0 | h0
  · right
    refine ⟨0, isDoubleNat_of_le (by norm_num), ?_⟩
    have hv : (0 : ℚ) ≤ v := Nat.cast_nonneg v
    rw [abs_of_nonneg (by simp), abs_of_pos (by linarith)]
    simp only [Nat.cast_zero, sub_zero]
    linarith
  have hf1 : (⌊y⌋₊ : ℚ) ≤ y := Nat.floor_le h0
  have hf2 : y < ⌊y⌋₊ + 1 := Nat.lt_floor_add_one y
  have hf3 : ⌊y⌋₊ < 2 ^ 53 := by
    have : ((⌊y⌋₊ : ℕ) : ℚ) < ((2 ^ 53 : ℕ) : ℚ) := by
      push_cast; linarith
    exact_mod_cast this
  rcases eq_or_lt_of_le hf1 with he | hlt
  · exact .inl ⟨⌊y⌋₊, he.symm, isDoubleNat_of_le (le_of_lt hf3)⟩
  right
  rcases Nat.lt_or_ge ⌊y⌋₊ v with hv | hv
  · refine ⟨⌊y⌋₊ + 1, isDoubleNat_of_le (by omega), ?_⟩
    have hv2 : ((⌊y⌋₊ : ℕ) : ℚ) + 1 ≤ v := by exact_mod_cast hv
    rw [abs_of_nonneg (by push_cast; linarith), abs_of_pos (by linarith)]
    push_cast
    linarith
  · refine ⟨⌊y⌋₊, isDoubleNat_of_le (le_of_lt hf3), ?_⟩
    have hv2 : (v : ℚ) ≤ ⌊y⌋₊ := by exact_mod_cast hv
    rw [abs_of_nonpos (by linarith), abs_of_neg (by linarith)]
    linarith

theorem abs_sub_eq_gap (a b : Nat) : |(a : ℚ) - b| = (gap a b : ℕ) := by
  unfold gap
  rcases le_total a b with h | h
  · have h1 : (a : ℚ) ≤ b := by exact_mod_cast h
    rw [abs_of_nonpos (by linarith), Nat.sub_eq_zero_of_le h, Nat.zero_add, Nat.cast_sub h]
    ring
  · have h1 : (b : ℚ) ≤ a := by exact_mod_cast h
    rw [abs_of_nonneg (by linarith), Nat.sub_eq_zero_of_le h, Nat.add_zero, Nat.cast_sub h]

theorem isDouble_of_nat {n : Nat} (h : IsDoubleNat n) : IsDouble n := by
  obtain ⟨m, e, hm, he, rfl⟩ := h
  refine ⟨m, e, ?_, by omega, by omega, ?_⟩
  · rw [abs_of_nonneg (by positivity)]
    exact_mod_cast hm
  · push_cast
    rw [zpow_natCast]

theorem cast_top : ((2 ^ 1024 : ℕ) : ℚ) = 2 ^ 1024 := by
  norm_num

theorem isCandidate_of_nat {n : Nat} (h : IsCandidateNat n) : IsCandidate n := by
  rcases h with h | h
  · exact .inl (isDouble_of_nat h)
  · right; rw [h]; exact cast_top

theorem isCandidateNat_of_q {n : Nat} (h : IsCandidate n) : IsCandidateNat n := by
  rcases h with h | h
  · left
    rcases double_not_nearer n h with ⟨k, hk, hd⟩ | ⟨w, -, hw⟩
    · have : n = k := by exact_mod_cast hk
      rw [this]; exact hd
    · rw [sub_self, abs_zero] at hw
      exact absurd hw (not_lt.mpr (abs_nonneg _))
  · right
    rw [← cast_top] at h
    exact Nat.cast_injective h

/-- A candidate is a natural number, or a natural candidate is strictly nearer. -/
theorem candidate_not_nearer (v : Nat) {y : ℚ} (hy : IsCandidate y) :
    (∃ n : Nat, y = n ∧ IsCandidateNat n) ∨
      ∃ w : Nat, IsCandidateNat w ∧ |(v : ℚ) - w| < |(v : ℚ) - y| := by
  rcases hy with h | h
  · rcases double_not_nearer v h with ⟨k, hk, hd⟩ | ⟨w, hd, hw⟩
    · exact .inl ⟨k, hk, .inl hd⟩
    · exact .inr ⟨w, .inl hd, hw⟩
  · exact .inl ⟨2 ^ 1024, by rw [h, cast_top], .inr rfl⟩

/-- The Number value is the choice among the natural candidates. -/
theorem isNumberOf_iff_nat (v : Nat) (x : JSNumber) : IsNumberOf v x ↔ IsNumberOfNat v x := by
  constructor
  · rintro ⟨w, hc, hnear, htie, hx⟩
    refine ⟨w, isCandidateNat_of_q hc, ?_, ?_, hx⟩
    · intro y hy
      have := hnear y (isCandidate_of_nat hy)
      rw [abs_sub_eq_gap, abs_sub_eq_gap] at this
      exact_mod_cast this
    · intro y hy hne hgap
      refine htie y (isCandidate_of_nat hy) (by exact_mod_cast hne) ?_
      rw [abs_sub_eq_gap, abs_sub_eq_gap, hgap]
  · rintro ⟨w, hc, hnear, htie, hx⟩
    have hnearQ : ∀ y, IsCandidate y → |(v : ℚ) - w| ≤ |(v : ℚ) - y| := by
      intro y hy
      rcases candidate_not_nearer v hy with ⟨n, rfl, hn⟩ | ⟨w2, hw2, hlt⟩
      · rw [abs_sub_eq_gap, abs_sub_eq_gap]
        exact_mod_cast hnear n hn
      · have := hnear w2 hw2
        have h2 : |(v : ℚ) - w| ≤ |(v : ℚ) - w2| := by
          rw [abs_sub_eq_gap, abs_sub_eq_gap]
          exact_mod_cast this
        linarith
    refine ⟨w, isCandidate_of_nat hc, hnearQ, ?_, hx⟩
    intro y hy hne hgap
    rcases candidate_not_nearer v hy with ⟨n, rfl, hn⟩ | ⟨w2, hw2, hlt⟩
    · refine htie n hn (by exact_mod_cast hne) ?_
      rw [abs_sub_eq_gap, abs_sub_eq_gap] at hgap
      exact_mod_cast hgap
    · have h2 := hnearQ w2 (isCandidate_of_nat hw2)
      linarith

/-- Function `toDouble` on a natural number gives its Number value, and nothing
else is its Number value. -/
theorem toDouble_isNumberOf (v : Nat) (x : JSNumber) :
    IsNumberOf v x ↔ x = toDouble v 1 := by
  rw [isNumberOf_iff_nat]
  exact toDouble_isNumberOfNat v x

theorem digitsValue_eq_decimalValue {d : Token} (h : ∀ c ∈ d, isDigit c = true) :
    digitsValue d = decimalValue d := by
  have hf : d.filter isDigit = d := List.filter_eq_self.mpr h
  unfold digitsValue decimalValue
  rw [hf]
  clear hf h
  induction d using List.reverseRecOn with
  | nil => simp
  | append_singleton xs x ih =>
    simp [List.foldl_append, Nat.ofDigits_cons, ih]
    omega

/-- Function `parseFloat` on a non-negative integer literal gives the Number
value of the natural number the literal spells, and nothing else is its Number
value. -/
theorem parseFloat_isNumberOf {d : Token} (h : IsDigits d) (x : JSNumber) :
    IsNumberOf (decimalValue d) x ↔ x = parseFloat (some d) := by
  have hp : parseFloat (some d) = toDouble (decimalValue d) 1 := by
    simp [parseFloat, isDigits_dropWhile h.2, digitsValue_eq_decimalValue h.2]
  rw [hp]
  exact toDouble_isNumberOf _ x

set_option exponentiation.threshold 1400 in
set_option maxRecDepth 100000 in
/-- Values of `parseFloat`: small integers are exact, `2 ^ 53 + 1` is rounded
down to `2 ^ 53` and `2 ^ 53 + 3` up to `2 ^ 53 + 4` (ties to even), the largest
double `2 ^ 1024 - 2 ^ 971` is exact and is the value of every integer below
`2 ^ 1024 - 2 ^ 970`, which is `Infinity` like 400 nines, fractions are rounded
to 53 significant bits, the least positive double is `2 ^ -1074`, the value of
`5e-324` and `3e-324` written without exponent, where `2e-324` is zero, and
`undefined` is `NaN`. -/
theorem parseFloat_values :
    parseFloat (some (units "0")) = .finite 0 0 ∧
    parseFloat (some (units "007")) = .finite 7 0 ∧
    parseFloat (some (units "9007199254740992")) = .finite 9007199254740992 0 ∧
    parseFloat (some (units "9007199254740993")) = .finite 9007199254740992 0 ∧
    parseFloat (some (units "9007199254740994")) = .finite 9007199254740994 0 ∧
    parseFloat (some (units "9007199254740995")) = .finite 9007199254740996 0 ∧
    parseFloat (some (units "179769313486231570814527423731704356798070567525844996598917476803157260780028538760589558632766878171540458953514382464234321326889464182768467546703537516986049910576551282076245490090389328944075868508455133942304583236903222948165808559332123348274797826204144723168738177180919299881250404026184124858368")) =
      .finite (2 ^ 1024 - 2 ^ 971) 0 ∧
    parseFloat (some (units "179769313486231580793728971405303415079934132710037826936173778980444968292764750946649017977587207096330286416692887910946555547851940402630657488671505820681908902000708383676273854845817711531764475730270069855571366959622842914819860834936475292719074168444365510704342711559699508093042880177904174497791")) =
      .finite (2 ^ 1024 - 2 ^ 971) 0 ∧
    parseFloat (some (units "179769313486231580793728971405303415079934132710037826936173778980444968292764750946649017977587207096330286416692887910946555547851940402630657488671505820681908902000708383676273854845817711531764475730270069855571366959622842914819860834936475292719074168444365510704342711559699508093042880177904174497792")) =
      .infinity ∧
    parseFloat (some (List.replicate 400 57)) = .infinity ∧
    parseFloat (some (units "1.5")) = .finite 3 1 ∧
    parseFloat (some (units "0.75")) = .finite 3 2 ∧
    parseFloat (some (units "0.1")) = .finite 3602879701896397 55 ∧
    parseFloat (some (units "0." ++ List.replicate 323 48 ++ units "5")) = .finite 1 1074 ∧
    parseFloat (some (units "0." ++ List.replicate 323 48 ++ units "3")) = .finite 1 1074 ∧
    parseFloat (some (units "0." ++ List.replicate 323 48 ++ units "2")) = .finite 0 0 ∧
    parseFloat none = .nan := by
  refine ⟨?_, ?_, ?_, ?_, ?_, ?_, ?_, ?_, ?_, ?_, ?_, ?_, ?_, ?_, ?_, ?_, ?_⟩ <;> decide

theorem litG_digits {d : Token} (h : IsDigits d) : LitG [d] (numberOf d) := by
  exact LitG.number d (isDigits_isNumber h)

theorem scan_litsText (ls : List Token) (hv : ∀ d ∈ ls, IsDigits d) (rest : List Nat)
    (hr : WordEnd rest) : scan 0 (litsText ls ++ rest) = litsTokens ls ++ scan 0 rest := by
  induction ls with
  | nil => simp [litsText, litsTokens]
  | cons d ds ih =>
    have hw := isDigits_isWord (hv d (List.mem_cons_self d ds))
    have hcomma : units ", " = [44, 32] := by decide
    cases ds with
    | nil =>
      simp only [litsText, litsTokens]
      rw [scan_word hw hr]
      rfl
    | cons d2 ds2 =>
      have ih2 := ih (fun x hx => hv x (List.mem_cons_of_mem d hx))
      simp only [litsText, litsTokens, List.append_assoc, hcomma, List.cons_append,
        List.nil_append]
      rw [scan_word hw (wordEnd_cons (by decide) _), scan_punct (by decide),
        scan_space (by decide), ih2]
      rfl

theorem litsG_litsTokens (ls : List Token) (hne : ls ≠ []) (hv : ∀ d ∈ ls, IsDigits d) :
    LitsG (litsTokens ls) (ls.map numberOf) := by
  induction ls with
  | nil => exact absurd rfl hne
  | cons d ds ih =>
    have hd := litG_digits (hv d (List.mem_cons_self d ds))
    cases ds with
    | nil => exact LitsG.one [d] _ hd
    | cons d2 ds2 =>
      have ih2 := ih (by simp) (fun x hx => hv x (List.mem_cons_of_mem d hx))
      exact LitsG.cons [d] _ _ _ hd ih2

theorem scan_exampleText (n : Token) (ls : List Token) (r : Token)
    (hn : isIdentifier n = true) (hv : ∀ d ∈ ls, IsDigits d) (hr : IsDigits r)
    (rest : List Nat) (hrest : WordEnd rest) :
    scan 0 (exampleText n ls r ++ rest) = exampleTokens n ls r ++ scan 0 rest := by
  have hex : units "example " = units "example" ++ [32] := by decide
  have hw : IsWord (units "example") := ⟨by decide, by decide⟩
  have hopen : units "(" = [40] := by decide
  have hclose : units ") = " = [41, 32, 61, 32] := by decide
  simp only [exampleText, exampleTokens, hex, hopen, hclose, List.append_assoc,
    List.cons_append, List.nil_append]
  rw [scan_word hw (wordEnd_cons (by decide) _), scan_space (by decide),
    scan_word (isIdentifier_isWord hn) (wordEnd_cons (by decide) _), scan_punct (by decide),
    scan_litsText ls hv _ (wordEnd_cons (by decide) _), scan_punct (by decide),
    scan_space (by decide), scan_equals, scan_space (by decide),
    scan_word (isDigits_isWord hr) hrest]
  rfl

theorem stmtG_exampleTokens (n : Token) (ls : List Token) (r : Token)
    (hn : isIdentifier n = true) (hne : ls ≠ []) (hv : ∀ d ∈ ls, IsDigits d)
    (hr : IsDigits r) : StmtG (exampleTokens n ls r) (exampleOf n ls r) := by
  have := StmtG.ex n (litsTokens ls) (ls.map numberOf) [r] (numberOf r) hn
    (litsG_litsTokens ls hne hv) (litG_digits hr)
  simpa [exampleTokens, exampleOf] using this

theorem scan_spaces (sep : List Nat) (hsep : ∀ c ∈ sep, isSpace c = true) (rest : List Nat) :
    scan 0 (sep ++ rest) = scan 0 rest := by
  induction sep with
  | nil => rfl
  | cons c cs ih =>
    rw [List.cons_append, scan_space (hsep c (List.mem_cons_self c cs))]
    exact ih (fun x hx => hsep x (List.mem_cons_of_mem c hx))

theorem wordEnd_spaces {sep : List Nat} (hne : sep ≠ []) (hsep : ∀ c ∈ sep, isSpace c = true)
    (rest : List Nat) : WordEnd (sep ++ rest) := by
  cases sep with
  | nil => exact absurd rfl hne
  | cons c cs =>
    have := (isSpace_iff c).mp (hsep c (List.mem_cons_self c cs))
    apply wordEnd_cons
    rw [Bool.eq_false_iff, Ne, isWordChar_iff]; omega

theorem numberValues_spec (ls : List Token) (hd : ∀ d ∈ ls, IsDigits d) :
    List.Forall₂ (fun d x => ∀ y, IsNumberOf (decimalValue d) y ↔ y = x) ls
      (ls.map (fun d => parseFloat (some d))) := by
  induction ls with
  | nil => exact .nil
  | cons d ds ih =>
    exact .cons (fun y => parseFloat_isNumberOf (hd d (List.mem_cons_self d ds)) y)
      (ih (fun c hc => hd c (List.mem_cons_of_mem d hc)))

/-- C4: for every program text made of a valid signature named n, white space,
and `example n(l_1, ..., l_k) = r` with k ≥ 1 and all of l_1..l_k, r non-negative
integer literals, parsing and grouping return the single grouped signature
whose examples are exactly the one example statement of name n, with the
literals l_1..l_k as numbers in source order and the result r as a number.  The
number of a literal is the Number value of the natural number it spells: the
nearest double, of two nearest ones the one with the even significand,
`Infinity` where that is `2 ^ 1024`; every literal has exactly one. -/
theorem parse_and_group_example (n : Token) (ps : List (Token × Token)) (pr : Token)
    (ls : List Token) (r : Token) (sep : List Nat)
    (hn : isIdentifier n = true) (hne : ps ≠ []) (hv : ValidParams ps)
    (hpr : pr ∈ primitiveTypes) (hsep : sep ≠ [] ∧ ∀ c ∈ sep, isSpace c = true)
    (hls : ls ≠ []) (hd : ∀ d ∈ ls, IsDigits d) (hr : IsDigits r) :
    ∃ (vs : List JSNumber) (v : JSNumber),
      List.Forall₂ (fun d x => ∀ y, IsNumberOf (decimalValue d) y ↔ y = x) ls vs ∧
      (∀ y, IsNumberOf (decimalValue r) y ↔ y = v) ∧
      parseSource (signatureText n ps pr ++ sep ++ exampleText n ls r) =
        .program [signatureOf n ps pr, .example (some n) (vs.map .num) (.num v)] ∧
      groupSignaturesWithExamples
          [signatureOf n ps pr, .example (some n) (vs.map .num) (.num v)] =
        [{ signature := signatureOf n ps pr,
           examples := [.example (some n) (vs.map .num) (.num v)] }] := by
  refine ⟨ls.map (fun d => parseFloat (some d)), parseFloat (some r), numberValues_spec ls hd,
    fun y => parseFloat_isNumberOf hr y, ?_, ?_⟩
  · have hmap : (ls.map (fun d => parseFloat (some d))).map Literal.num = ls.map numberOf := by
      rw [List.map_map]; rfl
    rw [hmap]
    have h1 := scan_signatureText n ps pr hn hv hpr (sep ++ exampleText n ls r)
      (wordEnd_spaces hsep.1 hsep.2 _)
    have h2 := scan_spaces sep hsep.2 (exampleText n ls r)
    have h3 := scan_exampleText n ls r hn hd hr [] wordEnd_nil
    simp only [List.append_nil] at h3
    have hscan : scan 0 [] = [] := rfl
    rw [hscan, List.append_nil] at h3
    unfold parseSource tokenize
    rw [List.append_assoc, h1, h2, h3]
    exact (parse_program_iff _ _).mpr
      (progG_append (progG_single (stmtG_signatureTokens n ps pr hn hne hv hpr))
        (progG_single (stmtG_exampleTokens n ls r hn hls hd hr)))
  · have e1 : (units "signature" == units "example") = false := by decide
    have e2 : (units "example" == units "signature") = false := by decide
    simp [groupSignaturesWithExamples, signatureOf, Statement.type, Statement.name, e1, e2]

set_option exponentiation.threshold 1100 in
set_option maxRecDepth 8000 in
/-- C4, two instances: the signature of `add` followed by `example add(2, 3) = 5`,
and a literal that is not a double, `2 ^ 53 + 1`, whose number is `2 ^ 53`. -/
theorem parse_and_group_example_witness :
    (parseSource (units "signature add(a: number, b: number) -> number\nexample add(2, 3) = 5") =
        .program [signatureOf (units "add")
            [(units "a", units "number"), (units "b", units "number")] (units "number"),
          .example (some (units "add")) [.num (.finite 2 0), .num (.finite 3 0)]
            (.num (.finite 5 0))] ∧
      groupSignaturesWithExamples
          [signatureOf (units "add")
            [(units "a", units "number"), (units "b", units "number")] (units "number"),
          .example (some (units "add")) [.num (.finite 2 0), .num (.finite 3 0)]
            (.num (.finite 5 0))] =
        [{ signature := signatureOf (units "add")
            [(units "a", units "number"), (units "b", units "number")] (units "number"),
           examples := [.example (some (units "add")) [.num (.finite 2 0), .num (.finite 3 0)]
            (.num (.finite 5 0))] }]) ∧
    parseSource (units "signature id(x: number) -> number example id(9007199254740993) = 4") =
        .program [signatureOf (units "id") [(units "x", units "number")] (units "number"),
          .example (some (units "id")) [.num (.finite 9007199254740992 0)]
            (.num (.finite 4 0))] := by
  constructor
  · obtain ⟨vs, v, hvs, hv, hp, hg⟩ := parse_and_group_example (units "add")
      [(units "a", units "number"), (units "b", units "number")] (units "number")
      [units "2", units "3"] (units "5") (units "\n")
      (by decide) (by decide) (by decide) (by decide) (by decide) (by decide) (by decide)
      (by decide)
    rcases hvs with _ | ⟨h2, _ | ⟨h3, _ | _⟩⟩
    have e2 := (h2 _).mp ((parseFloat_isNumberOf (by decide) _).mpr rfl)
    have e3 := (h3 _).mp ((parseFloat_isNumberOf (by decide) _).mpr rfl)
    have e5 := (hv _).mp ((parseFloat_isNumberOf (by decide) _).mpr rfl)
    rw [← e2, ← e3, ← e5] at hp hg
    exact ⟨hp, hg⟩
  · obtain ⟨vs, v, hvs, hv, hp, -⟩ := parse_and_group_example (units "id")
      [(units "x", units "number")] (units "number")
      [units "9007199254740993"] (units "4") (units " ")
      (by decide) (by decide) (by decide) (by decide) (by decide) (by decide) (by decide)
      (by decide)
    rcases hvs with _ | ⟨h1, _ | _⟩
    have e1 := (h1 _).mp ((parseFloat_isNumberOf (by decide) _).mpr rfl)
    have e4 := (hv _).mp ((parseFloat_isNumberOf (by decide) _).mpr rfl)
    rw [← e1, ← e4] at hp
    exact hp

/-! ## Expression statements -/

theorem mixG_ne_nil {s : List Token} {m : List MixItem} (h : MixG s m) : m ≠ [] := by
  cases h <;> simp

theorem mixG_comma {s1 : List Token} {i : MixItem} {s2 : List Token} {m : List MixItem}
    (h1 : MixG s1 [i]) (h2 : MixG s2 m) : MixG (s1 ++ units "," :: s2) (i :: m) := by
  cases h1 with
  | litLast s l hl hni => exact MixG.litCons s1 l s2 m hl hni h2
  | litCons s l s2' m' hl hni hm => exact absurd rfl (mixG_ne_nil hm)
  | callLast n s m' hn hm =>
    have := MixG.callCons n s m' s2 m hn hm h2
    simpa using this
  | callCons n s m' s2' m2 hn hm hm2 => exact absurd rfl (mixG_ne_nil hm2)

theorem mixText_tokens {t : List Nat} {m : List MixItem} (h : MixText t m) :
    ∃ toks, MixG toks m ∧
      ∀ rest, WordEnd rest → scan 0 (t ++ rest) = toks ++ scan 0 rest := by
  induction h with
  | number d hd =>
    refine ⟨[d], MixG.litLast [d] _ (litG_digits hd) ?_, ?_⟩
    · intro t r hs
      cases hs
      exact isDigits_not_identifier hd
    · intro rest hr
      rw [scan_word (isDigits_isWord hd) hr]
      rfl
  | call f t m hf _ ih =>
    obtain ⟨toks, hg, hscan⟩ := ih
    refine ⟨f :: units "(" :: toks ++ [units ")"], MixG.callLast f toks m hf hg, ?_⟩
    intro rest _
    have hopen : units "(" = [40] := by decide
    have hclose : units ")" = [41] := by decide
    simp only [hopen, hclose, List.append_assoc, List.cons_append, List.nil_append]
    rw [scan_word (isIdentifier_isWord hf) (wordEnd_cons (by decide) _), scan_punct (by decide),
      hscan _ (wordEnd_cons (by decide) _), scan_punct (by decide)]
  | cons t1 i t2 m _ _ ih1 ih2 =>
    obtain ⟨toks1, hg1, hscan1⟩ := ih1
    obtain ⟨toks2, hg2, hscan2⟩ := ih2
    refine ⟨toks1 ++ units "," :: toks2, mixG_comma hg1 hg2, ?_⟩
    intro rest hr
    have hcomma : units ", " = [44, 32] := by decide
    have hc : units "," = [44] := by decide
    simp only [hcomma, hc, List.append_assoc, List.cons_append, List.nil_append]
    rw [hscan1 _ (wordEnd_cons (by decide) _), scan_punct (by decide), scan_space (by decide),
      hscan2 _ hr]

/-- An expression statement `f(m_1, ..., m_k)` with k ≥ 1, f an identifier
other than `signature` and `example`, and every m_i a nested expression of the
same form or a non-negative integer literal parses to the one statement
`{type: 'expression', name: f, mix}` whose mix holds the k items in source
order, nested expressions parsed recursively and every literal as the value
`parseFloat` gives it. -/
theorem parse_expression_text (f : Token) (t : List Nat) (m : List MixItem)
    (hf : isIdentifier f = true) (hs : f ≠ units "signature") (he : f ≠ units "example")
    (ht : MixText t m) :
    parseSource (f ++ units "(" ++ t ++ units ")") = .program [.expression (some f) m] := by
  obtain ⟨toks, hg, hscan⟩ := mixText_tokens ht
  have hopen : units "(" = [40] := by decide
  have hclose : units ")" = [41] := by decide
  have htok : tokenize (f ++ units "(" ++ t ++ units ")") =
      f :: units "(" :: toks ++ [units ")"] := by
    unfold tokenize
    simp only [hopen, hclose, List.append_assoc, List.cons_append, List.nil_append]
    rw [scan_word (isIdentifier_isWord hf) (wordEnd_cons (by decide) _), scan_punct (by decide),
      hscan _ (wordEnd_cons (by decide) _), scan_punct (by decide)]
    simp [scan]
  unfold parseSource
  rw [htok]
  exact (parse_program_iff _ _).mpr (progG_single (StmtG.expr f toks m hf hs he hg))

/-- The expression statement `foo(bar(1), 2)`. -/
theorem parse_expression_text_instance :
    parseSource (units "foo(bar(1), 2)") =
      .program [.expression (some (units "foo"))
        [.expression (some (units "bar")) [.literal (.num (.finite 1 0))],
         .literal (.num (.finite 2 0))]] :=
  parse_expression_text (units "foo") (units "bar(1), 2") _ (by decide) (by decide) (by decide)
    (MixText.cons (units "bar(1)") _ (units "2") _
      (MixText.call (units "bar") (units "1") _ (by decide) (MixText.number (units "1") (by decide)))
      (MixText.number (units "2") (by decide)))

/-! ## Errors -/

theorem parseStatement_unexpected (fuel : Nat) {ts : List Token} {cur : Nat} {tok : Token}
    (h0 : ts[cur]? = some tok) (hs : tok ≠ units "signature") (he : tok ≠ units "example")
    (hi : isIdentifier tok = false) :
    parseStatement fuel ts cur = .throw (.unexpectedToken (some tok)) := by
  have h00 := matchAny_false [units "signature"] ts cur (by simp [h0]; exact hs)
  have h01 := matchAny_false [units "example"] ts cur (by simp [h0]; exact he)
  simp [parseStatement, h00, h01, peekIdentifier_run, h0, toStr, hi]

theorem parse_of_prefix {pre : List Token} {p : List Statement} (h : parse pre = .program p)
    (rest : List Token) :
    ∃ k, parseLoop (pre.length + rest.length + 2) (pre ++ rest) 0 =
      Result.prepend p (parseLoop (k + 2) (pre ++ rest) pre.length) := by
  have hg := (parse_program_iff pre p).mp h
  have hlen := progG_length_le hg
  have h1 := parseLoop_prefix hg (pre.length + rest.length + 2) (pre ++ rest) 0 rest
    (by simp) (by omega)
  refine ⟨pre.length + rest.length - p.length, ?_⟩
  rw [h1]
  congr 2
  · omega
  · omega

/-- C7: when, after zero or more complete valid statements, the token at the
statement start is neither `signature` nor `example` nor identifier-shaped,
`parse` throws `Unexpected token: <token>` and returns no program, not even the
statements parsed before. -/
theorem parse_unexpected_token (pre : List Token) (p : List Statement) (tok : Token)
    (rest : List Token) (hpre : parse pre = .program p) (hs : tok ≠ units "signature")
    (he : tok ≠ units "example") (hi : isIdentifier tok = false) :
    parse (pre ++ tok :: rest) = .error (.unexpectedToken (some tok)) ∧
      (ParseError.unexpectedToken (some tok)).message = units "Unexpected token: " ++ tok := by
  refine ⟨?_, rfl⟩
  obtain ⟨k, hk⟩ := parse_of_prefix hpre (tok :: rest)
  have h0 : (pre ++ tok :: rest)[pre.length]? = some tok :=
    getElem?_of_drop (r := rest) (by simp)
  have hlt : ¬ (pre ++ tok :: rest).length ≤ pre.length := by simp
  have hloop : parseLoop (k + 2) (pre ++ tok :: rest) pre.length =
      .throw (.unexpectedToken (some tok)) := by
    rw [parseLoop]
    simp only [bind_run, isAtEnd_run, hlt, decide_False, Bool.false_eq_true, ↓reduceIte,
      parseStatement_unexpected (k + 1) h0 hs he hi]
  unfold parse
  have hlen : (pre ++ tok :: rest).length + 2 = pre.length + (tok :: rest).length + 2 := by
    simp
  rw [hlen, hk, hloop]
  rfl

/-- C7, the instances `5` and `foo(1) 5`. -/
theorem parse_unexpected_token_witness :
    parseSource (units "5") = .error (.unexpectedToken (some (units "5"))) ∧
      parseSource (units "foo(1) 5") = .error (.unexpectedToken (some (units "5"))) :=
  ⟨(parse_unexpected_token [] [] (units "5") [] (by rfl) (by decide) (by decide)
      (by decide)).1,
   (parse_unexpected_token (tokenize (units "foo(1)"))
      [.expression (some (units "foo")) [.literal (.num (.finite 1 0))]] (units "5") []
      (by rfl) (by decide) (by decide) (by decide)).1⟩

theorem isIdentifier_ne {q : Token} (hq : isIdentifier q = true) {t : Token}
    (ht : isIdentifier t = false) : q ≠ t := by
  rintro rfl
  rw [hq] at ht
  cases ht

theorem missing_comma_tokens_error (n : Token) (sp : List Token) (ps : List Parameter)
    (q : Token) (rest : List Token) (hn : isIdentifier n = true) (hps : ParamsG sp ps)
    (hq : isIdentifier q = true) :
    parse (units "signature" :: n :: units "(" :: (sp ++ q :: rest)) =
      .error (.expected (units ")") (some q)) := by
  have hqc : q ≠ units "," := isIdentifier_ne hq (by decide)
  have hqp : q ≠ units ")" := isIdentifier_ne hq (by decide)
  generalize hts : units "signature" :: n :: units "(" :: (sp ++ q :: rest) = ts
  have hd : ts.drop 0 = units "signature" :: n :: units "(" :: (sp ++ q :: rest) := by
    simp [hts]
  have h0 := matchAny_true [units "signature"] (getElem?_of_drop hd) (by simp)
  have d1 := drop_succ_of_drop hd
  have h1 := getElem?_of_drop d1
  have d2 := drop_succ_of_drop d1
  have h2 := getElem?_of_drop d2
  have d3 := drop_succ_of_drop d2
  have hlen : sp.length + 4 ≤ ts.length := by rw [← hts]; simp
  have h3 := parseParameters_complete hps (ts.length + 1) ts (0 + 1 + 1 + 1) _ d3
    (by simpa using hqc) (by omega)
  have h4 := getElem?_of_drop (drop_add_of_drop sp d3)
  have hlt : ¬ ts.length ≤ 0 := by omega
  have h4' : ¬ (ts[0 + 1 + 1 + 1 + sp.length]? = some (units ")")) := by
    rw [h4]; simpa using hqp
  have hloop : parseLoop (ts.length + 2) ts 0 = .throw (.expected (units ")") (some q)) := by
    rw [parseLoop]
    simp only [bind_run, isAtEnd_run, hlt, decide_False, Bool.false_eq_true, ↓reduceIte]
    simp only [Nat.zero_add] at h0 h1 h2 h3 h4 h4'
    simp [parseStatement, parseSignature, h0, consumeIdentifier_run, h1, hn, consume_run, h2,
      h3, h4, hqp]
  unfold parse
  rw [hloop]

/-- C8: for every signature text in which a parameter is followed by the next
parameter with white space and no comma between them, `parse` throws at the
first token q of the second parameter, where the parameter list ends and `)`
is expected (`Expected ')', but got 'q'`), and returns no signature. -/
theorem parse_missing_comma (n : Token) (ps : List (Token × Token)) (sep : List Nat)
    (q : Token) (tail : List Nat) (hn : isIdentifier n = true) (hne : ps ≠ [])
    (hv : ValidParams ps) (hsep : sep ≠ [] ∧ ∀ c ∈ sep, isSpace c = true)
    (hq : isIdentifier q = true) (htail : WordEnd tail) :
    parseSource (units "signature " ++ n ++ units "(" ++ paramsText ps ++ sep ++ q ++ tail) =
        .error (.expected (units ")") (some q)) ∧
      (ParseError.expected (units ")") (some q)).message =
        units "Expected \x27)\x27, but got \x27" ++ q ++ units "\x27" := by
  refine ⟨?_, ?_⟩
  swap
  · have hmsg : units "Expected \x27" ++ units ")" ++ units "\x27, but got \x27" =
        units "Expected \x27)\x27, but got \x27" := by decide
    simp only [ParseError.message, toStr]
    rw [hmsg]
  have hsig : units "signature " = units "signature" ++ [32] := by decide
  have hw : IsWord (units "signature") := ⟨by decide, by decide⟩
  have hopen : units "(" = [40] := by decide
  have htok : tokenize (units "signature " ++ n ++ units "(" ++ paramsText ps ++ sep ++ q ++ tail)
      = units "signature" :: n :: units "(" :: (paramsTokens ps ++ q :: scan 0 tail) := by
    unfold tokenize
    simp only [hsig, hopen, List.append_assoc, List.cons_append, List.nil_append]
    rw [scan_word hw (wordEnd_cons (by decide) _), scan_space (by decide),
      scan_word (isIdentifier_isWord hn) (wordEnd_cons (by decide) _), scan_punct (by decide),
      scan_paramsText ps hv _ (wordEnd_spaces hsep.1 hsep.2 _), scan_spaces sep hsep.2,
      scan_word (isIdentifier_isWord hq) htail]
  unfold parseSource
  rw [htok]
  exact missing_comma_tokens_error n _ _ q _ hn (paramsG_paramsTokens ps hne hv) hq

/-- C8, the instance `signature add(a: number b: number) -> number`. -/
theorem parse_missing_comma_witness :
    parseSource (units "signature add(a: number b: number) -> number") =
      .error (.expected (units ")") (some (units "b"))) :=
  (parse_missing_comma (units "add") [(units "a", units "number")] (units " ") (units "b")
    (units ": number) -> number") (by decide) (by decide) (by decide) (by decide) (by decide)
    (wordEnd_cons (by decide) _)).1

theorem paramsG_ne_nil {s : List Token} {ps : List Parameter} (h : ParamsG s ps) : ps ≠ [] := by
  cases h <;> simp

theorem litsG_ne_nil {s : List Token} {ls : List Literal} (h : LitsG s ls) : ls ≠ [] := by
  cases h <;> simp

theorem stmtG_hasEmptyList {s : List Token} {st : Statement} (h : StmtG s st) :
    st.hasEmptyList = false := by
  cases h with
  | sig n sp ps sr r hn hps hr =>
    have := paramsG_ne_nil hps
    cases ps <;> simp_all [Statement.hasEmptyList]
  | ex n sl ls sr r hn hls hr =>
    have := litsG_ne_nil hls
    cases ls <;> simp_all [Statement.hasEmptyList]
  | expr n s m hn hns hne hm =>
    have := mixG_ne_nil hm
    cases m <;> simp_all [Statement.hasEmptyList]

theorem progG_mem {s : List Token} {p : List Statement} (h : ProgG s p) :
    ∀ st ∈ p, ∃ s', StmtG s' st := by
  induction h with
  | nil => intro st hst; cases hst
  | cons s st s2 p hs _ ih =>
    intro st' hst'
    rcases List.mem_cons.mp hst' with rfl | hmem
    · exact ⟨s, hs⟩
    · exact ih st' hmem

theorem parse_signature_empty_tokens (n : Token) (rest : List Token)
    (hn : isIdentifier n = true) :
    parse (units "signature" :: n :: units "(" :: units ")" :: rest) =
      .error (.expectedIdentifier (some (units ")"))) := by
  have hi : isIdentifier (units ")") = false := by decide
  unfold parse
  simp only [List.length_cons]
  rw [parseLoop]
  simp [parseStatement, parseSignature, matchAny_run, consumeIdentifier_run, consume_run,
    parseParameters, hn, hi]

theorem parseLiteral_close (f : Nat) {ts : List Token} {cur : Nat}
    (h : ts[cur]? = some (units ")")) :
    parseLiteral (f + 1) ts cur = .throw (.unexpectedLiteral (some (units ")"))) := by
  have hb : units ")" ∉ [units "true", units "false"] := by decide
  have hn : isNumber (units ")") = false := by decide
  have hs : isString (units ")") = false := by decide
  have hl : ¬ (units ")" = units "[") := by decide
  have hd : ¬ (units ")" = units "\x7b") := by decide
  rw [parseLiteral]
  simp [matchAny_run, h, hb, matchNumber_run, hn, matchString_run, hs, hl, hd]

theorem parse_example_empty_tokens (n : Token) (rest : List Token)
    (hn : isIdentifier n = true) :
    parse (units "example" :: n :: units "(" :: units ")" :: rest) =
      .error (.unexpectedLiteral (some (units ")"))) := by
  have hns : ¬ (units "example" = units "signature") := by decide
  have h3 : (units "example" :: n :: units "(" :: units ")" :: rest)[1 + 1 + 1]? =
      some (units ")") := by simp
  unfold parse
  simp only [List.length_cons]
  rw [parseLoop]
  simp [parseStatement, parseExample, matchAny_run, consumeIdentifier_run, consume_run,
    parseLiterals, hn, hns, parseLiteral_close _ h3]

theorem parse_expression_empty_tokens (n : Token) (rest : List Token)
    (hn : isIdentifier n = true) (hs : n ≠ units "signature") (he : n ≠ units "example") :
    parse (n :: units "(" :: units ")" :: rest) =
      .error (.unexpectedLiteral (some (units ")"))) := by
  have hi : isIdentifier (units ")") = false := by decide
  have h2 : (n :: units "(" :: units ")" :: rest)[1 + 1]? = some (units ")") := by simp
  unfold parse
  simp only [List.length_cons]
  rw [parseLoop]
  simp [parseStatement, parseExpression, parseMix, matchAny_run, consumeIdentifier_run,
    consume_run, peekIdentifier_run, toStr, hn, hs, he, hi, parseLiteral_close _ h2]

theorem parse_keyword_empty_tokens (rest : List Token) :
    parse (units "signature" :: units "(" :: units ")" :: rest) =
        .error (.expectedIdentifier (some (units "("))) ∧
      parse (units "example" :: units "(" :: units ")" :: rest) =
        .error (.expectedIdentifier (some (units "("))) := by
  have hi : isIdentifier (units "(") = false := by decide
  have hns : ¬ (units "example" = units "signature") := by decide
  constructor
  · unfold parse
    simp only [List.length_cons]
    rw [parseLoop]
    simp [parseStatement, parseSignature, matchAny_run, consumeIdentifier_run, hi]
  · unfold parse
    simp only [List.length_cons]
    rw [parseLoop]
    simp [parseStatement, parseExample, matchAny_run, consumeIdentifier_run, hi, hns]

/-- C9: for every identifier n, the statements with an empty list
`signature n() -> t`, `example n() = l` and `n()` (whatever text stands for t
and l) make `parse` throw, and no statement that `parse` returns has an empty
`parameters`, `literals` or `mix` list. -/
theorem parse_empty_list_fails (n : Token) (t l : List Nat) (hn : isIdentifier n = true) :
    parseSource (units "signature " ++ n ++ units "() -> " ++ t) =
        .error (.expectedIdentifier (some (units ")"))) ∧
      parseSource (units "example " ++ n ++ units "() = " ++ l) =
        .error (.unexpectedLiteral (some (units ")"))) ∧
      parseSource (n ++ units "()") =
        .error (if n = units "signature" ∨ n = units "example"
          then .expectedIdentifier (some (units "("))
          else .unexpectedLiteral (some (units ")"))) ∧
      (∀ (ts : List Token) (p : List Statement), parse ts = .program p →
        ∀ st ∈ p, st.hasEmptyList = false) := by
  have hsig : units "signature " = units "signature" ++ [32] := by decide
  have hex : units "example " = units "example" ++ [32] := by decide
  have hws : IsWord (units "signature") := ⟨by decide, by decide⟩
  have hwe : IsWord (units "example") := ⟨by decide, by decide⟩
  have hwn := isIdentifier_isWord hn
  refine ⟨?_, ?_, ?_, ?_⟩
  · have h1 : units "() -> " = [40, 41] ++ units " -> " := by decide
    have htok : tokenize (units "signature " ++ n ++ units "() -> " ++ t) =
        units "signature" :: n :: units "(" :: units ")" :: scan 0 (units " -> " ++ t) := by
      unfold tokenize
      simp only [hsig, h1, List.append_assoc, List.cons_append, List.nil_append]
      rw [scan_word hws (wordEnd_cons (by decide) _), scan_space (by decide),
        scan_word hwn (wordEnd_cons (by decide) _), scan_punct (by decide),
        scan_punct (by decide)]
      rfl
    unfold parseSource
    rw [htok]
    exact parse_signature_empty_tokens n _ hn
  · have h1 : units "() = " = [40, 41] ++ units " = " := by decide
    have htok : tokenize (units "example " ++ n ++ units "() = " ++ l) =
        units "example" :: n :: units "(" :: units ")" :: scan 0 (units " = " ++ l) := by
      unfold tokenize
      simp only [hex, h1, List.append_assoc, List.cons_append, List.nil_append]
      rw [scan_word hwe (wordEnd_cons (by decide) _), scan_space (by decide),
        scan_word hwn (wordEnd_cons (by decide) _), scan_punct (by decide),
        scan_punct (by decide)]
      rfl
    unfold parseSource
    rw [htok]
    exact parse_example_empty_tokens n _ hn
  · have h1 : units "()" = [40, 41] := by decide
    have htok : tokenize (n ++ units "()") = [n, units "(", units ")"] := by
      unfold tokenize
      simp only [h1]
      rw [scan_word hwn (wordEnd_cons (by decide) _), scan_punct (by decide),
        scan_punct (by decide)]
      rfl
    unfold parseSource
    rw [htok]
    by_cases hs : n = units "signature"
    · subst hs
      simpa using (parse_keyword_empty_tokens []).1
    · by_cases he : n = units "example"
      · subst he
        simpa using (parse_keyword_empty_tokens []).2
      · simpa [hs, he] using parse_expression_empty_tokens n [] hn hs he
  · intro ts p hp st hst
    obtain ⟨s, hs⟩ := progG_mem ((parse_program_iff ts p).mp hp) st hst
    exact stmtG_hasEmptyList hs

/-- C9, the instances `signature f() -> number`, `example f() = 1` and `f()`. -/
theorem parse_empty_list_fails_witness :
    parseSource (units "signature f() -> number") =
        .error (.expectedIdentifier (some (units ")"))) ∧
      parseSource (units "example f() = 1") = .error (.unexpectedLiteral (some (units ")"))) ∧
      parseSource (units "f()") = .error (.unexpectedLiteral (some (units ")"))) :=
  ⟨(parse_empty_list_fails (units "f") (units "number") (units "1") (by decide)).1,
   (parse_empty_list_fails (units "f") (units "number") (units "1") (by decide)).2.1,
   (parse_empty_list_fails (units "f") (units "number") (units "1") (by decide)).2.2.1⟩

theorem parse_append {ts1 ts2 : List Token} {p1 p2 : List Statement}
    (h1 : parse ts1 = .program p1) (h2 : parse ts2 = .program p2) :
    parse (ts1 ++ ts2) = .program (p1 ++ p2) :=
  (parse_program_iff _ _).mpr
    (progG_append ((parse_program_iff _ _).mp h1) ((parse_program_iff _ _).mp h2))

/-- C10: a well-formed example statement whose name is the name of no signature
of the program, standing among complete valid statements, parses with them;
the grouping (a total function) puts it in the examples of no grouped
signature; a signature with no same-named example gets `examples = []`, and a
program with no signature groups to the empty list. -/
theorem parse_and_group_unmatched_example (pre ex post : List Token)
    (p1 p2 : List Statement) (n : Option Token) (ls : List Literal) (r : Literal)
    (hpre : parse pre = .program p1) (hex : parse ex = .program [.example n ls r])
    (hpost : parse post = .program p2)
    (hno : ∀ s ∈ p1 ++ p2, s.type = units "signature" → s.name ≠ n) :
    parse (pre ++ ex ++ post) = .program (p1 ++ .example n ls r :: p2) ∧
      (∀ g ∈ groupSignaturesWithExamples (p1 ++ .example n ls r :: p2),
        Statement.example n ls r ∉ g.examples) ∧
      (∀ (ast : List Statement), ∀ g ∈ groupSignaturesWithExamples ast,
        (∀ e ∈ ast, e.type = units "example" → e.name ≠ g.signature.name) →
        g.examples = []) ∧
      (∀ (ast : List Statement), (∀ s ∈ ast, s.type ≠ units "signature") →
        groupSignaturesWithExamples ast = []) := by
  refine ⟨?_, ?_, ?_, ?_⟩
  · have := parse_append (parse_append hpre hex) hpost
    simpa [List.append_assoc] using this
  · intro g hg hmem
    obtain ⟨hin, hty, hexs⟩ := group_mem hg
    rw [hexs] at hmem
    simp only [List.mem_filter, Bool.and_eq_true, beq_iff_eq] at hmem
    have hname : g.signature.name = n := by simpa [Statement.name] using hmem.2.2.symm
    have hsig : g.signature ∈ p1 ++ p2 := by
      simp only [List.mem_append, List.mem_cons] at hin ⊢
      rcases hin with h | h | h
      · exact Or.inl h
      · rw [h] at hty
        have hne : units "example" ≠ units "signature" := by decide
        exact absurd hty hne
      · exact Or.inr h
    exact hno g.signature hsig hty hname
  · intro ast g hg hnone
    rw [(group_mem hg).2.2, List.filter_eq_nil_iff]
    intro e he
    simp only [Bool.and_eq_true, beq_iff_eq, not_and]
    intro hty
    exact hnone e he hty
  · intro ast hnone
    have : ast.filter (fun node => node.type == units "signature") = [] := by
      rw [List.filter_eq_nil_iff]
      intro s hs
      simpa using hnone s hs
    simp [groupSignaturesWithExamples, this]

set_option maxRecDepth 8000 in
/-- C10, the instance: `example sub(1) = 2` after the signature of `add`. -/
theorem parse_and_group_unmatched_example_witness :
    parseSource (units "signature add(a: number) -> number\nexample sub(1) = 2") =
        .program [signatureOf (units "add") [(units "a", units "number")] (units "number"),
          .example (some (units "sub")) [.num (.finite 1 0)] (.num (.finite 2 0))] ∧
      groupSignaturesWithExamples
          [signatureOf (units "add") [(units "a", units "number")] (units "number"),
          .example (some (units "sub")) [.num (.finite 1 0)] (.num (.finite 2 0))] =
        [{ signature := signatureOf (units "add") [(units "a", units "number")] (units "number"),
           examples := [] }] :=
  ⟨(parse_and_group_unmatched_example
      (tokenize (units "signature add(a: number) -> number"))
      (tokenize (units "example sub(1) = 2")) []
      [signatureOf (units "add") [(units "a", units "number")] (units "number")] []
      (some (units "sub")) [.num (.finite 1 0)] (.num (.finite 2 0))
      (by rfl) (by rfl) (by rfl)
      (by
        intro s hs _ hname
        simp only [List.append_nil, List.mem_singleton] at hs
        subst hs
        revert hname
        decide)).1,
   by rfl⟩

/-! ## What the tokenizer produces -/

theorem stringBody_spec (cs : List Nat) : ∀ b, stringBody cs = some b →
    (∃ rest, cs = b ++ rest) ∧ b.getLast? = some 34 := by
  induction cs using stringBody.induct with
  | case1 => intro b h; simp [stringBody] at h
  | case2 r b0 hb ih =>
    intro b h
    rw [stringBody.eq_2, hb] at h
    simp only [Option.some.injEq] at h
    subst h
    obtain ⟨⟨rest, hr⟩, hl⟩ := ih b0 hb
    refine ⟨⟨rest, by rw [hr]; simp⟩, ?_⟩
    cases b0 with
    | nil => simp at hl
    | cons x xs => simpa [List.getLast?_cons_cons] using hl
  | case3 r hb _ =>
    intro b h
    rw [stringBody.eq_2, hb] at h
    simp only [Option.some.injEq] at h
    subst h
    exact ⟨⟨r, by simp⟩, by simp⟩
  | case4 r hne =>
    intro b h
    rw [stringBody.eq_3 34 r hne] at h
    simp only [↓reduceIte, Option.some.injEq] at h
    subst h
    exact ⟨⟨r, by simp⟩, by simp⟩
  | case5 c r hne hc ih =>
    intro b h
    rw [stringBody.eq_3 c r hne] at h
    simp only [hc, ↓reduceIte, Option.map_eq_some'] at h
    obtain ⟨b0, hb0, rfl⟩ := h
    obtain ⟨⟨rest, hr⟩, hl⟩ := ih b0 hb0
    refine ⟨⟨rest, by rw [hr]; simp⟩, ?_⟩
    cases b0 with
    | nil => simp at hl
    | cons x xs => simpa [List.getLast?_cons_cons] using hl

/-- The outcome of one match attempt, alternative by alternative. -/
theorem matchAt_cases (c : Nat) (cs : List Nat) :
    (isWordChar c = true ∧ matchAt c cs = some (c :: cs.takeWhile isWordChar)) ∨
    (c = 45 ∧ ∃ r, cs = 62 :: r ∧ matchAt c cs = some [45, 62]) ∨
    (isPunct c = true ∧ matchAt c cs = some [c]) ∨
    (c = 34 ∧ ∃ b, stringBody cs = some b ∧ matchAt c cs = some (34 :: b)) ∨
    (isWordChar c = false ∧ isSpace c = false ∧ matchAt c cs = some [c]) ∨
    (isSpace c = true ∧ matchAt c cs = none) := by
  by_cases hw : isWordChar c = true
  · exact Or.inl ⟨hw, matchAt_word hw cs⟩
  · have hd : ¬ isDigit c = true := by
      intro hd
      apply hw
      have := (isDigit_iff c).mp hd
      rw [isWordChar_iff]; omega
    by_cases ha : c = 45 ∧ cs.head? = some 62
    · right; left
      obtain ⟨rfl, hh⟩ := ha
      cases cs with
      | nil => simp at hh
      | cons x r =>
        simp only [List.head?_cons, Option.some.injEq] at hh
        subst hh
        exact ⟨rfl, r, rfl, matchAt_arrow r⟩
    · by_cases hp : isPunct c = true
      · exact Or.inr (Or.inr (Or.inl ⟨hp, matchAt_punct hp cs⟩))
      · by_cases hq : c = 34
        · subst hq
          cases hb : stringBody cs with
          | some b =>
            right; right; right; left
            refine ⟨rfl, b, rfl, ?_⟩
            simp [matchAt, altWord, altArrow, altPunct, altString, hw, hp, hb]
          | none =>
            right; right; right; right; left
            have hs : isSpace 34 = false := by decide
            refine ⟨by simpa using hw, hs, ?_⟩
            simp [matchAt, altWord, altArrow, altPunct, altString, altDigits, altNonSpace, hw,
              hp, hb, hd, hs]
        · by_cases hs : isSpace c = true
          · exact Or.inr (Or.inr (Or.inr (Or.inr (Or.inr ⟨hs, matchAt_space hs cs⟩))))
          · right; right; right; right; left
            refine ⟨by simpa using hw, by simpa using hs, ?_⟩
            simp [matchAt, altWord, altArrow, altPunct, altString, altDigits, altNonSpace, hw,
              hp, hd, hs, ha, hq]

theorem matchAt_some_cons {c : Nat} {cs tok : List Nat} (h : matchAt c cs = some tok) :
    ∃ t rest, tok = c :: t ∧ cs = t ++ rest := by
  rcases matchAt_cases c cs with ⟨_, h1⟩ | ⟨rfl, r, rfl, h1⟩ | ⟨_, h1⟩ | ⟨rfl, b, hb, h1⟩ |
    ⟨_, _, h1⟩ | ⟨_, h1⟩
  · rw [h1] at h; cases h
    exact ⟨_, cs.dropWhile isWordChar, rfl, (List.takeWhile_append_dropWhile _ _).symm⟩
  · rw [h1] at h; cases h
    exact ⟨[62], r, rfl, rfl⟩
  · rw [h1] at h; cases h
    exact ⟨[], cs, rfl, rfl⟩
  · rw [h1] at h; cases h
    obtain ⟨⟨rest, hr⟩, _⟩ := stringBody_spec cs b hb
    exact ⟨b, rest, rfl, hr⟩
  · rw [h1] at h; cases h
    exact ⟨[], cs, rfl, rfl⟩
  · rw [h1] at h; cases h

theorem lexes_scan : ∀ (n : Nat) (s : List Nat), s.length ≤ n → Lexes s (scan 0 s) := by
  intro n
  induction n with
  | zero =>
    intro s hs
    cases s with
    | nil => exact Lexes.nil
    | cons c cs => simp at hs
  | succ n ih =>
    intro s hs
    cases s with
    | nil => exact Lexes.nil
    | cons c cs =>
      simp only [List.length_cons, Nat.add_le_add_iff_right] at hs
      cases hm : matchAt c cs with
      | none =>
        have : scan 0 (c :: cs) = scan 0 cs := by simp [scan, hm]
        rw [this]
        exact Lexes.space c cs _ hm (ih cs hs)
      | some tok =>
        obtain ⟨t, rest, rfl, rfl⟩ := matchAt_some_cons hm
        rw [scan_token c t rest hm]
        exact Lexes.token c t rest _ hm (ih rest (by simp at hs; omega))

theorem lexes_tokenize (s : List Nat) : Lexes s (tokenize s) :=
  lexes_scan s.length s (le_refl _)

theorem isWordChar_not_space {c : Nat} (h : isWordChar c = true) : isSpace c = false := by
  have := (isWordChar_iff c).mp h
  rw [Bool.eq_false_iff, Ne, isSpace_iff]; omega

theorem isPunct_not_space {c : Nat} (h : isPunct c = true) : isSpace c = false := by
  have := (isPunct_iff c).mp h
  rw [Bool.eq_false_iff, Ne, isSpace_iff]; omega

theorem matchAt_shape {c : Nat} {cs tok : List Nat} (h : matchAt c cs = some tok) :
    TokenShape tok := by
  rcases matchAt_cases c cs with ⟨hw, h1⟩ | ⟨rfl, r, rfl, h1⟩ | ⟨hp, h1⟩ | ⟨rfl, b, hb, h1⟩ |
    ⟨_, hs, h1⟩ | ⟨_, h1⟩
  · rw [h1] at h; cases h
    left
    refine ⟨by simp, ?_⟩
    intro x hx
    rcases List.mem_cons.mp hx with rfl | hx
    · exact hw
    · exact (List.mem_takeWhile_imp hx)
  · rw [h1] at h; cases h
    right; left; rfl
  · rw [h1] at h; cases h
    right; right; left
    exact ⟨c, rfl, isPunct_not_space hp⟩
  · rw [h1] at h; cases h
    right; right; right
    exact ⟨b, rfl, (stringBody_spec cs b hb).2⟩
  · rw [h1] at h; cases h
    right; right; left
    exact ⟨c, rfl, hs⟩
  · rw [h1] at h; cases h

theorem matchAt_none_space {c : Nat} {cs : List Nat} (h : matchAt c cs = none) :
    isSpace c = true := by
  rcases matchAt_cases c cs with ⟨_, h1⟩ | ⟨_, _, _, h1⟩ | ⟨_, h1⟩ | ⟨_, _, _, h1⟩ |
    ⟨_, _, h1⟩ | ⟨hs, _⟩
  all_goals first | exact hs | (rw [h1] at h; cases h)

theorem lexes_shape {s : List Nat} {toks : List Token} (h : Lexes s toks) :
    ∀ tok ∈ toks, TokenShape tok := by
  induction h with
  | nil => intro tok ht; cases ht
  | space c rest toks _ _ ih => exact ih
  | token c tok rest toks hm _ ih =>
    intro t ht
    rcases List.mem_cons.mp ht with rfl | ht
    · exact matchAt_shape hm
    · exact ih t ht

theorem lexes_flatten {s : List Nat} {toks : List Token} (h : Lexes s toks) :
    toks.flatten.filter notSpace = s.filter notSpace := by
  induction h with
  | nil => rfl
  | space c rest toks hm _ ih =>
    have hs := matchAt_none_space hm
    simpa [List.filter_cons, notSpace, hs] using ih
  | token c tok rest toks _ _ ih =>
    simp only [List.flatten_cons, List.filter_append, ih]
    rw [← List.filter_append, List.cons_append]

/-- C18: tokenization loses no unit that is not white space and reorders
nothing: the tokens of a text, concatenated and stripped of white space, are
the text stripped of white space. -/
theorem tokenize_preserves_text (s : List Nat) :
    (tokenize s).flatten.filter notSpace = s.filter notSpace :=
  lexes_flatten (lexes_tokenize s)

theorem parse_nil : parse [] = .program [] := by rfl

/-- C15: no token of the tokenizer is empty, and a token that holds a
white-space unit is a double-quoted string literal; so the empty text and every
text of white space only have no tokens, and `parse` returns the empty program
on them. -/
theorem tokens_nonempty_no_space (s : List Nat) :
    (∀ tok ∈ tokenize s, tok ≠ [] ∧ ((∃ c ∈ tok, isSpace c = true) → IsStringToken tok)) ∧
      tokenize [] = [] ∧ parseSource [] = .program [] ∧
      ((∀ c ∈ s, isSpace c = true) → tokenize s = [] ∧ parseSource s = .program []) := by
  refine ⟨?_, rfl, by rfl, ?_⟩
  · intro tok ht
    rcases lexes_shape (lexes_tokenize s) tok ht with ⟨hne, hw⟩ | rfl | ⟨c, rfl, hc⟩ |
      ⟨b, rfl, hb⟩
    · refine ⟨hne, ?_⟩
      rintro ⟨c, hc, hs⟩
      rw [isWordChar_not_space (hw c hc)] at hs
      cases hs
    · refine ⟨by simp, ?_⟩
      rintro ⟨c, hc, hs⟩
      simp only [List.mem_cons, List.mem_singleton, List.not_mem_nil, or_false] at hc
      rcases hc with rfl | rfl
      · exact absurd hs (by decide)
      · exact absurd hs (by decide)
    · refine ⟨by simp, ?_⟩
      rintro ⟨x, hx, hs⟩
      simp only [List.mem_singleton] at hx
      subst hx
      rw [hc] at hs
      cases hs
    · exact ⟨by simp, fun _ => ⟨b, rfl, hb⟩⟩
  · intro hs
    have h0 : tokenize s = [] := by
      have := scan_spaces s hs []
      simpa [tokenize, scan] using this
    refine ⟨h0, ?_⟩
    unfold parseSource
    rw [h0]
    rfl

theorem tokenShape_not_compound {tok : Token} (h : TokenShape tok) :
    tok ≠ units "list[" ∧ tok ≠ units "dict\x7b" := by
  have l1 : (units "list[").length = 5 := by decide
  have l2 : (units "dict\x7b").length = 5 := by decide
  have f1 : (units "list[").head? = some 108 := by decide
  have f2 : (units "dict\x7b").head? = some 100 := by decide
  have h1 : ¬ TokenShape (units "list[") := by
    rintro (⟨_, hw⟩ | h | ⟨c, h, _⟩ | ⟨b, h, _⟩)
    · exact absurd (hw 91 (by decide)) (by decide)
    · revert h; decide
    · have := congrArg List.length h
      rw [l1] at this
      simp at this
    · have := congrArg List.head? h
      rw [f1] at this
      simp at this
  have h2 : ¬ TokenShape (units "dict\x7b") := by
    rintro (⟨_, hw⟩ | h | ⟨c, h, _⟩ | ⟨b, h, _⟩)
    · exact absurd (hw 123 (by decide)) (by decide)
    · revert h; decide
    · have := congrArg List.length h
      rw [l2] at this
      simp at this
    · have := congrArg List.head? h
      rw [f2] at this
      simp at this
  constructor
  · rintro rfl; exact h1 h
  · rintro rfl; exact h2 h

theorem tokenize_noCompound (s : List Nat) : NoCompound (tokenize s) := by
  constructor
  · intro hm
    exact (tokenShape_not_compound (lexes_shape (lexes_tokenize s) _ hm)).1 rfl
  · intro hm
    exact (tokenShape_not_compound (lexes_shape (lexes_tokenize s) _ hm)).2 rfl

theorem noCompound_sub {s s2 : List Token} (h : NoCompound s) (hs : ∀ t ∈ s2, t ∈ s) :
    NoCompound s2 :=
  ⟨fun hm => h.1 (hs _ hm), fun hm => h.2 (hs _ hm)⟩

theorem typeG_primitive {s : List Token} {v : TypeExpr} (h : TypeG s v) (hn : NoCompound s) :
    ∃ t ∈ primitiveTypes, v = .name (some t) := by
  cases h with
  | prim t ht => exact ⟨t, ht, rfl⟩
  | list s v _ => exact absurd (by simp) hn.1
  | dict s v _ => exact absurd (by simp) hn.2

theorem paramsG_primitive {s : List Token} {ps : List Parameter} (h : ParamsG s ps) :
    NoCompound s → ∀ q ∈ ps, ∃ t ∈ primitiveTypes, q.type = .name (some t) := by
  induction h with
  | one n s ty _ hty =>
    intro hn q hq
    simp only [List.mem_singleton] at hq
    subst hq
    exact typeG_primitive hty (noCompound_sub hn (fun t ht => by simp [ht]))
  | cons n s ty s2 ps _ hty _ ih =>
    intro hn q hq
    rcases List.mem_cons.mp hq with rfl | hq
    · exact typeG_primitive hty (noCompound_sub hn (fun t ht => by simp [ht]))
    · exact ih (noCompound_sub hn (fun t ht => by simp [ht])) q hq

theorem stmtG_primitive {s : List Token} {st : Statement} (h : StmtG s st)
    (hn : NoCompound s) : st.primitiveOnly := by
  cases h with
  | sig n sp ps sr r _ hps hr =>
    exact ⟨paramsG_primitive hps (noCompound_sub hn (fun t ht => by simp [ht])),
      typeG_primitive hr (noCompound_sub hn (fun t ht => by simp [ht]))⟩
  | ex n sl ls sr r _ _ _ => trivial
  | expr n s m _ _ _ _ => trivial

theorem progG_primitive {s : List Token} {p : List Statement} (h : ProgG s p) :
    NoCompound s → ∀ st ∈ p, st.primitiveOnly := by
  induction h with
  | nil => intro _ st hst; cases hst
  | cons s st s2 p hs _ ih =>
    intro hn st' hst'
    rcases List.mem_cons.mp hst' with rfl | hmem
    · exact stmtG_primitive hs (noCompound_sub hn (fun t ht => by simp [ht]))
    · exact ih (noCompound_sub hn (fun t ht => by simp [ht])) st' hmem

/-- C19: no token of any source text is `list[` or `dict{`; so in every program
that `parse` returns from a source text, every parameter type and every return
type of a signature is one of the plain strings `'string'`, `'number'`,
`'bool'`: the list and dict branches of `parseType` are not taken. -/
theorem no_compound_type_token (s : List Nat) :
    units "list[" ∉ tokenize s ∧ units "dict\x7b" ∉ tokenize s ∧
      ∀ p, parseSource s = .program p → ∀ st ∈ p, st.primitiveOnly := by
  refine ⟨(tokenize_noCompound s).1, (tokenize_noCompound s).2, ?_⟩
  intro p hp
  exact progG_primitive ((parse_program_iff _ p).mp hp) (tokenize_noCompound s)

/-! ## Literals as arguments, fractions, containers, strings, end of input -/

theorem parse_boolean_item_tokens (f b : Token) (rest : List Token)
    (hf : isIdentifier f = true) (hs : f ≠ units "signature") (he : f ≠ units "example")
    (hb : b ∈ [units "true", units "false"]) :
    parse (f :: units "(" :: b :: units ")" :: rest) =
      .error (.expected (units "(") (some (units ")"))) := by
  have hbi : isIdentifier b = true := by
    simp only [List.mem_cons, List.mem_singleton, List.not_mem_nil, or_false] at hb
    rcases hb with rfl | rfl <;> decide
  have hne : ¬ (units ")" = units "(") := by decide
  unfold parse
  simp only [List.length_cons]
  rw [parseLoop]
  simp [parseStatement, parseExpression, parseMix, matchAny_run, consumeIdentifier_run,
    consume_run, peekIdentifier_run, toStr, hf, hs, he, hbi, hne]

theorem parse_literal_item_tokens (f : Token) (s : List Token) (l : Literal)
    (hf : isIdentifier f = true) (hs : f ≠ units "signature") (he : f ≠ units "example")
    (hl : LitG s l) (hni : NoIdentHead s) :
    parse (f :: units "(" :: s ++ [units ")"]) = .program [.expression (some f) [.literal l]] :=
  (parse_program_iff _ _).mpr
    (progG_single (StmtG.expr f s _ hf hs he (MixG.litLast s l hl hni)))

/-- C11: the boolean literals are not accepted as mix items: in `foo(true)` and
`foo(1, false)` the token `true` or `false` is identifier-shaped, so `parseMix`
takes it for the name of a nested expression and `consume('(')` throws
`Expected '(', but got ')'`; the literal list of an example accepts the same
literals, and a literal that does not start with an identifier-shaped token
is accepted as the one item of a mix. -/
theorem parse_boolean_mix_item_fails :
    parseSource (units "foo(true)") = .error (.expected (units "(") (some (units ")"))) ∧
      parseSource (units "foo(1, false)") =
        .error (.expected (units "(") (some (units ")"))) ∧
      (∀ (f b : Token) (rest : List Token), isIdentifier f = true → f ≠ units "signature" →
        f ≠ units "example" → b ∈ [units "true", units "false"] →
        parse (f :: units "(" :: b :: units ")" :: rest) =
          .error (.expected (units "(") (some (units ")")))) ∧
      parseSource (units "example f(true) = false") =
        .program [.example (some (units "f")) [.str (some (units "true"))]
          (.str (some (units "false")))] ∧
      (∀ (f : Token) (s : List Token) (l : Literal), isIdentifier f = true →
        f ≠ units "signature" → f ≠ units "example" → LitG s l → NoIdentHead s →
        parse (f :: units "(" :: s ++ [units ")"]) =
          .program [.expression (some f) [.literal l]]) :=
  ⟨by rfl, by rfl, parse_boolean_item_tokens, by rfl, parse_literal_item_tokens⟩

theorem consumeIdentifier_at_end (ts : List Token) (cur : Nat) (h : ts.length ≤ cur) :
    consumeIdentifier ts cur = .ok (if cur = 0 then none else ts[cur - 1]?) cur := by
  rw [consumeIdentifier_run, List.getElem?_eq_none h]

theorem consumeIdentifier_never_undefined (ts : List Token) (cur : Nat) :
    consumeIdentifier ts cur ≠ .throw (.expectedIdentifier none) := by
  rw [consumeIdentifier_run]
  cases h : ts[cur]? with
  | none => simp
  | some t =>
    by_cases ht : isIdentifier t = true
    · simp [ht]
    · simp [ht]

theorem parse_open_paren_at_end (f : Token) (hf : isIdentifier f = true)
    (hs : f ≠ units "signature") (he : f ≠ units "example") :
    parse [f, units "("] = .error (.expected (units "(") none) := by
  have hu : isIdentifier (units "undefined") = true := by decide
  unfold parse
  simp only [List.length_cons, List.length_nil]
  rw [parseLoop]
  simp [parseStatement, parseExpression, parseMix, matchAny_run, consumeIdentifier_run,
    consume_run, peekIdentifier_run, toStr, hf, hs, he, hu]

/-- C16: when the input ends where an identifier is required, the error is not
the one of `consumeIdentifier`: `peekIdentifier` tests the string `undefined`,
which is identifier-shaped, so `consumeIdentifier` returns the token before the
cursor without advancing, and the next `consume('(')` throws
`Expected '(', but got 'undefined'`. -/
theorem parse_missing_identifier_at_end :
    parseSource (units "signature") = .error (.expected (units "(") none) ∧
      parseSource (units "example") = .error (.expected (units "(") none) ∧
      parseSource (units "foo(") = .error (.expected (units "(") none) ∧
      parseSource (units "foo(1,") = .error (.expected (units "(") none) ∧
      (ParseError.expected (units "(") none).message =
        units "Expected \x27(\x27, but got \x27undefined\x27" ∧
      (∀ (f : Token), isIdentifier f = true → f ≠ units "signature" → f ≠ units "example" →
        parse [f, units "("] = .error (.expected (units "(") none)) ∧
      (∀ (ts : List Token) (cur : Nat), ts.length ≤ cur →
        consumeIdentifier ts cur = .ok (if cur = 0 then none else ts[cur - 1]?) cur) ∧
      (∀ (ts : List Token) (cur : Nat),
        consumeIdentifier ts cur ≠ .throw (.expectedIdentifier none)) :=
  ⟨by rfl, by rfl, by rfl, by rfl, by decide, parse_open_paren_at_end,
    consumeIdentifier_at_end, consumeIdentifier_never_undefined⟩

theorem takeWhile_digits_append {a : List Nat} (ha : ∀ c ∈ a, isDigit c = true)
    (r : List Nat) : (a ++ r).takeWhile isDigit = a ++ r.takeWhile isDigit := by
  induction a with
  | nil => rfl
  | cons x xs ih =>
    simp only [List.cons_append, List.takeWhile_cons, ha x (List.mem_cons_self x xs), ↓reduceIte]
    rw [ih (fun c hc => ha c (List.mem_cons_of_mem x hc))]

theorem dropWhile_digits_append {a : List Nat} (ha : ∀ c ∈ a, isDigit c = true)
    (r : List Nat) : (a ++ r).dropWhile isDigit = r.dropWhile isDigit := by
  induction a with
  | nil => rfl
  | cons x xs ih =>
    simp only [List.cons_append, List.dropWhile_cons, ha x (List.mem_cons_self x xs), ↓reduceIte]
    exact ih (fun c hc => ha c (List.mem_cons_of_mem x hc))

theorem isNumber_fraction {a b : Token} (ha : IsDigits a) (hb : IsDigits b) :
    isNumber (a ++ 46 :: b) = true := by
  obtain ⟨hane, ha⟩ := ha
  obtain ⟨hbne, hb⟩ := hb
  have h46 : isDigit 46 = false := by decide
  have ht : (a ++ 46 :: b).takeWhile isDigit = a := by
    rw [takeWhile_digits_append ha]; simp [List.takeWhile_cons, h46]
  have hd : (a ++ 46 :: b).dropWhile isDigit = 46 :: b := by
    rw [dropWhile_digits_append ha]; simp [List.dropWhile_cons, h46]
  cases a with
  | nil => exact absurd rfl hane
  | cons x xs =>
    cases b with
    | nil => exact absurd rfl hbne
    | cons y ys =>
      unfold isNumber
      rw [ht, hd]
      simpa using hb

theorem scan_fraction {a b : Token} (ha : IsDigits a) (hb : IsDigits b) (rest : List Nat)
    (hr : WordEnd rest) :
    scan 0 (a ++ 46 :: (b ++ rest)) = a :: [46] :: b :: scan 0 rest := by
  rw [scan_word (isDigits_isWord ha) (wordEnd_cons (by decide) _), scan_punct (by decide),
    scan_word (isDigits_isWord hb) hr]

theorem parse_fraction_tokens (n a : Token) (rest : List Token) (hn : isIdentifier n = true)
    (ha : IsDigits a) :
    parse (units "example" :: n :: units "(" :: a :: units "." :: rest) =
      .error (.expected (units ")") (some (units "."))) := by
  have hns : ¬ (units "example" = units "signature") := by decide
  have hb := isNumber_not_bool (isDigits_isNumber ha)
  have hnum := isDigits_isNumber ha
  have hc : ¬ (units "." = units ",") := by decide
  have hp : ¬ (units "." = units ")") := by decide
  unfold parse
  simp only [List.length_cons]
  rw [parseLoop]
  simp [parseStatement, parseExample, parseLiterals, parseLiteral, matchAny_run,
    consumeIdentifier_run, consume_run, matchNumber_run, hn, hns, hb, hnum, hc, hp]

/-- C12: a fractional literal `a.b` is not one token: the tokenizer cuts it into
the tokens `a`, `.` and `b` (the alternative `\w+` takes the digits and `.` is a
punctuation token), although `matchNumber` would accept a token `a.b`; so
`example half(1.5) = 0.75` does not parse: after the literal `1` the literal
list ends and `consume(')')` throws `Expected ')', but got '.'`. -/
theorem fraction_is_three_tokens (a b : Token) (ha : IsDigits a) (hb : IsDigits b) :
    tokenize (a ++ units "." ++ b) = [a, units ".", b] ∧
      isNumber (a ++ units "." ++ b) = true ∧
      (∀ (n : Token) (tail : List Nat), isIdentifier n = true → WordEnd tail →
        parseSource (units "example " ++ n ++ units "(" ++ a ++ units "." ++ b ++ tail) =
          .error (.expected (units ")") (some (units ".")))) ∧
      parseSource (units "example half(1.5) = 0.75") =
        .error (.expected (units ")") (some (units "."))) := by
  have hdot : units "." = [46] := by decide
  refine ⟨?_, ?_, ?_, by rfl⟩
  · have := scan_fraction ha hb [] wordEnd_nil
    simp only [List.append_nil] at this
    unfold tokenize
    rw [hdot, List.append_assoc, List.singleton_append, this]
    rfl
  · rw [hdot, List.append_assoc, List.singleton_append]
    exact isNumber_fraction ha hb
  · intro n tail hn htail
    have hex : units "example " = units "example" ++ [32] := by decide
    have hwe : IsWord (units "example") := ⟨by decide, by decide⟩
    have hopen : units "(" = [40] := by decide
    have htok : tokenize (units "example " ++ n ++ units "(" ++ a ++ units "." ++ b ++ tail) =
        units "example" :: n :: units "(" :: a :: units "." :: b :: scan 0 tail := by
      unfold tokenize
      simp only [hex, hopen, hdot, List.append_assoc, List.cons_append, List.nil_append]
      rw [scan_word hwe (wordEnd_cons (by decide) _), scan_space (by decide),
        scan_word (isIdentifier_isWord hn) (wordEnd_cons (by decide) _), scan_punct (by decide),
        scan_fraction ha hb tail htail]
    unfold parseSource
    rw [htok]
    exact parse_fraction_tokens n a _ hn ha

/-- C12, the instance `1.5`. -/
theorem fraction_is_three_tokens_witness :
    tokenize (units "1.5") = [units "1", units ".", units "5"] :=
  (fraction_is_three_tokens (units "1") (units "5") (by decide) (by decide)).1

theorem parse_expression_fraction_tokens (f a : Token) (rest : List Token)
    (hf : isIdentifier f = true) (hs : f ≠ units "signature") (he : f ≠ units "example")
    (ha : IsDigits a) :
    parse (f :: units "(" :: a :: units "." :: rest) =
      .error (.expected (units ")") (some (units "."))) := by
  have hb := isNumber_not_bool (isDigits_isNumber ha)
  have hnum := isDigits_isNumber ha
  have hai := isDigits_not_identifier ha
  have hc : ¬ (units "." = units ",") := by decide
  have hp : ¬ (units "." = units ")") := by decide
  unfold parse
  simp only [List.length_cons]
  rw [parseLoop]
  simp [parseStatement, parseExpression, parseMix, parseLiteral, matchAny_run,
    consumeIdentifier_run, consume_run, peekIdentifier_run, matchNumber_run, toStr, hf, hs, he,
    hb, hnum, hai, hc, hp]

/-- C5: an expression statement whose first item is a fractional number
literal does not parse.  For every identifier f other than `signature` and
`example` and all non-empty digit strings a and b, the text `f(a.b` followed by
anything that does not continue the digits b, such as `)` or `, 2)`, makes
`parse` throw `Expected ')', but got '.'`: the token `a.b` would be a number
for `matchNumber`, but the tokenizer cuts the text into `a`, `.` and `b`, so
the mix ends after the item `a`.  The same happens in a later position, as in
`foo(bar(1), 2.5)`. -/
theorem parse_expression_fraction_fails (f a b : Token) (tail : List Nat)
    (hf : isIdentifier f = true) (hs : f ≠ units "signature") (he : f ≠ units "example")
    (ha : IsDigits a) (hb : IsDigits b) (ht : WordEnd tail) :
    isNumber (a ++ units "." ++ b) = true ∧
      parseSource (f ++ units "(" ++ a ++ units "." ++ b ++ tail) =
        .error (.expected (units ")") (some (units "."))) ∧
      (ParseError.expected (units ")") (some (units "."))).message =
        units "Expected \x27)\x27, but got \x27.\x27" ∧
      parseSource (units "foo(bar(1), 2.5)") =
        .error (.expected (units ")") (some (units "."))) := by
  have hdot : units "." = [46] := by decide
  have hopen : units "(" = [40] := by decide
  refine ⟨?_, ?_, by decide, by rfl⟩
  · rw [hdot, List.append_assoc, List.singleton_append]
    exact isNumber_fraction ha hb
  · have htok : tokenize (f ++ units "(" ++ a ++ units "." ++ b ++ tail) =
        f :: units "(" :: a :: units "." :: b :: scan 0 tail := by
      unfold tokenize
      simp only [hopen, hdot, List.append_assoc, List.cons_append, List.nil_append]
      rw [scan_word (isIdentifier_isWord hf) (wordEnd_cons (by decide) _), scan_punct (by decide),
        scan_fraction ha hb tail ht]
    unfold parseSource
    rw [htok]
    exact parse_expression_fraction_tokens f a _ hf hs he ha

/-- C5, the instance `foo(1.5)`. -/
theorem parse_expression_fraction_fails_witness :
    parseSource (units "foo(1.5)") = .error (.expected (units ")") (some (units "."))) :=
  (parse_expression_fraction_fails (units "foo") (units "1") (units "5") (units ")")
    (by decide) (by decide) (by decide) (by decide) (by decide)
    (wordEnd_cons (by decide) _)).2.1

theorem acceptsLiteral_iff (s : List Token) (l : Literal) : AcceptsLiteral s l ↔ LitG s l := by
  constructor
  · intro h
    obtain ⟨s', hs', hd, hc⟩ := parseLiteral_sound _ _ _ _ _ h
    have : s = s' := by
      simp only [List.drop_zero, List.drop_length, List.append_nil] at hd
      exact hd
    rw [this]
    exact hs'
  · intro h
    have := parseLiteral_complete h s.length s 0 [] (by simp) (le_refl _)
    simpa [AcceptsLiteral] using this

theorem parseLiteral_list_tokens {s : List Token} {l : Literal} (h : LitG s l)
    (rest : List Token) (fuel : Nat) (hf : s.length + 2 ≤ fuel) :
    parseLiteral fuel (units "[" :: s ++ units "]" :: rest) 0 = .ok (.list l) (s.length + 2) := by
  have := parseLiteral_complete (LitG.list s l h) fuel (units "[" :: s ++ units "]" :: rest) 0
    rest (by simp) (by simp; omega)
  simpa using this

theorem parseLiteral_dict_tokens {s1 s2 : List Token} {k v : Literal} (h1 : LitG s1 k)
    (h2 : LitG s2 v) (rest : List Token) (fuel : Nat) (hf : s1.length + s2.length + 3 ≤ fuel) :
    parseLiteral fuel (units "\x7b" :: s1 ++ units ":" :: s2 ++ units "\x7d" :: rest) 0 =
      .ok (.dict k v) (s1.length + s2.length + 3) := by
  have := parseLiteral_complete (LitG.dict s1 k s2 v h1 h2) fuel
    (units "\x7b" :: s1 ++ units ":" :: s2 ++ units "\x7d" :: rest) 0 rest (by simp)
    (by simp; omega)
  simpa [Nat.add_assoc] using this

theorem parseLiteral_empty_list (rest : List Token) (fuel : Nat) :
    parseLiteral (fuel + 2) (units "[" :: units "]" :: rest) 0 =
      .throw (.unexpectedLiteral (some (units "]"))) := by
  have hb : units "[" ∉ [units "true", units "false"] := by decide
  have hn : isNumber (units "[") = false := by decide
  have hs : isString (units "[") = false := by decide
  have hb2 : units "]" ∉ [units "true", units "false"] := by decide
  have hn2 : isNumber (units "]") = false := by decide
  have hs2 : isString (units "]") = false := by decide
  have hl : ¬ (units "]" = units "[") := by decide
  have hd : ¬ (units "]" = units "\x7b") := by decide
  rw [parseLiteral]
  simp [matchAny_run, matchNumber_run, matchString_run, hb, hn, hs, parseLiteral, hb2, hn2, hs2,
    hl, hd]

theorem parseLiteral_list_comma {s : List Token} {l : Literal} (h : LitG s l)
    (rest : List Token) (fuel : Nat) (hf : s.length + 1 ≤ fuel) :
    parseLiteral fuel (units "[" :: s ++ units "," :: rest) 0 =
      .throw (.expected (units "]") (some (units ","))) := by
  obtain ⟨f, rfl⟩ : ∃ f, fuel = f + 1 := ⟨fuel - 1, by omega⟩
  generalize hts : units "[" :: s ++ units "," :: rest = ts
  have hd : ts.drop 0 = units "[" :: (s ++ units "," :: rest) := by simp [← hts]
  have h0 := getElem?_of_drop hd
  have h1 := drop_succ_of_drop hd
  have h2 := parseLiteral_complete h f ts (0 + 1) _ h1 (by omega)
  have h3 := getElem?_of_drop (drop_add_of_drop s h1)
  have hb : units "[" ∉ [units "true", units "false"] := by decide
  have hn : isNumber (units "[") = false := by decide
  have hs : isString (units "[") = false := by decide
  have hc : ¬ (units "," = units "]") := by decide
  simp only [Nat.zero_add] at h2 h3
  rw [parseLiteral]
  simp [matchAny_run, h0, hb, matchNumber_run, hn, matchString_run, hs, h2, consume_run, h3, hc]

theorem parseLiteral_dict_comma {s1 s2 : List Token} {k v : Literal} (h1 : LitG s1 k)
    (h2 : LitG s2 v) (rest : List Token) (fuel : Nat) (hf : s1.length + s2.length + 2 ≤ fuel) :
    parseLiteral fuel (units "\x7b" :: s1 ++ units ":" :: s2 ++ units "," :: rest) 0 =
      .throw (.expected (units "\x7d") (some (units ","))) := by
  obtain ⟨f, rfl⟩ : ∃ f, fuel = f + 1 := ⟨fuel - 1, by omega⟩
  generalize hts : units "\x7b" :: s1 ++ units ":" :: s2 ++ units "," :: rest = ts
  have hd : ts.drop 0 = units "\x7b" :: (s1 ++ units ":" :: (s2 ++ units "," :: rest)) := by
    simp [← hts]
  have h0 := getElem?_of_drop hd
  have d1 := drop_succ_of_drop hd
  have r1 := parseLiteral_complete h1 f ts (0 + 1) _ d1 (by omega)
  have d2 := drop_add_of_drop s1 d1
  have h3 := getElem?_of_drop d2
  have d3 := drop_succ_of_drop d2
  have r2 := parseLiteral_complete h2 f ts (0 + 1 + s1.length + 1) _ d3 (by omega)
  have h5 := getElem?_of_drop (drop_add_of_drop s2 d3)
  have hb : units "\x7b" ∉ [units "true", units "false"] := by decide
  have hn : isNumber (units "\x7b") = false := by decide
  have hs : isString (units "\x7b") = false := by decide
  have hl : ¬ (units "\x7b" = units "[") := by decide
  have hc : ¬ (units "," = units "\x7d") := by decide
  simp only [Nat.zero_add] at r1 h3 r2 h5
  rw [parseLiteral]
  simp [matchAny_run, h0, hb, matchNumber_run, hn, matchString_run, hs, hl, r1, consume_run, h3,
    r2, h5, hc]

/-- C13: for all literals L, K, V that `parseLiteral` accepts, `[L]` parses to
`{type: 'list', value: L}` and `{K: V}` to `{type: 'dict', key: K, value: V}`
(so to any depth), while `[]`, a list literal with a comma after its first
element and a dict literal with a comma after its first pair make
`parseLiteral` throw, and with it the whole parse. -/
theorem container_literal_single (s s2 : List Token) (l v : Literal) (rest : List Token)
    (fuel : Nat) (hl : AcceptsLiteral s l) (hv : AcceptsLiteral s2 v)
    (hf : s.length + s2.length + 3 ≤ fuel) :
    parseLiteral fuel (units "[" :: s ++ units "]" :: rest) 0 = .ok (.list l) (s.length + 2) ∧
      AcceptsLiteral (units "[" :: s ++ [units "]"]) (.list l) ∧
      parseLiteral fuel (units "\x7b" :: s ++ units ":" :: s2 ++ units "\x7d" :: rest) 0 =
        .ok (.dict l v) (s.length + s2.length + 3) ∧
      AcceptsLiteral (units "\x7b" :: s ++ units ":" :: s2 ++ [units "\x7d"]) (.dict l v) ∧
      parseLiteral fuel (units "[" :: units "]" :: rest) 0 =
        .throw (.unexpectedLiteral (some (units "]"))) ∧
      parseLiteral fuel (units "[" :: s ++ units "," :: rest) 0 =
        .throw (.expected (units "]") (some (units ","))) ∧
      parseLiteral fuel (units "\x7b" :: s ++ units ":" :: s2 ++ units "," :: rest) 0 =
        .throw (.expected (units "\x7d") (some (units ","))) ∧
      parseSource (units "example f([]) = 1") =
        .error (.unexpectedLiteral (some (units "]"))) ∧
      parseSource (units "example f([1, 2]) = 1") =
        .error (.expected (units "]") (some (units ","))) ∧
      parseSource (units "example f(\x7b1: 2, 3: 4\x7d) = 1") =
        .error (.expected (units "\x7d") (some (units ","))) := by
  have gl := (acceptsLiteral_iff s l).mp hl
  have gv := (acceptsLiteral_iff s2 v).mp hv
  obtain ⟨f, rfl⟩ : ∃ f, fuel = f + 2 := ⟨fuel - 2, by omega⟩
  refine ⟨parseLiteral_list_tokens gl rest _ (by omega), ?_,
    parseLiteral_dict_tokens gl gv rest _ (by omega), ?_, parseLiteral_empty_list rest f,
    parseLiteral_list_comma gl rest _ (by omega),
    parseLiteral_dict_comma gl gv rest _ (by omega), by rfl, by rfl, by rfl⟩
  · exact (acceptsLiteral_iff _ _).mpr (LitG.list s l gl)
  · exact (acceptsLiteral_iff _ _).mpr (LitG.dict s l s2 v gl gv)

/-- C13, the instance `[1]`, `{1: 2}`, and `[1, 2]`. -/
theorem container_literal_single_witness :
    parseLiteral 5 [units "[", units "1", units "]"] 0 = .ok (.list (.num (.finite 1 0))) 3 ∧
      parseLiteral 5 [units "\x7b", units "1", units ":", units "2", units "\x7d"] 0 =
        .ok (.dict (.num (.finite 1 0)) (.num (.finite 2 0))) 5 ∧
      parseLiteral 5 [units "[", units "1", units ",", units "2", units "]"] 0 =
        .throw (.expected (units "]") (some (units ","))) :=
  ⟨(container_literal_single [units "1"] [units "2"] (.num (.finite 1 0))
      (.num (.finite 2 0)) [] 5 (by rfl) (by rfl) (by decide)).1,
   (container_literal_single [units "1"] [units "2"] (.num (.finite 1 0))
      (.num (.finite 2 0)) [] 5 (by rfl) (by rfl) (by decide)).2.2.1,
   (container_literal_single [units "1"] [units "2"] (.num (.finite 1 0))
      (.num (.finite 2 0)) [units "2", units "]"] 5 (by rfl) (by rfl) (by decide)).2.2.2.2.2.1⟩

theorem strItem_head {ch : List Nat} (h : IsStrItem ch) (r : List Nat) :
    ∀ r1, ch ++ r ≠ 34 :: r1 := by
  intro r1 he
  rcases h with ⟨c, rfl, hc⟩ | rfl
  · simp only [List.singleton_append, List.cons.injEq] at he
    exact hc he.1
  · simp at he

theorem stringBody_items (items : List (List Nat)) (rest : List Nat) :
    (∀ ch ∈ items, IsStrItem ch) → items.getLast? ≠ some [92] →
    stringBody (items.flatten ++ 34 :: rest) = some (items.flatten ++ [34]) := by
  induction items with
  | nil =>
    intro _ _
    simp only [List.flatten_nil, List.nil_append]
    rw [stringBody.eq_3 34 rest (by intro r1 h; cases h)]
    simp
  | cons ch items ih =>
    intro hall hlast
    have hch := hall ch (List.mem_cons_self ch items)
    have hall2 : ∀ x ∈ items, IsStrItem x := fun x hx => hall x (List.mem_cons_of_mem ch hx)
    have hlast2 : items.getLast? ≠ some [92] := by
      cases items with
      | nil => simp
      | cons y ys => simpa [List.getLast?_cons_cons] using hlast
    have ih2 := ih hall2 hlast2
    rcases hch with ⟨c, rfl, hc⟩ | rfl
    · simp only [List.flatten_cons, List.singleton_append, List.cons_append, List.nil_append]
      have hcond : ∀ r1, c = 92 → items.flatten ++ 34 :: rest = 34 :: r1 → False := by
        intro r1 hc92 he
        subst hc92
        cases items with
        | nil => simp at hlast
        | cons y ys =>
          have hy := hall2 y (List.mem_cons_self y ys)
          simp only [List.flatten_cons, List.append_assoc] at he
          exact strItem_head hy _ r1 he
      rw [stringBody.eq_3 c _ hcond, ih2]
      simp [hc]
    · simp only [List.flatten_cons, List.cons_append, List.nil_append]
      rw [stringBody.eq_2, ih2]

theorem scan_stringText (items : List (List Nat)) (rest : List Nat)
    (hall : ∀ ch ∈ items, IsStrItem ch) (hlast : items.getLast? ≠ some [92]) :
    scan 0 (stringText items ++ rest) = stringText items :: scan 0 rest := by
  have hb := stringBody_items items rest hall hlast
  have hw : ¬ isWordChar 34 = true := by decide
  have hp : ¬ isPunct 34 = true := by decide
  have hm : matchAt 34 ((items.flatten ++ [34]) ++ rest) = some (34 :: (items.flatten ++ [34])) := by
    simp only [List.append_assoc, List.singleton_append]
    simp [matchAt, altWord, altArrow, altPunct, altString, hw, hp, hb]
  have := scan_token 34 (items.flatten ++ [34]) rest hm
  simpa [stringText] using this

theorem isString_quoted (body : List Nat) :
    isString (34 :: (body ++ [34])) = body.all (fun u => !isLineTerminator u) := by
  simp [isString, List.getLast?_append, List.dropLast_append_of_ne_nil]

theorem parseLiteral_multiline_string (body : List Nat) (rest : List Token) (fuel : Nat)
    (h : ∃ u ∈ body, isLineTerminator u = true) :
    parseLiteral (fuel + 1) ((34 :: (body ++ [34])) :: rest) 0 =
      .throw (.unexpectedLiteral (some (34 :: (body ++ [34])))) := by
  have hs : isString (34 :: (body ++ [34])) = false := by
    rw [isString_quoted, Bool.eq_false_iff]
    intro hall
    obtain ⟨u, hu, hlt⟩ := h
    have := List.all_eq_true.mp hall u hu
    simp [hlt] at this
  have hn : isNumber (34 :: (body ++ [34])) = false := by
    simp [isNumber, isDigit]
  have hb : (34 :: (body ++ [34])) ∉ [units "true", units "false"] := by
    intro hm
    simp only [List.mem_cons, List.mem_singleton, List.not_mem_nil, or_false] at hm
    have f1 : (units "true").head? = some 116 := by decide
    have f2 : (units "false").head? = some 102 := by decide
    rcases hm with hm | hm
    · have := congrArg List.head? hm
      rw [f1] at this; simp at this
    · have := congrArg List.head? hm
      rw [f2] at this; simp at this
  have hl : ¬ ((34 :: (body ++ [34])) = units "[") := by
    intro hm
    have f1 : (units "[").head? = some 91 := by decide
    have := congrArg List.head? hm
    rw [f1] at this; simp at this
  have hd : ¬ ((34 :: (body ++ [34])) = units "\x7b") := by
    intro hm
    have f1 : (units "\x7b").head? = some 123 := by decide
    have := congrArg List.head? hm
    rw [f1] at this; simp at this
  rw [parseLiteral]
  simp [matchAny_run, matchNumber_run, matchString_run, hb, hn, hs, hl, hd]

theorem parseLiteral_string (body : List Nat) (rest : List Token) (fuel : Nat)
    (h : ∀ u ∈ body, isLineTerminator u = false) :
    parseLiteral (fuel + 1) ((34 :: (body ++ [34])) :: rest) 0 =
      .ok (.str (some (34 :: (body ++ [34])))) 1 := by
  have hs : isString (34 :: (body ++ [34])) = true := by
    rw [isString_quoted, List.all_eq_true]
    intro u hu
    simp [h u hu]
  have := parseLiteral_complete (LitG.string _ hs) (fuel + 1) ((34 :: (body ++ [34])) :: rest) 0
    rest (by simp) (by simp)
  simpa using this

/-- C14: the tokenizer emits a double-quoted string literal as one token, white
space inside included, but `parseLiteral` does not accept every such token:
`matchString` tests `/^".*"$/`, whose dot matches no line terminator, so a
string token with a line terminator in its body is rejected with
`Unexpected literal`; a string token without one is returned unchanged. -/
theorem string_literal_with_newline_fails :
    (∀ (items : List (List Nat)) (rest : List Nat), (∀ ch ∈ items, IsStrItem ch) →
        items.getLast? ≠ some [92] →
        scan 0 (stringText items ++ rest) = stringText items :: scan 0 rest) ∧
      (∀ (body : List Nat) (rest : List Token) (fuel : Nat),
        (∀ u ∈ body, isLineTerminator u = false) →
        parseLiteral (fuel + 1) ((34 :: (body ++ [34])) :: rest) 0 =
          .ok (.str (some (34 :: (body ++ [34])))) 1) ∧
      (∀ (body : List Nat) (rest : List Token) (fuel : Nat),
        (∃ u ∈ body, isLineTerminator u = true) →
        parseLiteral (fuel + 1) ((34 :: (body ++ [34])) :: rest) 0 =
          .throw (.unexpectedLiteral (some (34 :: (body ++ [34]))))) ∧
      tokenize (units "\"a\nb\"") = [units "\"a\nb\""] ∧
      parseSource (units "example f(\"a\nb\") = 1") =
        .error (.unexpectedLiteral (some (units "\"a\nb\""))) ∧
      parseSource (units "example f(\"a b\") = \"c\\\"d\"") =
        .program [.example (some (units "f")) [.str (some (units "\"a b\""))]
          (.str (some (units "\"c\\\"d\"")))] :=
  ⟨scan_stringText, parseLiteral_string, parseLiteral_multiline_string, by decide, by rfl,
    by rfl⟩

/-! ## Termination -/

theorem slice_bounds {ts : List Token} {cur c : Nat} {s : List Token}
    (hd : ts.drop cur = s ++ ts.drop c) (hc : c = cur + s.length) (hs : 0 < s.length) :
    cur < c ∧ c ≤ ts.length := by
  have := congrArg List.length hd
  simp only [List.length_drop, List.length_append] at this
  omega

theorem typeG_length_pos {s : List Token} {v : TypeExpr} (h : TypeG s v) : 0 < s.length := by
  cases h <;> simp

theorem litG_length_pos {s : List Token} {v : Literal} (h : LitG s v) : 0 < s.length := by
  cases h <;> simp

theorem parseType_bounds {fuel : Nat} {ts : List Token} {cur : Nat} {v : TypeExpr} {c : Nat}
    (h : parseType fuel ts cur = .ok v c) : cur < c ∧ c ≤ ts.length := by
  obtain ⟨s, hs, hd, hc⟩ := parseType_sound fuel ts cur v c h
  exact slice_bounds hd hc (typeG_length_pos hs)

theorem parseLiteral_bounds {fuel : Nat} {ts : List Token} {cur : Nat} {v : Literal} {c : Nat}
    (h : parseLiteral fuel ts cur = .ok v c) : cur < c ∧ c ≤ ts.length := by
  obtain ⟨s, hs, hd, hc⟩ := parseLiteral_sound fuel ts cur v c h
  exact slice_bounds hd hc (litG_length_pos hs)

theorem parseStatement_bounds {fuel : Nat} {ts : List Token} {cur : Nat} {v : Statement}
    {c : Nat} (h : parseStatement fuel ts cur = .ok v c) : cur < c ∧ c ≤ ts.length := by
  obtain ⟨s, hs, hd, hc⟩ := parseStatement_sound fuel ts cur v c h
  exact slice_bounds hd hc (stmtG_length_pos hs)

theorem parseType_done : ∀ (fuel : Nat) (ts : List Token) (cur : Nat),
    ts.length - cur < fuel → parseType fuel ts cur ≠ .outOfFuel := by
  intro fuel
  induction fuel with
  | zero => intro ts cur h; omega
  | succ f ih =>
    intro ts cur hf
    rw [parseType]
    cases h0 : ts[cur]? with
    | none => simp [matchAny_run, h0]
    | some t =>
      have hlt := getElem?_lt h0
      by_cases hp : t ∈ [units "string", units "number", units "bool"]
      · simp [matchAny_run, h0, hp]
      · by_cases hl : t = units "list["
        · subst hl
          have hr := ih ts (cur + 1) (by omega)
          cases hres : parseType f ts (cur + 1) with
          | outOfFuel => exact absurd hres hr
          | throw e => simp [matchAny_run, h0, hp, hres]
          | ok inner c =>
            by_cases h3 : ts[c]? = some (units "]")
            · simp [matchAny_run, h0, hp, hres, consume_run, h3]
            · simp [matchAny_run, h0, hp, hres, consume_run, h3]
        · by_cases hdict : t = units "dict\x7b"
          · subst hdict
            have hr := ih ts (cur + 1) (by omega)
            cases hres : parseType f ts (cur + 1) with
            | outOfFuel => exact absurd hres hr
            | throw e => simp [matchAny_run, h0, hp, hl, hres]
            | ok inner c =>
              by_cases h3 : ts[c]? = some (units "\x7d")
              · simp [matchAny_run, h0, hp, hl, hres, consume_run, h3]
              · simp [matchAny_run, h0, hp, hl, hres, consume_run, h3]
          · simp [matchAny_run, h0, hp, hl, hdict]

theorem parseLiteral_done : ∀ (fuel : Nat) (ts : List Token) (cur : Nat),
    ts.length - cur < fuel → parseLiteral fuel ts cur ≠ .outOfFuel := by
  intro fuel
  induction fuel with
  | zero => intro ts cur h; omega
  | succ f ih =>
    intro ts cur hf
    rw [parseLiteral]
    cases h0 : ts[cur]? with
    | none => simp [matchAny_run, matchNumber_run, matchString_run, h0]
    | some t =>
      have hlt := getElem?_lt h0
      by_cases hb : t ∈ [units "true", units "false"]
      · simp [matchAny_run, h0, hb]
      · by_cases hn : isNumber t = true
        · simp [matchAny_run, h0, hb, matchNumber_run, hn]
        · by_cases hs : isString t = true
          · simp [matchAny_run, h0, hb, matchNumber_run, hn, matchString_run, hs]
          · by_cases hl : t = units "["
            · subst hl
              have hr := ih ts (cur + 1) (by omega)
              cases hres : parseLiteral f ts (cur + 1) with
              | outOfFuel => exact absurd hres hr
              | throw e =>
                simp [matchAny_run, h0, hb, matchNumber_run, hn, matchString_run, hs, hres]
              | ok inner c =>
                by_cases h3 : ts[c]? = some (units "]")
                · simp [matchAny_run, h0, hb, matchNumber_run, hn, matchString_run, hs, hres,
                    consume_run, h3]
                · simp [matchAny_run, h0, hb, matchNumber_run, hn, matchString_run, hs, hres,
                    consume_run, h3]
            · by_cases hdict : t = units "\x7b"
              · subst hdict
                have hr := ih ts (cur + 1) (by omega)
                cases hres : parseLiteral f ts (cur + 1) with
                | outOfFuel => exact absurd hres hr
                | throw e =>
                  simp [matchAny_run, h0, hb, matchNumber_run, hn, matchString_run, hs, hl, hres]
                | ok key c =>
                  have hbd := parseLiteral_bounds hres
                  by_cases h3 : ts[c]? = some (units ":")
                  · have hr2 := ih ts (c + 1) (by omega)
                    cases hres2 : parseLiteral f ts (c + 1) with
                    | outOfFuel => exact absurd hres2 hr2
                    | throw e =>
                      simp [matchAny_run, h0, hb, matchNumber_run, hn, matchString_run, hs, hl,
                        hres, consume_run, h3, hres2]
                    | ok value c3 =>
                      by_cases h4 : ts[c3]? = some (units "\x7d")
                      · simp [matchAny_run, h0, hb, matchNumber_run, hn, matchString_run, hs, hl,
                          hres, consume_run, h3, hres2, h4]
                      · simp [matchAny_run, h0, hb, matchNumber_run, hn, matchString_run, hs, hl,
                          hres, consume_run, h3, hres2, h4]
                  · simp [matchAny_run, h0, hb, matchNumber_run, hn, matchString_run, hs, hl,
                      hres, consume_run, h3]
              · simp [matchAny_run, h0, hb, matchNumber_run, hn, matchString_run, hs, hl, hdict]

theorem parseParameters_done : ∀ (fuel : Nat) (ts : List Token) (cur : Nat),
    ts.length - cur < fuel → parseParameters fuel ts cur ≠ .outOfFuel := by
  intro fuel
  induction fuel with
  | zero => intro ts cur h; omega
  | succ f ih =>
    intro ts cur hf
    rw [parseParameters]
    cases h0 : ts[cur]? with
    | none => simp [consumeIdentifier_run, h0, consume_run]
    | some n =>
      have hlt := getElem?_lt h0
      by_cases hn : isIdentifier n = true
      · by_cases h1 : ts[cur + 1]? = some (units ":")
        · have hr := parseType_done f ts (cur + 1 + 1) (by omega)
          cases hres : parseType f ts (cur + 1 + 1) with
          | outOfFuel => exact absurd hres hr
          | throw e => simp [consumeIdentifier_run, h0, hn, consume_run, h1, hres]
          | ok ty c =>
            have hbd := parseType_bounds hres
            cases h3 : ts[c]? with
            | none => simp [consumeIdentifier_run, h0, hn, consume_run, h1, hres, matchAny_run, h3]
            | some t =>
              by_cases ht : t = units ","
              · subst ht
                have hr2 := ih ts (c + 1) (by omega)
                cases hres2 : parseParameters f ts (c + 1) with
                | outOfFuel => exact absurd hres2 hr2
                | throw e =>
                  simp [consumeIdentifier_run, h0, hn, consume_run, h1, hres, matchAny_run, h3,
                    hres2]
                | ok ps c3 =>
                  simp [consumeIdentifier_run, h0, hn, consume_run, h1, hres, matchAny_run, h3,
                    hres2]
              · simp [consumeIdentifier_run, h0, hn, consume_run, h1, hres, matchAny_run, h3, ht]
        · simp [consumeIdentifier_run, h0, hn, consume_run, h1]
      · simp [consumeIdentifier_run, h0, hn]

theorem parseLiterals_done : ∀ (fuel : Nat) (ts : List Token) (cur : Nat),
    ts.length - cur + 1 < fuel → parseLiterals fuel ts cur ≠ .outOfFuel := by
  intro fuel
  induction fuel with
  | zero => intro ts cur h; omega
  | succ f ih =>
    intro ts cur hf
    rw [parseLiterals]
    have hr := parseLiteral_done f ts cur (by omega)
    cases hres : parseLiteral f ts cur with
    | outOfFuel => exact absurd hres hr
    | throw e => simp [hres]
    | ok l c =>
      have hbd := parseLiteral_bounds hres
      cases h3 : ts[c]? with
      | none => simp [hres, matchAny_run, h3]
      | some t =>
        by_cases ht : t = units ","
        · subst ht
          have hr2 := ih ts (c + 1) (by omega)
          cases hres2 : parseLiterals f ts (c + 1) with
          | outOfFuel => exact absurd hres2 hr2
          | throw e => simp [hres, matchAny_run, h3, hres2]
          | ok ls c3 => simp [hres, matchAny_run, h3, hres2]
        · simp [hres, matchAny_run, h3, ht]

theorem parseExpression_done_step {f : Nat} (ihm : MixDone f) : ExprDone (f + 1) := by
  intro ts cur hf
  rw [parseExpression]
  cases h0 : ts[cur]? with
  | none => simp [consumeIdentifier_run, h0, consume_run]
  | some n =>
    have hlt := getElem?_lt h0
    by_cases hn : isIdentifier n = true
    · by_cases h1 : ts[cur + 1]? = some (units "(")
      · have hlt1 := getElem?_lt h1
        have hr := ihm ts (cur + 1 + 1) (by omega)
        cases hres : parseMix f ts (cur + 1 + 1) with
        | outOfFuel => exact absurd hres hr
        | throw e => simp [consumeIdentifier_run, h0, hn, consume_run, h1, hres]
        | ok m c =>
          by_cases h3 : ts[c]? = some (units ")")
          · simp [consumeIdentifier_run, h0, hn, consume_run, h1, hres, h3]
          · simp [consumeIdentifier_run, h0, hn, consume_run, h1, hres, h3]
      · simp [consumeIdentifier_run, h0, hn, consume_run, h1]
    · simp [consumeIdentifier_run, h0, hn]

theorem parseExpression_bounds {fuel : Nat} {ts : List Token} {cur : Nat}
    {v : Option Token × List MixItem} {c : Nat} (h : parseExpression fuel ts cur = .ok v c) :
    cur < c ∧ c ≤ ts.length := by
  obtain ⟨n, s, _, _, _, hd, hc⟩ := (parseExprMix_sound fuel).1 ts cur v c h
  have := congrArg List.length hd
  simp only [List.length_drop, List.length_append, List.length_cons] at this
  omega

theorem parseMix_done_step {f : Nat} (ihe : ExprDone f) (ihm : MixDone f) :
    MixDone (f + 1) := by
  intro ts cur hf
  rw [parseMix, bind_run]
  have hitem : ((do
        if ← peekIdentifier then
          let e ← parseExpression f
          return MixItem.expression e.1 e.2
        else
          return MixItem.literal (← parseLiteral f)) : P MixItem) ts cur ≠ .outOfFuel ∧
      ∀ item c, ((do
        if ← peekIdentifier then
          let e ← parseExpression f
          return MixItem.expression e.1 e.2
        else
          return MixItem.literal (← parseLiteral f)) : P MixItem) ts cur = .ok item c →
        cur < c ∧ c ≤ ts.length := by
    by_cases hp : isIdentifier (toStr ts[cur]?) = true
    · have hr := ihe ts cur (by omega)
      cases hres : parseExpression f ts cur with
      | outOfFuel => exact absurd hres hr
      | throw e => simp [peekIdentifier_run, hp, hres]
      | ok e c3 =>
        have hbd := parseExpression_bounds hres
        simp only [bind_run, peekIdentifier_run, hp, ↓reduceIte, hres, pure_run, ne_eq,
          not_false_eq_true, Result.ok.injEq, true_and, and_imp, reduceCtorEq]
        intro item c _ hc
        omega
    · have hr := parseLiteral_done f ts cur (by omega)
      cases hres : parseLiteral f ts cur with
      | outOfFuel => exact absurd hres hr
      | throw e => simp [peekIdentifier_run, hp, hres]
      | ok l c3 =>
        have hbd := parseLiteral_bounds hres
        simp only [bind_run, peekIdentifier_run, hp, Bool.false_eq_true, ↓reduceIte, hres,
          pure_run, ne_eq, not_false_eq_true, Result.ok.injEq, true_and, and_imp, reduceCtorEq]
        intro item c _ hc
        omega
  generalize ((do
        if ← peekIdentifier then
          let e ← parseExpression f
          return MixItem.expression e.1 e.2
        else
          return MixItem.literal (← parseLiteral f)) : P MixItem) = itemP at hitem ⊢
  cases hres : itemP ts cur with
  | outOfFuel => exact absurd hres hitem.1
  | throw e => simp
  | ok item c =>
    have hbd := hitem.2 item c hres
    cases h3 : ts[c]? with
    | none => simp [matchAny_run, h3]
    | some t =>
      by_cases ht : t = units ","
      · subst ht
        have hr2 := ihm ts (c + 1) (by omega)
        cases hres2 : parseMix f ts (c + 1) with
        | outOfFuel => exact absurd hres2 hr2
        | throw e => simp [matchAny_run, h3, hres2]
        | ok m2 c3 => simp [matchAny_run, h3, hres2]
      · simp [matchAny_run, h3, ht]

theorem parseExprMix_done : ∀ fuel : Nat, ExprDone fuel ∧ MixDone fuel := by
  intro fuel
  induction fuel with
  | zero =>
    constructor
    · intro ts cur h; omega
    · intro ts cur h; omega
  | succ f ih => exact ⟨parseExpression_done_step ih.2, parseMix_done_step ih.1 ih.2⟩

theorem parseParameters_bounds {fuel : Nat} {ts : List Token} {cur : Nat}
    {v : List Parameter} {c : Nat} (h : parseParameters fuel ts cur = .ok v c) :
    cur ≤ c ∧ c ≤ ts.length ∨ ts.length < cur := by
  obtain ⟨s, _, hd, hc⟩ := parseParameters_sound fuel ts cur v c h
  have := congrArg List.length hd
  simp only [List.length_drop, List.length_append] at this
  omega

theorem parseLiterals_bounds {fuel : Nat} {ts : List Token} {cur : Nat}
    {v : List Literal} {c : Nat} (h : parseLiterals fuel ts cur = .ok v c) :
    cur ≤ c ∧ c ≤ ts.length ∨ ts.length < cur := by
  obtain ⟨s, _, hd, hc⟩ := parseLiterals_sound fuel ts cur v c h
  have := congrArg List.length hd
  simp only [List.length_drop, List.length_append] at this
  omega

theorem parseSignature_done (fuel : Nat) (ts : List Token) (cur : Nat)
    (hf : ts.length - cur < fuel) : parseSignature fuel ts cur ≠ .outOfFuel := by
  rw [parseSignature]
  cases h0 : ts[cur]? with
  | none => simp [consumeIdentifier_run, h0, consume_run]
  | some n =>
    have hlt := getElem?_lt h0
    by_cases hn : isIdentifier n = true
    · by_cases h1 : ts[cur + 1]? = some (units "(")
      · have hlt1 := getElem?_lt h1
        have hr := parseParameters_done fuel ts (cur + 1 + 1) (by omega)
        cases hres : parseParameters fuel ts (cur + 1 + 1) with
        | outOfFuel => exact absurd hres hr
        | throw e => simp [consumeIdentifier_run, h0, hn, consume_run, h1, hres]
        | ok ps c =>
          have hbd := parseParameters_bounds hres
          by_cases h3 : ts[c]? = some (units ")")
          · by_cases h4 : ts[c + 1]? = some (units "->")
            · have hr2 := parseType_done fuel ts (c + 1 + 1) (by omega)
              cases hres2 : parseType fuel ts (c + 1 + 1) with
              | outOfFuel => exact absurd hres2 hr2
              | throw e =>
                simp [consumeIdentifier_run, h0, hn, consume_run, h1, hres, h3, h4, hres2]
              | ok r c3 =>
                simp [consumeIdentifier_run, h0, hn, consume_run, h1, hres, h3, h4, hres2]
            · simp [consumeIdentifier_run, h0, hn, consume_run, h1, hres, h3, h4]
          · simp [consumeIdentifier_run, h0, hn, consume_run, h1, hres, h3]
      · simp [consumeIdentifier_run, h0, hn, consume_run, h1]
    · simp [consumeIdentifier_run, h0, hn]

theorem parseExample_done (fuel : Nat) (ts : List Token) (cur : Nat)
    (hf : ts.length - cur < fuel) : parseExample fuel ts cur ≠ .outOfFuel := by
  rw [parseExample]
  cases h0 : ts[cur]? with
  | none => simp [consumeIdentifier_run, h0, consume_run]
  | some n =>
    have hlt := getElem?_lt h0
    by_cases hn : isIdentifier n = true
    · by_cases h1 : ts[cur + 1]? = some (units "(")
      · have hlt1 := getElem?_lt h1
        have hr := parseLiterals_done fuel ts (cur + 1 + 1) (by omega)
        cases hres : parseLiterals fuel ts (cur + 1 + 1) with
        | outOfFuel => exact absurd hres hr
        | throw e => simp [consumeIdentifier_run, h0, hn, consume_run, h1, hres]
        | ok ls c =>
          have hbd := parseLiterals_bounds hres
          by_cases h3 : ts[c]? = some (units ")")
          · by_cases h4 : ts[c + 1]? = some (units "=")
            · have hr2 := parseLiteral_done fuel ts (c + 1 + 1) (by omega)
              cases hres2 : parseLiteral fuel ts (c + 1 + 1) with
              | outOfFuel => exact absurd hres2 hr2
              | throw e =>
                simp [consumeIdentifier_run, h0, hn, consume_run, h1, hres, h3, h4, hres2]
              | ok r c3 =>
                simp [consumeIdentifier_run, h0, hn, consume_run, h1, hres, h3, h4, hres2]
            · simp [consumeIdentifier_run, h0, hn, consume_run, h1, hres, h3, h4]
          · simp [consumeIdentifier_run, h0, hn, consume_run, h1, hres, h3]
      · simp [consumeIdentifier_run, h0, hn, consume_run, h1]
    · simp [consumeIdentifier_run, h0, hn]

theorem parseStatement_done (fuel : Nat) (ts : List Token) (cur : Nat)
    (hf : ts.length - cur < fuel) : parseStatement fuel ts cur ≠ .outOfFuel := by
  rw [parseStatement]
  by_cases hsig : ts[cur]? = some (units "signature")
  · have h0 := matchAny_true [units "signature"] hsig (by simp)
    simpa [h0] using parseSignature_done fuel ts (cur + 1) (by omega)
  · have h00 := matchAny_false [units "signature"] ts cur (by simpa using hsig)
    by_cases hex : ts[cur]? = some (units "example")
    · have h01 := matchAny_true [units "example"] hex (by simp)
      simpa [h00, h01] using parseExample_done fuel ts (cur + 1) (by omega)
    · have h01 := matchAny_false [units "example"] ts cur (by simpa using hex)
      by_cases hp : isIdentifier (toStr ts[cur]?) = true
      · have hr := (parseExprMix_done fuel).1 ts cur hf
        cases hres : parseExpression fuel ts cur with
        | outOfFuel => exact absurd hres hr
        | throw e => simp [h00, h01, peekIdentifier_run, hp, hres]
        | ok e c => simp [h00, h01, peekIdentifier_run, hp, hres]
      · simp [h00, h01, peekIdentifier_run, hp]

theorem parseLoop_done : ∀ (fuel : Nat) (ts : List Token) (cur : Nat),
    ts.length - cur + 1 < fuel → parseLoop fuel ts cur ≠ .outOfFuel := by
  intro fuel
  induction fuel with
  | zero => intro ts cur h; omega
  | succ f ih =>
    intro ts cur hf
    rw [parseLoop]
    by_cases hend : ts.length ≤ cur
    · simp [hend]
    · have hr := parseStatement_done f ts cur (by omega)
      cases hres : parseStatement f ts cur with
      | outOfFuel => exact absurd hres hr
      | throw e => simp [hend, hres]
      | ok st c =>
        have hbd := parseStatement_bounds hres
        have hr2 := ih ts c (by omega)
        cases hres2 : parseLoop f ts c with
        | outOfFuel => exact absurd hres2 hr2
        | throw e => simp [hend, hres, hres2]
        | ok q c3 => simp [hend, hres, hres2]

theorem parse_done (ts : List Token) : parse ts ≠ .outOfFuel := by
  have h := parseLoop_done (ts.length + 2) ts 0 (by omega)
  unfold parse
  cases hres : parseLoop (ts.length + 2) ts 0 with
  | outOfFuel => exact absurd hres h
  | throw e => simp
  | ok q c => simp

theorem refines_refl {α : Type} (p : P α) : Refines p p := fun _ _ => Or.inr rfl

theorem refines_bind {α β : Type} {p q : P α} {k l : α → P β} (h : Refines p q)
    (hk : ∀ a, Refines (k a) (l a)) : Refines (p >>= k) (q >>= l) := by
  intro ts cur
  simp only [bind_run]
  rcases h ts cur with h1 | h1
  · left; rw [h1]
  · rw [← h1]
    cases hp : p ts cur with
    | ok a c => exact hk a ts c
    | throw e => right; rfl
    | outOfFuel => left; rfl

theorem refines_ite {α : Type} {c : Prop} [Decidable c] {p q p2 q2 : P α} (h : Refines p q)
    (h2 : Refines p2 q2) : Refines (if c then p else p2) (if c then q else q2) := by
  by_cases hc : c
  · simpa [hc] using h
  · simpa [hc] using h2

theorem refines_fuel {α : Type} (q : P α) : Refines (fun _ _ => Result.outOfFuel) q :=
  fun _ _ => Or.inl rfl

theorem parseType_refines (f : Nat) : Refines (parseType f) (parseType (f + 1)) := by
  induction f with
  | zero => exact refines_fuel _
  | succ f ih =>
    rw [parseType, parseType]
    repeat first
      | exact ih
      | exact refines_refl _
      | apply refines_ite
      | apply refines_bind
      | intro _

theorem parseLiteral_refines (f : Nat) : Refines (parseLiteral f) (parseLiteral (f + 1)) := by
  induction f with
  | zero => exact refines_fuel _
  | succ f ih =>
    rw [parseLiteral, parseLiteral]
    repeat first
      | exact ih
      | exact refines_refl _
      | apply refines_ite
      | apply refines_bind
      | intro _

theorem parseParameters_refines (f : Nat) :
    Refines (parseParameters f) (parseParameters (f + 1)) := by
  induction f with
  | zero => exact refines_fuel _
  | succ f ih =>
    rw [parseParameters, parseParameters]
    repeat first
      | exact ih
      | exact parseType_refines _
      | exact refines_refl _
      | apply refines_ite
      | apply refines_bind
      | intro _

theorem parseLiterals_refines (f : Nat) :
    Refines (parseLiterals f) (parseLiterals (f + 1)) := by
  induction f with
  | zero => exact refines_fuel _
  | succ f ih =>
    rw [parseLiterals, parseLiterals]
    repeat first
      | exact ih
      | exact parseLiteral_refines _
      | exact refines_refl _
      | apply refines_ite
      | apply refines_bind
      | intro _

theorem parseExprMix_refines (f : Nat) :
    Refines (parseExpression f) (parseExpression (f + 1)) ∧
      Refines (parseMix f) (parseMix (f + 1)) := by
  induction f with
  | zero => exact ⟨refines_fuel _, refines_fuel _⟩
  | succ f ih =>
    obtain ⟨ihe, ihm⟩ := ih
    constructor
    · rw [parseExpression, parseExpression]
      repeat first
        | exact ihm
        | exact refines_refl _
        | apply refines_ite
        | apply refines_bind
        | intro _
    · rw [parseMix, parseMix]
      repeat first
        | exact ihm
        | exact ihe
        | exact parseLiteral_refines _
        | exact refines_refl _
        | apply refines_ite
        | apply refines_bind
        | intro _

theorem parseStatement_refines (f : Nat) :
    Refines (parseStatement f) (parseStatement (f + 1)) := by
  unfold parseStatement parseSignature parseExample
  repeat first
    | exact parseParameters_refines _
    | exact parseType_refines _
    | exact parseLiterals_refines _
    | exact parseLiteral_refines _
    | exact (parseExprMix_refines _).1
    | exact refines_refl _
    | apply refines_ite
    | apply refines_bind
    | intro _

theorem parseLoop_refines (f : Nat) : Refines (parseLoop f) (parseLoop (f + 1)) := by
  induction f with
  | zero => exact refines_fuel _
  | succ f ih =>
    rw [parseLoop, parseLoop]
    repeat first
      | exact ih
      | exact parseStatement_refines _
      | exact refines_refl _
      | apply refines_ite
      | apply refines_bind
      | intro _

theorem parseLoop_budget (ts : List Token) (k : Nat) :
    parseLoop (ts.length + 2 + k) ts 0 = parseLoop (ts.length + 2) ts 0 := by
  induction k with
  | zero => rfl
  | succ k ih =>
    rcases parseLoop_refines (ts.length + 2 + k) ts 0 with h | h
    · rw [ih] at h
      exact absurd h (parseLoop_done _ ts 0 (by omega))
    · rw [← ih]
      exact h.symm

/-- C17: for every token sequence `parse` terminates, returning a program or
throwing an error, and a larger recursion budget changes nothing; a call of
`parseStatement`, `parseType`, `parseLiteral` or `parseExpression` that returns
normally has advanced the cursor, and each of the recursive methods needs no
more nested calls than there are tokens left. -/
theorem parse_terminates (ts : List Token) :
    ((∃ p, parse ts = .program p) ∨ (∃ e, parse ts = .error e)) ∧
      (∀ k, parseLoop (ts.length + 2 + k) ts 0 = parseLoop (ts.length + 2) ts 0) ∧
      (∀ fuel cur st c, parseStatement fuel ts cur = .ok st c → cur < c ∧ c ≤ ts.length) ∧
      (∀ fuel cur v c, parseType fuel ts cur = .ok v c → cur < c ∧ c ≤ ts.length) ∧
      (∀ fuel cur v c, parseLiteral fuel ts cur = .ok v c → cur < c ∧ c ≤ ts.length) ∧
      (∀ fuel cur v c, parseExpression fuel ts cur = .ok v c → cur < c ∧ c ≤ ts.length) ∧
      (∀ fuel cur, ts.length - cur < fuel →
        parseType fuel ts cur ≠ .outOfFuel ∧ parseLiteral fuel ts cur ≠ .outOfFuel ∧
          parseExpression fuel ts cur ≠ .outOfFuel ∧ parseStatement fuel ts cur ≠ .outOfFuel) ∧
      (∀ fuel cur, ts.length - cur + 1 < fuel → parseLoop fuel ts cur ≠ .outOfFuel) := by
  refine ⟨?_, parseLoop_budget ts, ?_, ?_, ?_, ?_, ?_, ?_⟩
  · have h := parse_done ts
    cases hp : parse ts with
    | program p => exact Or.inl ⟨p, rfl⟩
    | error e => exact Or.inr ⟨e, rfl⟩
    | outOfFuel => exact absurd hp h
  · intro fuel cur st c h
    exact parseStatement_bounds h
  · intro fuel cur v c h
    exact parseType_bounds h
  · intro fuel cur v c h
    exact parseLiteral_bounds h
  · intro fuel cur v c h
    exact parseExpression_bounds h
  · intro fuel cur hf
    exact ⟨parseType_done fuel ts cur hf, parseLiteral_done fuel ts cur hf,
      (parseExprMix_done fuel).1 ts cur hf, parseStatement_done fuel ts cur hf⟩
  · intro fuel cur hf
    exact parseLoop_done fuel ts cur hf

/-! ## Concatenation -/

theorem parseLoop_end : ∀ (fuel : Nat) (ts : List Token) (cur : Nat) (p : List Statement)
    (c : Nat), parseLoop fuel ts cur = .ok p c → cur ≤ ts.length → c = ts.length := by
  intro fuel
  induction fuel with
  | zero => intro ts cur p c h; simp [parseLoop] at h
  | succ f ih =>
    intro ts cur p c h hle
    rw [parseLoop] at h
    by_cases hend : ts.length ≤ cur
    · simp [hend] at h
      omega
    · cases hr : parseStatement f ts cur with
      | throw e => simp [hend, hr] at h
      | outOfFuel => simp [hend, hr] at h
      | ok st c1 =>
        have hbd := parseStatement_bounds hr
        cases hr2 : parseLoop f ts c1 with
        | throw e => simp [hend, hr, hr2] at h
        | outOfFuel => simp [hend, hr, hr2] at h
        | ok q c3 =>
          simp [hend, hr, hr2] at h
          have := ih ts c1 q c3 hr2 hbd.2
          omega

theorem progG_slices {s : List Token} {p : List Statement} (h : ProgG s p) :
    ∃ slices : List (List Token), slices.flatten = s ∧
      List.Forall₂ (fun sl st => parse sl = .program [st]) slices p := by
  induction h with
  | nil => exact ⟨[], rfl, List.Forall₂.nil⟩
  | cons s st s2 p hs _ ih =>
    obtain ⟨slices, hfl, hall⟩ := ih
    refine ⟨s :: slices, by simp [hfl], List.Forall₂.cons ?_ hall⟩
    exact (parse_program_iff _ _).mpr (progG_single hs)

theorem parse_append_inv {ts1 ts2 : List Token} {p1 p : List Statement}
    (h1 : parse ts1 = .program p1) (h : parse (ts1 ++ ts2) = .program p) :
    ∃ p2, parse ts2 = .program p2 ∧ p = p1 ++ p2 := by
  obtain ⟨k, hk⟩ := parse_of_prefix h1 ts2
  unfold parse at h
  rw [List.length_append, hk] at h
  cases hr : parseLoop (k + 2) (ts1 ++ ts2) ts1.length with
  | throw e => simp [hr, Result.prepend] at h
  | outOfFuel => simp [hr, Result.prepend] at h
  | ok p2 c =>
    simp only [hr, Result.prepend, Outcome.program.injEq] at h
    have hg := parseLoop_sound _ _ _ _ _ hr
    simp only [List.drop_left] at hg
    exact ⟨p2, (parse_program_iff _ _).mpr hg, h.symm⟩

/-- C20: parsing is compositional over concatenation of token sequences: when
`parse` returns `p1` on `ts1`, it succeeds on `ts1 ++ ts2` exactly when it
succeeds on `ts2`, and then returns `p1 ++ p2`; a successful parse leaves the
cursor at the end, and its statements are the parses of consecutive slices of
the tokens, in source order. -/
theorem parse_compositional (ts1 ts2 : List Token) (p1 : List Statement)
    (h1 : parse ts1 = .program p1) :
    ((∃ p, parse (ts1 ++ ts2) = .program p) ↔ (∃ p2, parse ts2 = .program p2)) ∧
      (∀ p2, parse ts2 = .program p2 → parse (ts1 ++ ts2) = .program (p1 ++ p2)) ∧
      (∀ p, parse (ts1 ++ ts2) = .program p → ∃ p2, parse ts2 = .program p2 ∧ p = p1 ++ p2) ∧
      (∀ fuel p c, parseLoop fuel ts1 0 = .ok p c → c = ts1.length) ∧
      (∃ slices : List (List Token), slices.flatten = ts1 ∧
        List.Forall₂ (fun sl st => parse sl = .program [st]) slices p1) := by
  refine ⟨⟨?_, ?_⟩, ?_, ?_, ?_, ?_⟩
  · rintro ⟨p, hp⟩
    obtain ⟨p2, hp2, _⟩ := parse_append_inv h1 hp
    exact ⟨p2, hp2⟩
  · rintro ⟨p2, hp2⟩
    exact ⟨p1 ++ p2, parse_append h1 hp2⟩
  · intro p2 hp2
    exact parse_append h1 hp2
  · intro p hp
    exact parse_append_inv h1 hp
  · intro fuel p c h
    exact parseLoop_end fuel ts1 0 p c h (Nat.zero_le _)
  · exact progG_slices ((parse_program_iff _ _).mp h1)

set_option maxRecDepth 8000 in
/-- C20, the instance: the tokens of `foo(1)` followed by those of `bar(2)`. -/
theorem parse_compositional_witness :
    parseSource (units "foo(1) bar(2)") =
      .program [.expression (some (units "foo")) [.literal (.num (.finite 1 0))],
        .expression (some (units "bar")) [.literal (.num (.finite 2 0))]] :=
  (parse_compositional (tokenize (units "foo(1)")) (tokenize (units "bar(2)"))
    [.expression (some (units "foo")) [.literal (.num (.finite 1 0))]] (by rfl)).2.1
    [.expression (some (units "bar")) [.literal (.num (.finite 2 0))]] (by rfl)

end Mirror
